import Mathlib

set_option autoImplicit false

/-!
# dva-core: reducer composition, namespace prefixing and the hook registry

A shallow embedding of `handleActions.js`, `getReducer.js`, `prefixNamespace.js`,
`prefixType.js` and `Plugin.js`, followed by the properties proved about them.

Conventions of the embedding:

* a plain JavaScript object is the list of its own enumerable properties in the order
  `Object.keys` enumerates them (`Obj`); property names of one object are pairwise
  distinct, which theorems assume as `(Obj.keys o).Nodup`;
* a JavaScript value that may be `undefined` is an `Option`, `none` being `undefined`;
* a call that may throw returns `Except JsError _`.
-/

namespace Dva

/-! ## Objects -/

/-- A plain object: own enumerable properties in `Object.keys` order. -/
abbrev Obj (V : Type) := List (String × V)

/-- The result of `Object.keys(o)`. -/
def Obj.keys {V : Type} (o : Obj V) : List String := o.map Prod.fst

/-- Own-property read: `none` when `key` is not an own property of `o`. -/
def Obj.getOwn {V : Type} : Obj V → String → Option V
  | [], _ => none
  | (k, v) :: rest, key => if k = key then some v else Obj.getOwn rest key

/-- The assignment `o[key] = v`: an existing property keeps its position and takes the new
value, a new property is added last. -/
def Obj.set {V : Type} : Obj V → String → V → Obj V
  | [], key, v => [(key, v)]
  | (k, w) :: rest, key, v =>
    if k = key then (k, v) :: rest else (k, w) :: Obj.set rest key v

/-- Property names every plain object inherits from `Object.prototype`; a read `o[key]`
that finds no own property `key` yields the inherited value, which is a function for all of
these names except `__proto__`, where it is `Object.prototype` itself. -/
def objectPrototypeKeys : List String :=
  ["constructor", "hasOwnProperty", "isPrototypeOf", "propertyIsEnumerable",
   "toLocaleString", "toString", "valueOf", "__proto__", "__defineGetter__",
   "__defineSetter__", "__lookupGetter__", "__lookupSetter__"]

/-! ## Errors -/

/-- What a call throws: a failed `invariant(...)`, a `TypeError` raised by the language,
or a value thrown by caller-supplied code. -/
inductive JsError where
  | invariant (msg : String)
  | typeError (msg : String)
  | thrown (tag : String)
  deriving DecidableEq, Repr

/-- The call `invariant(cond, msg)` of the `invariant` package: throws unless `cond` is truthy. -/
def invariant (cond : Bool) (msg : String) : Except JsError Unit :=
  if cond then .ok () else .error (.invariant msg)

/-! ## handleActions.js -/

/-- An action `{ type, ...payload }`; `type` is a string or missing (`undefined`). -/
structure Action (P : Type) where
  type : Option String
  payload : P

/-- Truthiness of an action's `type` field: a missing type and the empty string are falsy. -/
def truthyType : Option String → Bool
  | none => false
  | some s => decide (s ≠ "")

/-- A reducer `(state, action) => state`; the state may be `undefined`, the call may throw. -/
abbrev Reducer (σ P : Type) := Option σ → Action P → Except JsError (Option σ)

/-- Source `identify`, used as the two-argument reducer `handleAction` defaults to. -/
def identify {σ P : Type} : Reducer σ P := fun value _ => .ok value

/-- Source `handleAction(actionType, reducer)`. -/
def handleAction {σ P : Type} (actionType : String) (reducer : Reducer σ P) : Reducer σ P :=
  fun state action =>
    let type := action.type
    match invariant (truthyType type) "dispatch: action should be a plain Object with type" with
    | .error e => .error e
    | .ok _ => if some actionType = type then reducer state action else .ok state

/-- The loop of `Array.prototype.reduce` over reducers; an exception ends it. -/
def reduceLoop {σ P : Type} : List (Reducer σ P) → Option σ → Action P → Except JsError (Option σ)
  | [], p, _ => .ok p
  | r :: rest, p, current =>
    match r p current with
    | .error e => .error e
    | .ok p1 => reduceLoop rest p1 current

/-- Source `reduceReducers(...reducers)`. -/
def reduceReducers {σ P : Type} (reducers : List (Reducer σ P)) : Reducer σ P :=
  fun previous current => reduceLoop reducers previous current

/-- Source `handleActions(handlers, defaultState)`. A handler read as `handlers[type]` that is
`undefined` makes `handleAction` fall back to `identify`. -/
def handleActions {σ P : Type} (handlers : Obj (Reducer σ P)) (defaultState : Option σ) :
    Reducer σ P :=
  let reducers := (Obj.keys handlers).map
    (fun type => handleAction type ((Obj.getOwn handlers type).getD identify))
  let reducer := reduceReducers reducers
  fun state action =>
    reducer (match state with | none => defaultState | some _ => state) action

/-! ## getReducer.js -/

/-- The `reducers` field of a model: a handler map or a pair `[map, enhancer]`. -/
inductive Reducers (H E : Type) where
  | map (handlers : Obj H)
  | pair (handlers : Obj H) (enhancer : E)

/-- A reducer enhancer, the second element of a `[map, enhancer]` pair. -/
abbrev Enhancer (σ P : Type) := Reducer σ P → Reducer σ P

/-- A handler builder, the signature of `handleActions`. -/
abbrev Builder (σ P : Type) := Obj (Reducer σ P) → Option σ → Reducer σ P

/-- Source `getReducer(reducers, state, handleActions)`; `reducers` and `handleActions`
may be absent. -/
def getReducer {σ P : Type} (reducers : Option (Reducers (Reducer σ P) (Enhancer σ P)))
    (state : Option σ) (handleActions' : Option (Builder σ P)) : Reducer σ P :=
  match reducers with
  | some (.pair handlers enhancer) => enhancer ((handleActions'.getD handleActions) handlers state)
  | some (.map handlers) => (handleActions'.getD handleActions) handlers state
  | none => (handleActions'.getD handleActions) [] state

/-! ## prefixNamespace.js -/

/-- Modelled from the spec: the constant `NAMESPACE_SEP` of `constants.js`, a file that is
not among the sources; the spec writes every qualified key as `N/k`. -/
def NAMESPACE_SEP : String := "/"

/-- The test `key.indexOf(p) === 0`: `key` starts with `p`. -/
def startsWith (key p : String) : Bool := p.data.isPrefixOf key.data

/-- The body of the reduction in `prefix`, for the property `kv` of `obj` (`obj[key]` is the
value of the property visited): the first component is `memo`, the second collects the
messages passed to `warning(...)` with a false condition. -/
def prefixStep {V : Type} («namespace» : String) (type : String)
    (acc : Obj V × List String) (kv : String × V) : Obj V × List String :=
  let key := kv.1
  let warned :=
    if startsWith key («namespace» ++ NAMESPACE_SEP) then
      acc.2 ++ ["[prefixNamespace]: " ++ type ++ " " ++ key ++
        " should not be prefixed with namespace " ++ «namespace»]
    else acc.2
  let newKey := «namespace» ++ NAMESPACE_SEP ++ key
  (Obj.set acc.1 newKey kv.2, warned)

/-- Source `prefix(obj, namespace, type)`: the reduction over the properties of `obj` in
`Object.keys` order, starting from `{}`; returns the new object and the warnings issued. -/
def prefixKeys {V : Type} (obj : Obj V) («namespace» : String) (type : String) :
    Obj V × List String :=
  obj.foldl (prefixStep «namespace» type) ([], [])

/-- A model `{ namespace, state, reducers, effects, subscriptions }`. `H`, `E`, `F`, `B` are
the types of handlers, of the enhancer of a reducer pair, of effect declarations and of the
subscription map. -/
structure Model (S H E F B : Type) where
  «namespace» : String
  state : S
  reducers : Option (Reducers H E)
  effects : Option (Obj F)
  subscriptions : Option B

/-- Source `prefixNamespace(model)`, returning the model together with the warnings issued. -/
def prefixNamespace {S H E F B : Type} (model : Model S H E F B) :
    Model S H E F B × List String :=
  let «namespace» := model.«namespace»
  let reducers := model.reducers
  let effects := model.effects
  let step1 : Model S H E F B × List String :=
    match reducers with
    | some (.pair handlers enhancer) =>
      let r := prefixKeys handlers «namespace» "reducer"
      ({ model with reducers := some (.pair r.1 enhancer) }, r.2)
    | some (.map handlers) =>
      let r := prefixKeys handlers «namespace» "reducer"
      ({ model with reducers := some (.map r.1) }, r.2)
    | none => (model, [])
  match effects with
  | some eff =>
    let r := prefixKeys eff «namespace» "effect"
    ({ step1.1 with effects := some r.1 }, step1.2 ++ r.2)
  | none => step1

/-! ## prefixType.js -/

/-- Whether the pattern `\/@@[^/]+?$` matches at the start of the given characters: a slash,
two at-signs, then one or more characters other than a slash up to the end of the input. -/
def matchesAffix : List Char → Bool
  | a :: b :: c :: d :: rest =>
    a == '/' && b == '@' && c == '@' && (d :: rest).all (fun x => x != '/')
  | _ => false

/-- The search of `replace(/\/@@[^/]+?$/, '')`: the leftmost position where the pattern
matches is found and the match, which reaches the end of the input, is removed. -/
def stripAffixChars : List Char → List Char
  | [] => []
  | c :: rest => if matchesAffix (c :: rest) then [] else c :: stripAffixChars rest

/-- The call `s.replace(/\/@@[^/]+?$/, '')`. -/
def stripAffix (s : String) : String := ⟨stripAffixChars s.data⟩

/-- Truthiness of the read `o[key]` on a map of handlers or of effect declarations whose own
properties all hold truthy values, as functions and arrays are: the read is truthy when
`key` is an own property and also when it names a property inherited from
`Object.prototype`. A map with an own property that holds a falsy value is outside this
definition; `isEffect` reads the stored value instead. -/
def readTruthy {V : Type} (o : Obj V) (key : String) : Bool :=
  (Obj.getOwn o key).isSome || objectPrototypeKeys.contains key

/-- Source `prefixType(type, model)`. -/
def prefixType {S H E F B : Type} (type : String) (model : Model S H E F B) : String :=
  let prefixedType := model.«namespace» ++ NAMESPACE_SEP ++ type
  let typeWithoutAffix := stripAffix prefixedType
  let reducer :=
    match model.reducers with
    | some (.pair handlers _) => readTruthy handlers typeWithoutAffix
    | some (.map handlers) => readTruthy handlers typeWithoutAffix
    | none => false
  if reducer || (match model.effects with
      | some eff => readTruthy eff typeWithoutAffix
      | none => false) then
    prefixedType
  else type

/-! ## Plugin.js -/

/-- A JavaScript value held by the hook registry. `F` is the type of function values;
numbers are integers. -/
inductive Val (F : Type) where
  | undefined
  | null
  | bool (b : Bool)
  | num (n : Int)
  | str (s : String)
  | fn (f : F)
  | arr (items : List (Val F))
  | obj (props : List (String × Val F))

/-- Truthiness of a value: `undefined`, `null`, `false`, `0` and the empty string are falsy. -/
def Val.truthy {F : Type} : Val F → Bool
  | .undefined => false
  | .null => false
  | .bool b => b
  | .num n => decide (n ≠ 0)
  | .str s => decide (s ≠ "")
  | .fn _ => true
  | .arr _ => true
  | .obj _ => true

/-- Source constant `hooks`: the known hook names. -/
def hooks : List String :=
  ["onError", "onStateChange", "onAction", "onHmr", "onReducer", "onEffect",
   "extraReducers", "extraEnhancers", "_handleActions"]

/-- An instance of the class `Plugin`: the field `_handleActions` and the object `hooks`. -/
structure Plugin (F : Type) where
  _handleActions : Val F
  hooks : Obj (Val F)

/-- Source `constructor()`: `_handleActions` is `null` and every known hook holds `[]`. -/
def Plugin.new {F : Type} : Plugin F :=
  { _handleActions := .null
    hooks := Dva.hooks.foldl (fun memo key => Obj.set memo key (.arr [])) [] }

/-- The outcome of the read `o[key]` on a plain object: an own property, a property inherited
from `Object.prototype` (a built-in function or object, truthy, without a method `push`),
or `undefined`. -/
inductive Read (V : Type) where
  | own (v : V)
  | inherited
  | missing

/-- The read `o[key]` on a plain object. -/
def Obj.read {V : Type} (o : Obj V) (key : String) : Read V :=
  match Obj.getOwn o key with
  | some v => .own v
  | none => if objectPrototypeKeys.contains key then .inherited else .missing

/-- Truthiness of the outcome of a read. -/
def Read.truthy {F : Type} : Read (Val F) → Bool
  | .own v => v.truthy
  | .inherited => true
  | .missing => false

/-- One iteration of the loop of `use`, for the own property `key` of the plugin with value
`value`. A stored value that is not an array has no method `push` (the stored value of every
hook reached by this branch is an array). -/
def Plugin.useKey {F : Type} (self : Plugin F) (key : String) (value : Val F) :
    Except JsError (Plugin F) :=
  match invariant (Obj.read self.hooks key).truthy ("plugin.use: unknown plugin property: " ++ key) with
  | .error e => .error e
  | .ok _ =>
    if key = "_handleActions" then
      .ok { self with _handleActions := value }
    else if key = "extraEnhancers" then
      .ok { self with hooks := Obj.set self.hooks key value }
    else
      match Obj.read self.hooks key with
      | .own (.arr items) => .ok { self with hooks := Obj.set self.hooks key (.arr (items ++ [value])) }
      | _ => .error (.typeError "hooks[key].push is not a function")

/-- The loop `for (const key in plugin)` of `use` over the own properties of the plugin. The
registry is updated in place, so the result carries the registry as the loop left it,
together with the error that ended the loop, if any. -/
def Plugin.useLoop {F : Type} : Plugin F → List (String × Val F) → Plugin F × Option JsError
  | self, [] => (self, none)
  | self, (key, value) :: rest =>
    match Plugin.useKey self key value with
    | .error e => (self, some e)
    | .ok next => Plugin.useLoop next rest

/-- Source `use(plugin)` for a plain object `plugin` (for which `isPlainObject` holds). -/
def Plugin.use {F : Type} (self : Plugin F) (plugin : Obj (Val F)) : Plugin F × Option JsError :=
  Plugin.useLoop self plugin

/-- A recorded call `fn(...args)`: the function called and its arguments. -/
abbrev Call (F : Type) := Val F × List (Val F)

/-- How the function values behave when called: `none` when the call returns, `some e` when
it throws `e`. -/
abbrev Outcome (F : Type) := F → List (Val F) → Option JsError

/-- The loop `for (const fn of fns) fn(...args)`: the calls made, in order, and the error that
ended the loop, if any. Calling a value that is not a function throws a `TypeError`; a call
that throws ends the loop. -/
def callEach {F : Type} (outcome : Outcome F) :
    List (Val F) → List (Val F) → List (Call F) × Option JsError
  | [], _ => ([], none)
  | .fn f :: rest, args =>
    match outcome f args with
    | some e => ([(.fn f, args)], some e)
    | none =>
      let r := callEach outcome rest args
      ((.fn f, args) :: r.1, r.2)
  | _ :: _, _ => ([], some (.typeError "fn is not a function"))

/-- The routine returned by `apply(key, defaultHandler)`, called with `args`. It reads the
array `hooks[key]` it captured, which `use` extends in place and never replaces for the hooks
`apply` accepts; `self` is therefore the registry at the time of the call. -/
def Plugin.applied {F : Type} (outcome : Outcome F) (key : String) (defaultHandler : Val F)
    (self : Plugin F) (args : List (Val F)) : List (Call F) × Option JsError :=
  match Obj.read self.hooks key with
  | .own (.arr fns) =>
    if fns.length ≠ 0 then
      callEach outcome fns args
    else if defaultHandler.truthy then
      callEach outcome [defaultHandler] args
    else ([], none)
  | _ => ([], some (.typeError "fns is not iterable"))

/-- Source `apply(key, defaultHandler)`. -/
def Plugin.apply {F : Type} (outcome : Outcome F) (key : String) (defaultHandler : Val F) :
    Except JsError (Plugin F → List (Val F) → List (Call F) × Option JsError) :=
  let validApplyHooks := ["onError", "onHmr"]
  match invariant (validApplyHooks.contains key)
      ("plugin.apply: hook " ++ key ++ " cannot be applied") with
  | .error e => .error e
  | .ok _ => .ok (Plugin.applied outcome key defaultHandler)

/-- Own enumerable properties copied by an object spread `...v`: the properties of an
object, the indexed elements of an array, the indexed characters of a string, nothing for
any other value. -/
def spreadProps {F : Type} : Val F → Obj (Val F)
  | .obj props => props
  | .arr items => items.enum.map (fun iv => (toString iv.1, iv.2))
  | .str s => s.data.enum.map (fun ic => (toString ic.1, .str (String.singleton ic.2)))
  | _ => []

/-- The object literal `{ ...ret, ...reducerObj }`, given the properties of both. -/
def spread {V : Type} (ret reducerObj : Obj V) : Obj V :=
  reducerObj.foldl (fun acc kv => Obj.set acc kv.1 kv.2)
    (ret.foldl (fun acc kv => Obj.set acc kv.1 kv.2) [])

/-- Source `getExtraReducers(hook)`. -/
def getExtraReducers {F : Type} (hook : List (Val F)) : Obj (Val F) :=
  hook.foldl (fun ret reducerObj => spread ret (spreadProps reducerObj)) []

/-- The loop of the function returned by `getOnReducer`; `call f r` is the result of calling
the function value `f` with the reducer `r`. -/
def onReducerLoop {F R : Type} (call : F → R → R) : List (Val F) → R → Except JsError R
  | [], reducer => .ok reducer
  | .fn f :: rest, reducer => onReducerLoop call rest (call f reducer)
  | _ :: _, _ => .error (.typeError "reducerEnhancer is not a function")

/-- Source `getOnReducer(hook)`. -/
def getOnReducer {F R : Type} (call : F → R → R) (hook : List (Val F)) : R → Except JsError R :=
  fun reducer => onReducerLoop call hook reducer

/-- What `get(key)` returns: the merged extra reducers, the composed reducer enhancer, the
stored value of the hook, or a property inherited from `Object.prototype`. The enhancer
iterates, when it is called, over the array `hooks.onReducer` it captured, which `use`
extends in place and never replaces; its first argument is the registry at that time. -/
inductive Got (F R : Type) where
  | extraReducers (merged : Obj (Val F))
  | onReducer (enhance : Plugin F → R → Except JsError R)
  | raw (v : Val F)
  | inherited

/-- Source `get(key)`. The test `key in hooks` also holds for inherited properties. A stored
value that is not an array is not iterable. -/
def Plugin.get {F R : Type} (call : F → R → R) (self : Plugin F) (key : String) :
    Except JsError (Got F R) :=
  match Obj.read self.hooks key with
  | .missing => .error (.invariant ("plugin.get: hook " ++ key ++ " cannot be got"))
  | .inherited => .ok .inherited
  | .own v =>
    if key = "extraReducers" then
      match v with
      | .arr hook => .ok (.extraReducers (getExtraReducers hook))
      | _ => .error (.typeError "hook is not iterable")
    else if key = "onReducer" then
      .ok (.onReducer (fun now reducer =>
        match Obj.read now.hooks key with
        | .own (.arr hook) => getOnReducer call hook reducer
        | _ => .error (.typeError "hook is not iterable")))
    else .ok (.raw v)

/-! ## getSaga.js -/

/-- How a run of an effect routine to its end comes out: it returns `ret` or throws `e`. -/
inductive Completion (F : Type) where
  | returned (ret : Val F)
  | threw (e : Val F)

/-- An effect routine, by what a run with the given arguments comes to. -/
abbrev EffectRoutine (F : Type) := List (Val F) → Completion F

/-- What the call `onError(e, { key, effectArgs })` comes to: it returns, `props` being the
own properties it leaves on `e` when `e` is an object, or it throws `x`. -/
inductive HandlerOutcome (F : Type) where
  | returned (props : Obj (Val F))
  | threw (x : Val F)

/-- The error handler handed to `getSaga`, called with `e`, `key` and `effectArgs`. -/
abbrev ErrorHandler (F : Type) := Val F → String → List (Val F) → HandlerOutcome F

/-- What a saga does that is visible outside it: the marker action it puts, the run of the
effect routine, a call of `resolve` or `reject`, the call of the error handler. -/
inductive SagaEvent (F : Type) where
  | put (type : String)
  | effect (args : List (Val F))
  | call (fn : Val F) (args : List (Val F))
  | onError (e : Val F) (key : String) (effectArgs : List (Val F))

/-- A saga, by the events of a run with the given arguments and the value it throws, if any. -/
abbrev Saga (F : Type) := List (Val F) → List (SagaEvent F) × Option (Val F)

/-- The `TypeError` object the language throws. -/
def typeErrorVal {F : Type} (msg : String) : Val F :=
  .obj [("name", .str "TypeError"), ("message", .str msg)]

/-- The destructuring `{ name: cb = noop } = first`: `none` stands for `noop`, taken when the
property is `undefined`; `undefined` and `null` cannot be destructured. Own properties of
functions and arrays are not represented. -/
def callbackOf {F : Type} (first : Val F) (name : String) : Except (Val F) (Option (Val F)) :=
  match first with
  | .undefined => .error (typeErrorVal "Cannot destructure 'undefined'")
  | .null => .error (typeErrorVal "Cannot destructure 'null'")
  | .obj props =>
    match Obj.getOwn props name with
    | some .undefined => .ok none
    | some v => .ok (some v)
    | none => .ok none
  | _ => .ok none

/-- The call `cb(arg)` of a destructured callback: `noop` does nothing, a function is called
and returns, any other value is not callable. -/
def callCallback {F : Type} (cb : Option (Val F)) (arg : Val F) :
    Except (Val F) (List (SagaEvent F)) :=
  match cb with
  | none => .ok []
  | some (.fn f) => .ok [.call (.fn f) [arg]]
  | some _ => .error (typeErrorVal "callback is not a function")

/-- The read `e._dontReject`, as a truth value: `undefined` and `null` have no properties,
a primitive has no such property. -/
def dontReject {F : Type} (e : Val F) : Except (Val F) Bool :=
  match e with
  | .undefined => .error (typeErrorVal "Cannot read properties of undefined")
  | .null => .error (typeErrorVal "Cannot read properties of null")
  | .obj props =>
    match Obj.getOwn props "_dontReject" with
    | some v => .ok v.truthy
    | none => .ok false
  | _ => .ok false

/-- The value `e` after a call that left the own properties `props` on it: an object has
these properties, any other value is as it was. -/
def Val.withProps {F : Type} (e : Val F) (props : Obj (Val F)) : Val F :=
  match e with
  | .obj _ => .obj props
  | other => other

/-- The `catch (e)` block of `sagaWithCatch`, entered after the events `before`. -/
def sagaCaught {F : Type} (key : String) (onError : ErrorHandler F) (args : List (Val F))
    (reject : Option (Val F)) (before : List (SagaEvent F)) (e : Val F) :
    List (SagaEvent F) × Option (Val F) :=
  let events := before ++ [.onError e key args]
  match onError e key args with
  | .threw x => (events, some x)
  | .returned props =>
    let e1 := e.withProps props
    match dontReject e1 with
    | .error x => (events, some x)
    | .ok true => (events, none)
    | .ok false =>
      match callCallback reject e1 with
      | .error x => (events, some x)
      | .ok called => (events ++ called, none)

/-- Source `sagaWithCatch(...args)` of `getWatcher(key, effect, ...)`; `capabilities` is the
object `createEffects(model, opts)` appended to the arguments of the effect routine. -/
def sagaWithCatch {F : Type} (key : String) (effect : EffectRoutine F)
    (capabilities : Val F) (onError : ErrorHandler F) : Saga F :=
  fun args =>
    let first := match args with
      | [] => Val.obj []
      | a :: _ => a
    match callbackOf first "__dva_resolve", callbackOf first "__dva_reject" with
    | .error x, _ => ([], some x)
    | .ok _, .error x => ([], some x)
    | .ok resolve, .ok reject =>
      let started : List (SagaEvent F) :=
        [.put (key ++ NAMESPACE_SEP ++ "@@start"), .effect (args ++ [capabilities])]
      match effect (args ++ [capabilities]) with
      | .threw e => sagaCaught key onError args reject started e
      | .returned ret =>
        let ended := started ++ [.put (key ++ NAMESPACE_SEP ++ "@@end")]
        match callCallback resolve ret with
        | .ok called => (ended ++ called, none)
        | .error x => sagaCaught key onError args reject ended x

/-- Source `applyOnEffect(fns, effect, model, key)`; `sagaEffects` is the imported object of
executor verbs, every hook a function `(effect, sagaEffects, model, key) => effect`. -/
def applyOnEffect {R Vb M : Type} (sagaEffects : Vb) :
    List (R → Vb → M → String → R) → R → M → String → R
  | [], effect, _, _ => effect
  | fn :: rest, effect, model, key =>
    applyOnEffect sagaEffects rest (fn effect sagaEffects model key) model key

/-- The options of an effect declaration `[effect, opts]`: `type` is a string or missing,
`ms` and `delay` are numbers or missing. -/
structure EffectOpts where
  type : Option String
  ms : Option Int
  delay : Option Int

/-- An effect declaration: a routine, or an array `[effect, opts]` whose second element may
be missing. -/
inductive EffectDecl (E : Type) where
  | bare (effect : E)
  | pair (effect : E) (opts : Option EffectOpts)

/-- The routine of an effect declaration: the declaration itself, or its first element. -/
def EffectDecl.effect {E : Type} : EffectDecl E → E
  | .bare effect => effect
  | .pair effect _ => effect

/-- Truthiness of a number that may be missing: `undefined` and `0` are falsy. -/
def truthyNumber : Option Int → Bool
  | none => false
  | some n => decide (n ≠ 0)

/-- The values of `type`, `ms` and `delayMs` after the block `if (opts && opts.type)` of
`getWatcher`, for the options `o`. -/
def readOpts (o : EffectOpts) : Except JsError (String × Option Int × Option Int) :=
  if truthyType o.type then
    let type := o.type.getD "takeEvery"
    match (if type = "throttle" then
        invariant (truthyNumber o.ms) "app.start: opts.ms should be defined if type is throttle"
      else .ok ()) with
    | .error e => .error e
    | .ok _ =>
      let ms := if type = "throttle" then o.ms else none
      match (if type = "poll" then
          invariant (truthyNumber o.delay)
            "app.start: opts.delay should be defined if type is poll"
        else .ok ()) with
      | .error e => .error e
      | .ok _ => .ok (type, ms, if type = "poll" then o.delay else none)
  else .ok ("takeEvery", none, none)

/-- The first part of `getWatcher`: the values of `type`, `ms` and `delayMs` for the
declaration, or the error of a failed `invariant`. -/
def watcherSettings {E : Type} (_effect : EffectDecl E) :
    Except JsError (String × Option Int × Option Int) :=
  match _effect with
  | .bare _ => .ok ("takeEvery", none, none)
  | .pair _ opts =>
    match (match opts with
      | some o => readOpts o
      | none => .ok ("takeEvery", none, none)) with
    | .error e => .error e
    | .ok settings =>
      match invariant (["watcher", "takeEvery", "takeLatest", "throttle", "poll"].contains
          settings.1)
          "app.start: effect type should be takeEvery, takeLatest, throttle, poll or watcher" with
      | .error e => .error e
      | .ok _ => .ok settings

/-- The generator `getWatcher` returns, by the executor verb it yields and the saga that
verb runs; `raw` is the saga returned as the watcher itself. -/
inductive Watcher (R : Type) where
  | raw (saga : R)
  | takeLatest (pattern : String) (worker : R)
  | throttle (ms : Option Int) (pattern : String) (worker : R)
  | poll (delayMs : Option Int) (start stop : String) (worker : R)
  | takeEvery (pattern : String) (worker : R)

/-- The saga a watcher runs. -/
def Watcher.worker {R : Type} : Watcher R → R
  | .raw saga => saga
  | .takeLatest _ worker => worker
  | .throttle _ _ worker => worker
  | .poll _ _ _ worker => worker
  | .takeEvery _ worker => worker

/-- Source `getWatcher(key, _effect, model, onError, onEffect, opts)`; `sagaEffects` is the
imported object of executor verbs and `createEffects model opts` the capability object
`createEffects(model, opts)`, both taken as given. -/
def getWatcher {F M O Vb : Type} (sagaEffects : Vb) (createEffects : M → O → Val F)
    (key : String) (_effect : EffectDecl (EffectRoutine F)) (model : M)
    (onError : ErrorHandler F) (onEffect : List (Saga F → Vb → M → String → Saga F))
    (opts : O) : Except JsError (Watcher (Saga F)) :=
  let effect := _effect.effect
  match watcherSettings _effect with
  | .error e => .error e
  | .ok (type, ms, delayMs) =>
    let sagaWithCatch' := sagaWithCatch key effect (createEffects model opts) onError
    let sagaWithOnEffect := applyOnEffect sagaEffects onEffect sagaWithCatch' model key
    if type = "watcher" then .ok (.raw sagaWithCatch')
    else if type = "takeLatest" then .ok (.takeLatest key sagaWithOnEffect)
    else if type = "throttle" then .ok (.throttle ms key sagaWithOnEffect)
    else if type = "poll" then
      .ok (.poll delayMs (key ++ "-start") (key ++ "-stop") sagaWithOnEffect)
    else .ok (.takeEvery key sagaWithOnEffect)

/-- The two tasks `getSaga` forks for one effect: the watcher, and a canceller that takes
the action type `cancelOn` and then cancels the watcher task. -/
structure Forked (R : Type) where
  watcher : Watcher R
  cancelOn : String

/-- The loop of the generator `getSaga` returns, over the own properties of `effects`: the
tasks forked, and the error that ended the loop, if any. -/
def getSagaLoop {F S H E X B O Vb : Type} (sagaEffects : Vb)
    (createEffects : Model S H E X B → O → Val F) (model : Model S H E X B)
    (onError : ErrorHandler F)
    (onEffect : List (Saga F → Vb → Model S H E X B → String → Saga F)) (opts : O) :
    List (String × EffectDecl (EffectRoutine F)) → List (Forked (Saga F)) × Option JsError
  | [] => ([], none)
  | (key, decl) :: rest =>
    match getWatcher sagaEffects createEffects key decl model onError onEffect opts with
    | .error e => ([], some e)
    | .ok watcher =>
      let r := getSagaLoop sagaEffects createEffects model onError onEffect opts rest
      ({ watcher := watcher, cancelOn := model.«namespace» ++ "/@@CANCEL_EFFECTS" } :: r.1, r.2)

/-- Source `getSaga(effects, model, onError, onEffect, opts)`, by what a run of the
generator it returns forks. -/
def getSaga {F S H E X B O Vb : Type} (sagaEffects : Vb)
    (createEffects : Model S H E X B → O → Val F)
    (effects : Obj (EffectDecl (EffectRoutine F))) (model : Model S H E X B)
    (onError : ErrorHandler F)
    (onEffect : List (Saga F → Vb → Model S H E X B → String → Saga F)) (opts : O) :
    List (Forked (Saga F)) × Option JsError :=
  getSagaLoop sagaEffects createEffects model onError onEffect opts effects

/-! ## index.js: the global error handler -/

/-- A function value of the runtime: a function the caller supplies, or one of the closures
`start` creates: `rethrow` is `err => { throw new Error(err.stack || err) }` and
`preventDefault` is `() => { err._dontReject = true }`. -/
inductive RuntimeFn (U : Type) where
  | user (u : U)
  | rethrow
  | preventDefault

/-- How the function values of the runtime behave when called, given how the functions of
the caller behave: `rethrow` throws, `preventDefault` returns. -/
def runtimeOutcome {U : Type} (user : U → List (Val (RuntimeFn U)) → Option JsError) :
    Outcome (RuntimeFn U)
  | .user u, args => user u args
  | .rethrow, _ => some (.thrown "Error")
  | .preventDefault, _ => none

/-- The object `new Error(message)`. -/
def newError {F : Type} (message : String) : Val F :=
  .obj [("message", .str message)]

/-- The assignment `err.preventDefault = () => { ... }`. The source is a module, hence strict
code, where a property cannot be created on a primitive. Own properties of functions and
arrays are not represented: such a value stays as it is. -/
def attachPreventDefault {U : Type} (err : Val (RuntimeFn U)) :
    Except JsError (Val (RuntimeFn U)) :=
  match err with
  | .obj props => .ok (.obj (Obj.set props "preventDefault" (.fn .preventDefault)))
  | .fn f => .ok (.fn f)
  | .arr items => .ok (.arr items)
  | _ => .error (.typeError "Cannot create property 'preventDefault' on a primitive")

/-- The effect of the call `err.preventDefault()` on the error object. -/
def preventDefaultEffect {F : Type} (err : Val F) : Val F :=
  match err with
  | .obj props => .obj (Obj.set props "_dontReject" (.bool true))
  | other => other

/-- Source `onError(err, extension)` of `start`: the calls made and the error thrown, if
any. `plugin` is the registry at the time of the call and `dispatch` is
`app._store.dispatch`. -/
def start.onError {U : Type} (outcome : Outcome (RuntimeFn U)) (plugin : Plugin (RuntimeFn U))
    (dispatch : Val (RuntimeFn U)) (err extension : Val (RuntimeFn U)) :
    List (Call (RuntimeFn U)) × Option JsError :=
  if err.truthy then
    let err1 := match err with
      | .str s => newError s
      | other => other
    match attachPreventDefault err1 with
    | .error e => ([], some e)
    | .ok err2 =>
      match Plugin.apply outcome "onError" (.fn .rethrow) with
      | .error e => ([], some e)
      | .ok routine => routine plugin [err2, dispatch, extension]
  else ([], none)

/-! ## createPromiseMiddleware.js -/

/-- The first element of `type.split(NAMESPACE_SEP)`: the part of `type` before its first
slash, all of it when it has none. -/
def firstSegment (type : String) : String :=
  ⟨type.data.takeWhile (fun c => c != '/')⟩

/-- Source `isEffect(type)`, for the module list `app._models` at the time of the call. The
test `model.effects[type]` is on the truthiness of the value read: the stored value of an own
property, or the function inherited from `Object.prototype`. -/
def isEffect {S H E B F G : Type} (models : List (Model S H E (Val G) B)) (type : Val F) :
    Bool :=
  match type with
  | .str s =>
    if s = "" then false
    else
      let «namespace» := firstSegment s
      match (models.filter (fun m => decide (m.«namespace» = «namespace»))).head? with
      | some model =>
        match model.effects with
        | some eff => (Obj.read eff s).truthy
        | none => false
      | none => false
  | _ => false

/-- What the middleware returns for an action: a new promise, whose executor has called
`next` with the action `forwarded`, or the result of `next(action)`. -/
inductive Dispatched (F R : Type) where
  | deferred (forwarded : Obj (Val F))
  | direct (result : R)

/-- Source `createPromiseMiddleware(app)`, applied to `next` and to an action: `models` is
`app._models` at the time of the call, `resolve` and `reject` are the callbacks of the new
promise. -/
def createPromiseMiddleware {S H E B F G R : Type} (models : List (Model S H E (Val G) B))
    (next : Obj (Val F) → R) (resolve reject : Val F) (action : Obj (Val F)) :
    Dispatched F R :=
  let type := (Obj.getOwn action "type").getD .undefined
  if isEffect models type then
    .deferred (spread [("__dva_resolve", resolve), ("__dva_reject", reject)] action)
  else .direct (next action)

/-! ## subscription.js -/

/-- What the function values do when called with arguments: a call returns a value or
throws. -/
abbrev Behaviour (F : Type) := F → List (Val F) → Except JsError (Val F)

/-- The value `run` returns and `unlisten` reads: `{ funcs, nonFuncs }`. -/
structure Unlistener (F : Type) where
  funcs : List (Val F)
  nonFuncs : List String

/-- Source `isFunction` of `utils.js`. -/
def isFunction {F : Type} (o : Val F) : Bool :=
  match o with
  | .fn _ => true
  | _ => false

/-- What a run of `run` comes to: the two arrays as the loop left them, the calls made, in
order, and the error that ended the loop, if any. -/
structure RunResult (F : Type) where
  value : Unlistener F
  calls : List (Call F)
  error : Option JsError

/-- The loop of `run` over the own properties of `subs`; `api` is the object
`{ dispatch, history }` every subscription receives. Calling a value that is not a function
throws a `TypeError`. -/
def runLoop {F : Type} (behaviour : Behaviour F) (api onError : Val F) :
    List (String × Val F) → Unlistener F → RunResult F
  | [], acc => { value := acc, calls := [], error := none }
  | (key, sub) :: rest, acc =>
    match sub with
    | .fn f =>
      match behaviour f [api, onError] with
      | .error e => { value := acc, calls := [(.fn f, [api, onError])], error := some e }
      | .ok unlistener =>
        let next : Unlistener F :=
          if isFunction unlistener then { acc with funcs := acc.funcs ++ [unlistener] }
          else { acc with nonFuncs := acc.nonFuncs ++ [key] }
        let r := runLoop behaviour api onError rest next
        { r with calls := (.fn f, [api, onError]) :: r.calls }
    | _ => { value := acc, calls := [], error := some (.typeError "sub is not a function") }

/-- Source `run(subs, model, app, onError)`; `dispatch` is the function
`prefixedDispatch(app._store.dispatch, model)` and `history` is `app._history`. -/
def run {F : Type} (behaviour : Behaviour F) (subs : Obj (Val F))
    (dispatch history onError : Val F) : RunResult F :=
  runLoop behaviour (.obj [("dispatch", dispatch), ("history", history)]) onError subs
    { funcs := [], nonFuncs := [] }

/-- The statement `delete o[key]`: the own property `key` is removed. -/
def Obj.delete {V : Type} (o : Obj V) (key : String) : Obj V :=
  o.filter (fun kv => decide (kv.1 ≠ key))

/-- What a call of `unlisten` comes to: the registry as the call left it, the calls made,
the warnings issued and the error thrown, if any. -/
structure UnlistenResult (F : Type) where
  registry : Obj (Unlistener F)
  calls : List (Call F)
  warnings : List String
  error : Option JsError

/-- Source `unlisten(unlisteners, namespace)`. A read `unlisteners[namespace]` that yields a
property inherited from `Object.prototype` is truthy and has neither `funcs` nor `nonFuncs`,
so that the read `nonFuncs.length` throws. -/
def unlisten {F : Type} (outcome : Outcome F) (unlisteners : Obj (Unlistener F))
    («namespace» : String) : UnlistenResult F :=
  match Obj.read unlisteners «namespace» with
  | .missing => { registry := unlisteners, calls := [], warnings := [], error := none }
  | .inherited =>
    { registry := unlisteners, calls := [], warnings := []
      error := some (.typeError "Cannot read properties of undefined (reading length)") }
  | .own entry =>
    let warnings :=
      if entry.nonFuncs.length = 0 then []
      else ["[app.unmodel] subscription should return unlistener function, " ++
        "check these subscriptions " ++ ", ".intercalate entry.nonFuncs]
    let r := callEach outcome entry.funcs []
    match r.2 with
    | some e => { registry := unlisteners, calls := r.1, warnings := warnings, error := some e }
    | none =>
      { registry := Obj.delete unlisteners «namespace», calls := r.1, warnings := warnings
        error := none }

/-! ## index.js: models of a started application -/

/-- A model as the application holds it: reducers are handlers or a pair with an enhancer,
subscriptions are a map of function values. -/
abbrev AppModel (σ P X F : Type) :=
  Model (Option σ) (Reducer σ P) (Enhancer σ P) X (Obj (Val F))

/-- What the statements of `injectModel`, `unmodel` and `replaceModel` do to the store and to
the outside, in order: `store.replaceReducer(createReducer())`, given the map handed to
`combineReducers`; `store.dispatch({ type })`; `store.runSaga(...)` of the saga of a model;
a call of a subscription or of a teardown; a warning. -/
inductive StoreEvent (σ P X F : Type) where
  | replaceReducer (mounted : Obj (Reducer σ P))
  | dispatch (type : String)
  | runSaga (model : AppModel σ P X F)
  | called (call : Call F)
  | warned (message : String)

/-- What `create` and `start` fix for the functions they define: the environment mode, the
function `checkModel` (imported from a module that is not among the sources), the hook
`_handleActions`, the merged extra reducers, the dispatch wrapper handed to the
subscriptions of a model, `app._history`, the global error handler, and how the teardowns and
the subscriptions behave when called. -/
structure Started (σ P X F : Type) where
  production : Bool
  checkModel : AppModel σ P X F → List (AppModel σ P X F) → Option JsError
  handleActionsHook : Option (Builder σ P)
  extraReducers : Obj (Reducer σ P)
  prefixedDispatch : AppModel σ P X F → Val F
  history : Val F
  onError : Val F
  outcome : Outcome F
  behaviour : Behaviour F

/-- The state the functions of a started application work on: `app._models`, the object
`reducers` of `start`, `store.asyncReducers`, the object `unlisteners` of `start`, and the
events so far. -/
structure App (σ P X F : Type) where
  models : List (AppModel σ P X F)
  reducers : Obj (Reducer σ P)
  asyncReducers : Obj (Reducer σ P)
  unlisteners : Obj (Unlistener F)
  events : List (StoreEvent σ P X F)

/-- The map `{ ...reducers, ...extraReducers, ...asyncReducers }` that `createReducer` of
`start` hands to `combineReducers`. -/
def start.createReducer {σ P X F : Type} (env : Started σ P X F) (app : App σ P X F) :
    Obj (Reducer σ P) :=
  spread (spread app.reducers env.extraReducers) app.asyncReducers

/-- Source `model(m)` of `create`. -/
def create.model {σ P X F : Type} (env : Started σ P X F) (app : App σ P X F)
    (m : AppModel σ P X F) : Except JsError (App σ P X F × AppModel σ P X F) :=
  let checked := if env.production then none else env.checkModel m app.models
  match checked with
  | some e => .error e
  | none =>
    let prefixedModel := prefixNamespace m
    .ok ({ app with
            models := app.models ++ [prefixedModel.1]
            events := app.events ++ prefixedModel.2.map .warned }, prefixedModel.1)

/-- Source `injectModel(createReducer, onError, unlisteners, m)`: the state it leaves and the
error it throws, if any. -/
def create.injectModel {σ P X F : Type} (env : Started σ P X F) (app : App σ P X F)
    (m : AppModel σ P X F) : App σ P X F × Option JsError :=
  match create.model env app m with
  | .error e => (app, some e)
  | .ok (app1, m1) =>
    let app2 : App σ P X F := { app1 with
      asyncReducers := Obj.set app1.asyncReducers m1.«namespace»
        (getReducer m1.reducers m1.state env.handleActionsHook) }
    let app3 : App σ P X F := { app2 with
      events := app2.events ++ [.replaceReducer (start.createReducer env app2)] }
    let app4 : App σ P X F :=
      match m1.effects with
      | some _ => { app3 with events := app3.events ++ [.runSaga m1] }
      | none => app3
    match m1.subscriptions with
    | none => (app4, none)
    | some subs =>
      let r := run env.behaviour subs (env.prefixedDispatch m1) env.history env.onError
      let app5 : App σ P X F := { app4 with events := app4.events ++ r.calls.map .called }
      match r.error with
      | some e => (app5, some e)
      | none =>
        ({ app5 with unlisteners := Obj.set app5.unlisteners m1.«namespace» r.value }, none)

/-- Source `unmodel(createReducer, reducers, unlisteners, namespace)`: the state it leaves and
the error it throws, if any. -/
def create.unmodel {σ P X F : Type} (env : Started σ P X F) (app : App σ P X F)
    («namespace» : String) : App σ P X F × Option JsError :=
  let app1 : App σ P X F := { app with
    asyncReducers := Obj.delete app.asyncReducers «namespace»
    reducers := Obj.delete app.reducers «namespace» }
  let app2 : App σ P X F := { app1 with
    events := app1.events ++
      [.replaceReducer (start.createReducer env app1), .dispatch "@@dva/UPDATE",
       .dispatch («namespace» ++ "/@@CANCEL_EFFECTS")] }
  let r := unlisten env.outcome app2.unlisteners «namespace»
  let app3 : App σ P X F := { app2 with
    unlisteners := r.registry
    events := app2.events ++ r.warnings.map .warned ++ r.calls.map .called }
  match r.error with
  | some e => (app3, some e)
  | none =>
    ({ app3 with
        models := app3.models.filter (fun model => decide (model.«namespace» ≠ «namespace»)) },
      none)

/-- The loop of `findIndex` from the index `i`. -/
def findIndexLoop {α : Type} (predicate : α → Nat → Bool) : List α → Nat → Int
  | [], _ => -1
  | a :: rest, i => if predicate a i then (i : Int) else findIndexLoop predicate rest (i + 1)

/-- Source `findIndex(array, predicate)` of `utils.js`. -/
def findIndex {α : Type} (array : List α) (predicate : α → Nat → Bool) : Int :=
  findIndexLoop predicate array 0

/-- The block of `replaceModel` guarded by `if (~oldModelIdx)`: the state it leaves and the
error it throws, if any. -/
def replaceModel.removeOld {σ P X F : Type} (env : Started σ P X F) (app : App σ P X F)
    («namespace» : String) (oldModelIdx : Int) : App σ P X F × Option JsError :=
  let app1 : App σ P X F := { app with
    events := app.events ++ [.dispatch («namespace» ++ "/@@CANCEL_EFFECTS")] }
  let app2 : App σ P X F := { app1 with
    asyncReducers := Obj.delete app1.asyncReducers «namespace»
    reducers := Obj.delete app1.reducers «namespace» }
  let r := unlisten env.outcome app2.unlisteners «namespace»
  let app3 : App σ P X F := { app2 with
    unlisteners := r.registry
    events := app2.events ++ r.warnings.map .warned ++ r.calls.map .called }
  match r.error with
  | some e => (app3, some e)
  | none => ({ app3 with models := app3.models.eraseIdx oldModelIdx.toNat }, none)

/-- Source `replaceModel(createReducer, reducers, unlisteners, onError, m)`: the state it
leaves and the error it throws, if any. The test `~oldModelIdx` is truthy unless the index
is `-1`; `app.model` is `injectModel` once the application has started. -/
def create.replaceModel {σ P X F : Type} (env : Started σ P X F) (app : App σ P X F)
    (m : AppModel σ P X F) : App σ P X F × Option JsError :=
  let «namespace» := m.«namespace»
  let oldModelIdx :=
    findIndex app.models (fun model _ => decide (model.«namespace» = «namespace»))
  let removed : App σ P X F × Option JsError :=
    if oldModelIdx ≠ -1 then replaceModel.removeOld env app «namespace» oldModelIdx
    else (app, none)
  match removed.2 with
  | some e => (removed.1, some e)
  | none =>
    let injected := create.injectModel env removed.1 m
    match injected.2 with
    | some e => (injected.1, some e)
    | none =>
      ({ injected.1 with events := injected.1.events ++ [.dispatch "@@dva/UPDATE"] }, none)

/-! ## index.js: start -/

/-- The test `key in o` on a plain object: it holds for the own properties of `o` and for the
properties `o` inherits from `Object.prototype`. -/
def Obj.hasProperty {V : Type} (o : Obj V) (key : String) : Bool :=
  (Obj.getOwn o key).isSome || objectPrototypeKeys.contains key

/-- The object `reducers` of `start` after its loop over `app._models`: a copy of
`initialReducer`, then one assignment `reducers[m.namespace] = getReducer(...)` per model. -/
def start.reducers {σ P X F : Type} (env : Started σ P X F)
    (initialReducer : Obj (Reducer σ P)) (models : List (AppModel σ P X F)) :
    Obj (Reducer σ P) :=
  models.foldl
    (fun reducers m =>
      Obj.set reducers m.«namespace» (getReducer m.reducers m.state env.handleActionsHook))
    (spread [] initialReducer)

/-- The loop of `start` that runs the subscriptions of every model that declares some and
stores what `run` returns under the namespace of the model. -/
def start.subscriptions {σ P X F : Type} (env : Started σ P X F) :
    List (AppModel σ P X F) → App σ P X F → App σ P X F × Option JsError
  | [], app => (app, none)
  | model :: rest, app =>
    match model.subscriptions with
    | none => start.subscriptions env rest app
    | some subs =>
      let r := run env.behaviour subs (env.prefixedDispatch model) env.history env.onError
      let app1 : App σ P X F := { app with events := app.events ++ r.calls.map .called }
      match r.error with
      | some e => (app1, some e)
      | none =>
        start.subscriptions env rest
          { app1 with unlisteners := Obj.set app1.unlisteners model.«namespace» r.value }

/-- What a call of `start` comes to: the state it leaves, the map `createReducer()` handed to
`createStore`, when the call got that far, and the error thrown, if any. -/
structure StartResult (σ P X F : Type) where
  app : App σ P X F
  created : Option (Obj (Reducer σ P))
  error : Option JsError

/-- Source `start()`. The function `createStore` is imported from a module that is not among
the sources: `createStore` says what the call throws, if anything, for the composed map.
When `createReducer()` is called here `app._store` is still `null`, so the third spread is
`{}`. The sagas of the models that declare effects are run in order; `setupApp` is the
default `noop`. -/
def create.start {σ P X F : Type} (env : Started σ P X F)
    (createStore : Obj (Reducer σ P) → Option JsError)
    (initialReducer : Obj (Reducer σ P)) (app : App σ P X F) : StartResult σ P X F :=
  let reducers := start.reducers env initialReducer app.models
  let sagas := app.models.filter (fun m => m.effects.isSome)
  match invariant ((Obj.keys env.extraReducers).all (fun key => !Obj.hasProperty reducers key))
      ("[app.start] extraReducers is conflict with other reducers, reducers list: " ++
        ", ".intercalate (Obj.keys reducers)) with
  | .error e => { app := app, created := none, error := some e }
  | .ok _ =>
    let mounted := spread (spread reducers env.extraReducers) []
    match createStore mounted with
    | some e => { app := app, created := some mounted, error := some e }
    | none =>
      let app1 : App σ P X F := { app with
        reducers := reducers
        asyncReducers := []
        unlisteners := []
        events := app.events ++ sagas.map .runSaga }
      let r := start.subscriptions env app1.models app1
      { app := r.1, created := some mounted, error := r.2 }

/-! ## Claim-side descriptions -/

/-- A map qualified by the namespace `N`: every property `k: v` becomes `N/k: v`. -/
def qualified {V : Type} (N : String) (obj : Obj V) : Obj V :=
  obj.map (fun kv => (N ++ "/" ++ kv.1, kv.2))

/-- The warnings expected for a map: one for every key that starts with `N/`, in order. -/
def expectedWarnings {V : Type} (N : String) (type : String) (obj : Obj V) : List String :=
  (obj.filter (fun kv => startsWith kv.1 (N ++ "/"))).map
    (fun kv => "[prefixNamespace]: " ++ type ++ " " ++ kv.1 ++
      " should not be prefixed with namespace " ++ N)

/-- The registry after the registrations `ps`, made in this order on `self`, when every one
of them returns without an error. -/
def Plugin.useAll {F : Type} : Plugin F → List (Obj (Val F)) → Option (Plugin F)
  | self, [] => some self
  | self, p :: ps =>
    match Plugin.use self p with
    | (next, none) => Plugin.useAll next ps
    | (_, some _) => none

/-! ## Example data -/

/-- A JavaScript number: an integer or `NaN`. -/
inductive JsNum where
  | int (n : Int)
  | nan
  deriving DecidableEq, Repr

/-- The sum `n + 1` of double-precision arithmetic, for an integer `n` that is a double:
exact while `n` is in `[-2^53, 2^53)`; for `n` in the two ranges where doubles are the even
integers, `[2^53, 2^54)` and `[-2^54, -2^53)`, the exact sum lies halfway between the doubles
`n` and `n + 2` and is rounded to the one with an even significand, the multiple of 4; and
`n` itself beyond, where `n + 1` is nearer to `n` than to any other double. In particular
`2^53 + 1` is `2^53`. -/
def addOne (n : Int) : Int :=
  if -9007199254740992 ≤ n ∧ n < 9007199254740992 then n + 1
  else if -18014398509481984 ≤ n ∧ n < 18014398509481984 then
    if n % 4 = 0 then n else n + 2
  else n

/-- The handler `s => s + 1` on a state that is a number or `undefined`: `undefined + 1` and
`NaN + 1` are `NaN`; the sum of an integer and `1` is the sum of double-precision
arithmetic. -/
def inc {P : Type} : Reducer JsNum P := fun s _ =>
  match s with
  | some (.int n) => .ok (some (.int (addOne n)))
  | _ => .ok (some .nan)

/-- The model `{ namespace: "counter", state: 0, reducers: { inc: s => s + 1 } }`. -/
def counterModel : Model (Option JsNum) (Reducer JsNum Unit) (Enhancer JsNum Unit) Unit Unit :=
  { «namespace» := "counter"
    state := some (.int 0)
    reducers := some (.map [("inc", inc)])
    effects := none
    subscriptions := none }

/-- The counter model with its handler map paired with an enhancer that discards the base
reducer: `reducers: [{ inc: s => s + 1 }, () => (s => s)]`. -/
def counterModelEnhanced :
    Model (Option JsNum) (Reducer JsNum Unit) (Enhancer JsNum Unit) Unit Unit :=
  { counterModel with reducers := some (.pair [("inc", inc)] (fun _ => identify)) }

/-- The state after `n` dispatches of `action` to `reducer`, starting from `state`. -/
def dispatchTimes {σ P : Type} (reducer : Reducer σ P) (action : Action P) :
    Nat → Option σ → Except JsError (Option σ)
  | 0, state => .ok state
  | n + 1, state =>
    match reducer state action with
    | .error e => .error e
    | .ok next => dispatchTimes reducer action n next

/-- A model with a reducer key that already starts with its namespace:
`{ namespace: "counter", reducers: { inc: 1, "counter/dec": 2 }, effects: { load: 3 } }`,
handlers and effects standing as numbers. -/
def tallyModel : Model Unit Nat Unit Nat Unit :=
  { «namespace» := "counter"
    state := ()
    reducers := some (.map [("inc", 1), ("counter/dec", 2)])
    effects := some [("load", 3)]
    subscriptions := none }

/-- The model `{ namespace: "toString", state: 0, reducers: { inc: s => s + 1 } }`. -/
def toStringModel : Model (Option JsNum) (Reducer JsNum Unit) (Enhancer JsNum Unit) Unit Unit :=
  { counterModel with «namespace» := "toString" }

/-- A first registration, function values standing as their names:
`{ onError: f1, onReducer: e1, extraEnhancers: [x1], extraReducers: { a: r1, b: r2 } }`. -/
def samplePluginA : Obj (Val String) :=
  [("onError", .fn "f1"), ("onReducer", .fn "e1"), ("extraEnhancers", .arr [.fn "x1"]),
   ("extraReducers", .obj [("a", .fn "r1"), ("b", .fn "r2")])]

/-- A second registration:
`{ onError: f2, onReducer: e2, _handleActions: h, extraReducers: { b: r3 } }`. -/
def samplePluginB : Obj (Val String) :=
  [("onError", .fn "f2"), ("onReducer", .fn "e2"), ("_handleActions", .fn "h"),
   ("extraReducers", .obj [("b", .fn "r3")])]

/-- The two sample registrations, in order. -/
def samplePlugins : List (Obj (Val String)) := [samplePluginA, samplePluginB]

/-- The registry after the two sample registrations on a fresh registry. -/
def sampleRegistry : Plugin String :=
  (Plugin.use (Plugin.use Plugin.new samplePluginA).1 samplePluginB).1

/-- A behaviour for function values that stand as names: the function `fallback` throws,
every other function returns. -/
def sampleOutcome : Outcome String := fun f _ =>
  if f = "fallback" then some (.thrown "fatal") else none

/-- A calling convention for function values that stand as names: calling the enhancer `e`
with the reducer `r` yields the reducer named `e(r)`. -/
def callByName (e r : String) : String := e ++ "(" ++ r ++ ")"

/-- A routine as a term: the base routine, or the result of the call
`hook(inner, verbs, model, key)` of the hook numbered `hook`, kept with its arguments. -/
inductive HookedTerm (Vb M : Type) where
  | base
  | call (hook : Nat) (inner : HookedTerm Vb M) (verbs : Vb) (model : M) (key : String)

/-- The hooks called to build a term, the first call first. -/
def HookedTerm.hooksCalled {Vb M : Type} : HookedTerm Vb M → List Nat
  | .base => []
  | .call hook inner _ _ _ => hooksCalled inner ++ [hook]

/-- The verbs, model and key each call received, the first call first. -/
def HookedTerm.context {Vb M : Type} : HookedTerm Vb M → List (Vb × M × String)
  | .base => []
  | .call _ inner verbs model key => context inner ++ [(verbs, model, key)]

/-- An action that carries the callbacks of a deferred value:
`{ type: "ns/fetch", __dva_resolve: resolve, __dva_reject: reject }`. -/
def deferredAction : Val String :=
  .obj [("type", .str "ns/fetch"), ("__dva_resolve", .fn "resolve"),
    ("__dva_reject", .fn "reject")]

/-- An error handler that returns and leaves the error as it is. -/
def quietHandler : ErrorHandler String := fun e _ _ =>
  match e with
  | .obj props => .returned props
  | _ => .returned []

/-- An error handler that marks the error as suppressed: it returns with `_dontReject` set. -/
def suppressingHandler : ErrorHandler String := fun e _ _ =>
  match e with
  | .obj props => .returned (Obj.set props "_dontReject" (.bool true))
  | _ => .returned []

/-- A hook on effects that replaces the saga by one that does nothing. -/
def silencingHook : Saga String → Unit → Unit → String → Saga String :=
  fun _ _ _ _ => fun _ => ([], none)

/-- The error object the hooks of `onError` receive for the error `err`: a string wrapped in
a new `Error`, an object as it is, with the property `preventDefault` added. -/
def handedError {U : Type} (err : Val (RuntimeFn U)) : Val (RuntimeFn U) :=
  match err with
  | .str s => .obj [("message", .str s), ("preventDefault", .fn .preventDefault)]
  | .obj props => .obj (Obj.set props "preventDefault" (.fn .preventDefault))
  | other => other

/-- A registration of one hook on errors supplied by the caller: `{ onError: name }`. -/
def errorHook (name : String) : Obj (Val (RuntimeFn String)) :=
  [("onError", .fn (.user name))]

/-- The model `{ namespace: "a/b", effects: { fetch } }`, the effect routine standing as
its name. -/
def nestedModel : Model Unit Unit Unit (Val String) Unit :=
  { «namespace» := "a/b"
    state := ()
    reducers := none
    effects := some [("fetch", .fn "fetch")]
    subscriptions := none }

/-- The model `{ namespace: "ns", effects: { fetch } }`, the effect routine standing as its
name. -/
def fetchModel : Model Unit Unit Unit (Val String) Unit :=
  { nestedModel with «namespace» := "ns" }

/-- The model `{ namespace: "ns", effects: { fetch: undefined } }`, whose one effect key is
declared with a falsy value. -/
def falsyEffectModel : Model Unit Unit Unit (Val String) Unit :=
  { nestedModel with «namespace» := "ns", effects := some [("fetch", .undefined)] }

/-- A behaviour for subscriptions that stand as names: the subscription `watch` returns the
teardown `stop`, every other subscription returns `undefined`. -/
def sampleBehaviour : Behaviour String := fun f _ =>
  if f = "watch" then .ok (.fn "stop") else .ok .undefined

/-- The subscription map `{ a: watch, b: setup, c: watch }`. -/
def sampleSubscriptions : List (String × String) :=
  [("a", "watch"), ("b", "setup"), ("c", "watch")]

/-- The internal model of `index.js`:
`{ namespace: "@@dva", state: 0, reducers: { UPDATE(state) { return state + 1 } } }`. -/
def dvaModel : AppModel JsNum Unit Unit String :=
  { «namespace» := "@@dva"
    state := some (.int 0)
    reducers := some (.map [("UPDATE", inc)])
    effects := none
    subscriptions := none }

/-- The model `{ namespace, state: 0, reducers: { inc: s => s + 1 } }`, without effects and
without subscriptions. -/
def plainModel («namespace» : String) : AppModel JsNum Unit Unit String :=
  { «namespace» := «namespace»
    state := some (.int 0)
    reducers := some (.map [("inc", inc)])
    effects := none
    subscriptions := none }

/-- Modelled from the spec: a model is valid when its namespace is non-empty and unique
among the registered models; `checkModel` itself is not among the sources. -/
def sampleCheckModel (m : AppModel JsNum Unit Unit String)
    (existing : List (AppModel JsNum Unit Unit String)) : Option JsError :=
  if m.«namespace» = "" then some (.invariant "[app.model] namespace should be defined")
  else if existing.any (fun x => decide (x.«namespace» = m.«namespace»)) then
    some (.invariant "[app.model] namespace should be unique")
  else none

/-- A development-mode environment without hooks. -/
def sampleStarted : Started JsNum Unit Unit String :=
  { production := false
    checkModel := sampleCheckModel
    handleActionsHook := none
    extraReducers := []
    prefixedDispatch := fun m => .fn (m.«namespace» ++ ".dispatch")
    history := .undefined
    onError := .fn "onError"
    outcome := sampleOutcome
    behaviour := sampleBehaviour }

/-- The application as `start` leaves it when the models `toString` and `counter` were
registered before: three models, a static reducer for each, no injected reducer, and no
entry in `unlisteners`, since none of the models declares subscriptions. -/
def sampleApp : App JsNum Unit Unit String :=
  { models := [(prefixNamespace dvaModel).1, (prefixNamespace (plainModel "toString")).1,
      (prefixNamespace (plainModel "counter")).1]
    reducers :=
      [("@@dva", getReducer (prefixNamespace dvaModel).1.reducers (some (.int 0)) none),
       ("toString",
        getReducer (prefixNamespace (plainModel "toString")).1.reducers (some (.int 0)) none),
       ("counter",
        getReducer (prefixNamespace (plainModel "counter")).1.reducers (some (.int 0)) none)]
    asyncReducers := []
    unlisteners := []
    events := [] }

/-- The action types dispatched among the events, in order. -/
def dispatchedTypes {σ P X F : Type} (events : List (StoreEvent σ P X F)) : List String :=
  events.filterMap (fun e =>
    match e with
    | .dispatch type => some type
    | _ => none)

/-- The application `create()` returns: the module list holds the internal model; the
objects of `start` do not exist yet and stand as empty. -/
def createdApp : App JsNum Unit Unit String :=
  { models := [(prefixNamespace dvaModel).1]
    reducers := []
    asyncReducers := []
    unlisteners := []
    events := [] }

/-- The application after `app.model({ namespace: "counter", ... })` on the application
`create()` returns: the module list holds the internal model and the model `counter`. -/
def registeredApp : App JsNum Unit Unit String :=
  { createdApp with
    models := [(prefixNamespace dvaModel).1, (prefixNamespace (plainModel "counter")).1] }

/-- A development-mode environment whose hooks contribute the one extra reducer
`{ [key]: s => s }`. -/
def extraStarted (key : String) : Started JsNum Unit Unit String :=
  { sampleStarted with extraReducers := [(key, identify)] }

/-- The operations that change the module list of an application: `app.model(m)` before
`start`, `app.start()`, and `app.model(m)`, `app.unmodel(namespace)` and
`app.replaceModel(m)` after `start`. -/
inductive Operation (σ P X F : Type) where
  | register (m : AppModel σ P X F)
  | start (initialReducer : Obj (Reducer σ P))
  | inject (m : AppModel σ P X F)
  | unregister («namespace» : String)
  | replace (m : AppModel σ P X F)

/-- The state an operation leaves, whether it returns or throws. -/
def Operation.apply {σ P X F : Type} (env : Started σ P X F)
    (createStore : Obj (Reducer σ P) → Option JsError) (app : App σ P X F) :
    Operation σ P X F → App σ P X F
  | .register m =>
    match create.model env app m with
    | .ok r => r.1
    | .error _ => app
  | .start initialReducer => (create.start env createStore initialReducer app).app
  | .inject m => (create.injectModel env app m).1
  | .unregister ns => (create.unmodel env app ns).1
  | .replace m => (create.replaceModel env app m).1

/-- The state a sequence of operations leaves. -/
def Operation.applyAll {σ P X F : Type} (env : Started σ P X F)
    (createStore : Obj (Reducer σ P) → Option JsError) (app : App σ P X F)
    (ops : List (Operation σ P X F)) : App σ P X F :=
  ops.foldl (Operation.apply env createStore) app

/-- The sample environment in production mode. -/
def productionStarted : Started JsNum Unit Unit String :=
  { sampleStarted with production := true }

/-- A sequence of operations: two registrations of `counter`, `start`, an injection of
`todo`, a second injection of `todo`, a replacement of `counter` and the removal of `todo`. -/
def sampleOperations : List (Operation JsNum Unit Unit String) :=
  [.register (plainModel "counter"), .register (plainModel "counter"), .start [],
   .inject (plainModel "todo"), .inject (plainModel "todo"), .replace (plainModel "counter"),
   .unregister "todo"]

/-- The production-mode environment whose hooks contribute the one extra reducer
`{ counter: s => s }`. -/
def productionWithExtra : Started JsNum Unit Unit String :=
  { productionStarted with extraReducers := [("counter", identify)] }

/-- The application `create()` returns, started in the environment whose hooks contribute
the extra reducer `counter`, with no initial reducer. -/
def startedWithExtra : App JsNum Unit Unit String :=
  (create.start (extraStarted "counter") (fun _ => none) [] createdApp).app

/-- The model `{ namespace: "toString", state: 0, reducers: { toString: s => s + 1 } }`,
whose one reducer has the name of the namespace. -/
def selfNamedModel : Model (Option JsNum) (Reducer JsNum Unit) (Enhancer JsNum Unit) Unit Unit :=
  { counterModel with «namespace» := "toString", reducers := some (.map [("toString", inc)]) }

/-- The model `{ namespace: "counter", state: 0, reducers: { inc, "counter/inc": inc } }`,
which declares a key and the same key qualified. -/
def doubledModel : Model (Option JsNum) (Reducer JsNum Unit) (Enhancer JsNum Unit) Unit Unit :=
  { counterModel with reducers := some (.map [("inc", inc), ("counter/inc", inc)]) }

/-! # Theorems -/

/-! ## Objects: reads and writes -/

theorem Obj.getOwn_eq_none_iff {V : Type} (o : Obj V) (key : String) :
    Obj.getOwn o key = none ↔ key ∉ Obj.keys o := by
  induction o with
  | nil => simp [Obj.getOwn, Obj.keys]
  | cons kv rest ih =>
    obtain ⟨k, v⟩ := kv
    by_cases h : k = key
    · simp [Obj.getOwn, Obj.keys, h]
    · have h' : ¬ key = k := fun e => h e.symm
      simp only [Obj.keys] at ih
      simp [Obj.getOwn, Obj.keys, h, h', ih]

theorem Obj.getOwn_of_mem {V : Type} (o : Obj V) (key : String) (v : V)
    (hnd : (Obj.keys o).Nodup) (hmem : (key, v) ∈ o) : Obj.getOwn o key = some v := by
  induction o with
  | nil => simp at hmem
  | cons kv rest ih =>
    obtain ⟨k, w⟩ := kv
    simp only [Obj.keys, List.map_cons, List.nodup_cons] at hnd
    rcases List.mem_cons.mp hmem with h | h
    · cases h
      simp [Obj.getOwn]
    · have hk : k ≠ key := by
        intro e
        apply hnd.1
        rw [e]
        exact List.mem_map_of_mem Prod.fst h
      simp only [Obj.getOwn, hk, if_false]
      exact ih hnd.2 h

theorem Obj.mem_of_getOwn {V : Type} (o : Obj V) (key : String) (v : V)
    (h : Obj.getOwn o key = some v) : (key, v) ∈ o := by
  induction o with
  | nil => simp [Obj.getOwn] at h
  | cons kv rest ih =>
    obtain ⟨k, w⟩ := kv
    by_cases hk : k = key
    · simp only [Obj.getOwn, hk, if_true, Option.some.injEq] at h
      simp [hk, h]
    · simp only [Obj.getOwn, hk, if_false] at h
      exact List.mem_cons_of_mem _ (ih h)

theorem Obj.getOwn_perm {V : Type} (o o' : Obj V) (key : String)
    (hnd : (Obj.keys o).Nodup) (hp : o'.Perm o) : Obj.getOwn o' key = Obj.getOwn o key := by
  have hnd' : (Obj.keys o').Nodup := (List.Perm.map Prod.fst hp).nodup_iff.mpr hnd
  cases h : Obj.getOwn o key with
  | none =>
    rw [Obj.getOwn_eq_none_iff] at h ⊢
    intro hk
    exact h ((List.Perm.map Prod.fst hp).mem_iff.mp hk)
  | some v =>
    exact Obj.getOwn_of_mem o' key v hnd' (hp.mem_iff.mpr (Obj.mem_of_getOwn o key v h))

theorem Obj.getOwn_set {V : Type} (o : Obj V) (key key' : String) (v : V) :
    Obj.getOwn (Obj.set o key v) key' = if key = key' then some v else Obj.getOwn o key' := by
  induction o with
  | nil => simp [Obj.set, Obj.getOwn]
  | cons kv rest ih =>
    obtain ⟨k, w⟩ := kv
    by_cases hk : k = key
    · subst hk
      by_cases hk' : k = key' <;> simp [Obj.set, Obj.getOwn, hk']
    · by_cases hk' : k = key'
      · subst hk'
        have : ¬ key = k := fun e => hk e.symm
        simp [Obj.set, Obj.getOwn, hk, this]
      · simp [Obj.set, Obj.getOwn, hk, hk', ih]

theorem Obj.set_of_not_mem {V : Type} (o : Obj V) (key : String) (v : V)
    (h : key ∉ Obj.keys o) : Obj.set o key v = o ++ [(key, v)] := by
  induction o with
  | nil => simp [Obj.set]
  | cons kv rest ih =>
    obtain ⟨k, w⟩ := kv
    simp only [Obj.keys, List.map_cons, List.mem_cons, not_or] at h
    have hk : ¬ k = key := fun e => h.1 e.symm
    simp only [Obj.set, hk, if_false, List.cons_append, List.cons.injEq, true_and]
    exact ih h.2

/-! ## handleActions -/

/-- Sub-reducers none of which is registered for the type of the action leave the state as
it is. -/
theorem reduceLoop_no_match {σ P : Type} (hs : Obj (Reducer σ P)) (s : Option σ)
    (a : Action P) (t : String) (ht : a.type = some t) (hne : t ≠ "")
    (hno : t ∉ Obj.keys hs) :
    reduceLoop (hs.map (fun kv => handleAction kv.1 kv.2)) s a = .ok s := by
  induction hs with
  | nil => simp [reduceLoop]
  | cons kv rest ih =>
    obtain ⟨k, h⟩ := kv
    simp only [Obj.keys, List.map_cons, List.mem_cons, not_or] at hno
    have hk : ¬ k = t := fun e => hno.1 e.symm
    simp only [List.map_cons, reduceLoop, handleAction, ht, truthyType, invariant, hne,
      ne_eq, not_false_eq_true, decide_True, if_true, Option.some.injEq, hk, if_false]
    exact ih hno.2

/-- The fold of the sub-reducers of a handler map over a state. -/
theorem reduceLoop_handlers {σ P : Type} (hs : Obj (Reducer σ P)) (s : Option σ)
    (a : Action P) (t : String) (ht : a.type = some t) (hne : t ≠ "")
    (hnd : (Obj.keys hs).Nodup) :
    reduceLoop (hs.map (fun kv => handleAction kv.1 kv.2)) s a =
      match Obj.getOwn hs t with
      | some h => h s a
      | none => .ok s := by
  induction hs generalizing s with
  | nil => simp [reduceLoop, Obj.getOwn]
  | cons kv rest ih =>
    obtain ⟨k, h⟩ := kv
    simp only [Obj.keys, List.map_cons, List.nodup_cons] at hnd
    by_cases hk : k = t
    · subst hk
      simp only [List.map_cons, reduceLoop, handleAction, ht, truthyType, invariant, hne,
        ne_eq, not_false_eq_true, decide_True, if_true, Obj.getOwn]
      cases hr : h s a with
      | error e => rfl
      | ok s1 => exact reduceLoop_no_match rest s1 a k ht hne hnd.1
    · simp only [List.map_cons, reduceLoop, handleAction, ht, truthyType, invariant, hne,
        ne_eq, not_false_eq_true, decide_True, if_true, Option.some.injEq, hk, if_false,
        Obj.getOwn]
      exact ih s hnd.2

/-- The sub-reducers `handleActions` builds from `Object.keys(handlers)` are those of the
properties of `handlers`, in order. -/
theorem subReducers_eq {σ P : Type} (hs : Obj (Reducer σ P)) (hnd : (Obj.keys hs).Nodup) :
    (Obj.keys hs).map (fun type => handleAction type ((Obj.getOwn hs type).getD identify)) =
      hs.map (fun kv => handleAction kv.1 kv.2) := by
  simp only [Obj.keys, List.map_map]
  apply List.map_congr_left
  intro kv hkv
  obtain ⟨k, h⟩ := kv
  simp [Obj.getOwn_of_mem hs k h hnd hkv]

/-- With a well-formed action, the reducer built by `handleActions` runs the handler
declared for the type of the action on the state (the default state for `undefined`), or
returns that state. -/
theorem handleActions_eq {σ P : Type} (handlers : Obj (Reducer σ P)) (d s : Option σ)
    (a : Action P) (t : String) (hnd : (Obj.keys handlers).Nodup) (ht : a.type = some t)
    (hne : t ≠ "") :
    handleActions handlers d s a =
      match Obj.getOwn handlers t with
      | some h => h (match s with | none => d | some _ => s) a
      | none => .ok (match s with | none => d | some _ => s) := by
  simp only [handleActions, reduceReducers, subReducers_eq handlers hnd]
  exact reduceLoop_handlers handlers _ a t ht hne hnd

/-- C1: for a handler map, a state `s` and an action whose type `t` is a non-empty string,
the reducer built by `handleActions(handlers, d)` returns `handlers[t](s, a)` when `t` is a
declared key and `s` otherwise, where an `undefined` state is replaced by the default state
`d`; the result is the left fold of the per-type sub-reducers over that state, in whatever
order the declared handlers are taken. -/
theorem C1_handleActions_dispatch {σ P : Type} (handlers : Obj (Reducer σ P))
    (d s : Option σ) (a : Action P) (t : String) (hnd : (Obj.keys handlers).Nodup)
    (ht : a.type = some t) (hne : t ≠ "") :
    (∀ x : σ, s = some x →
      handleActions handlers d s a =
        match Obj.getOwn handlers t with
        | some h => h (some x) a
        | none => .ok (some x)) ∧
    (s = none →
      handleActions handlers d s a =
        match Obj.getOwn handlers t with
        | some h => h d a
        | none => .ok d) ∧
    (∀ declared : Obj (Reducer σ P), declared.Perm handlers →
      handleActions handlers d s a =
        reduceLoop (declared.map (fun kv => handleAction kv.1 kv.2))
          (match s with | none => d | some _ => s) a) := by
  refine ⟨?_, ?_, ?_⟩
  · intro x hx
    subst hx
    exact handleActions_eq handlers d (some x) a t hnd ht hne
  · intro hs
    subst hs
    exact handleActions_eq handlers d none a t hnd ht hne
  · intro declared hp
    have hnd' : (Obj.keys declared).Nodup := (List.Perm.map Prod.fst hp).nodup_iff.mpr hnd
    rw [handleActions_eq handlers d s a t hnd ht hne,
      reduceLoop_handlers declared _ a t ht hne hnd', Obj.getOwn_perm handlers declared t hnd hp]

/-- C1, at the handler map `{ inc: s => s + 1, dec: identify }`, state `5`, default state
`0` and action `{ type: "inc" }`. -/
theorem C1_handleActions_dispatch_witness :
    (Obj.keys [("inc", (inc : Reducer JsNum Unit)), ("dec", identify)]).Nodup ∧
    handleActions [("inc", (inc : Reducer JsNum Unit)), ("dec", identify)]
      (some (.int 0)) (some (.int 5)) ⟨some "inc", ()⟩ = .ok (some (.int 6)) ∧
    handleActions [("inc", (inc : Reducer JsNum Unit)), ("dec", identify)]
      (some (.int 0)) none ⟨some "inc", ()⟩ = .ok (some (.int 1)) := by
  have hnd : (Obj.keys [("inc", (inc : Reducer JsNum Unit)), ("dec", identify)]).Nodup := by
    decide
  have h := C1_handleActions_dispatch [("inc", (inc : Reducer JsNum Unit)), ("dec", identify)]
    (some (.int 0)) (some (.int 5)) ⟨some "inc", ()⟩ "inc" hnd rfl (by decide)
  have h0 := C1_handleActions_dispatch [("inc", (inc : Reducer JsNum Unit)), ("dec", identify)]
    (some (.int 0)) none ⟨some "inc", ()⟩ "inc" hnd rfl (by decide)
  refine ⟨hnd, ?_, ?_⟩
  · rw [h.1 (.int 5) rfl]
    rfl
  · rw [h0.2.1 rfl]
    rfl

/-- C3: `getReducer(reducers, s0, builder)` is `enhancer(B(map, s0))` for a pair
`[map, enhancer]`, `B(map, s0)` for a handler map and `B({}, s0)` for absent reducers, `B`
being the supplied builder, or `handleActions` when none is supplied; with `handleActions`,
`B({}, s0)` returns every defined state as it is, for every action. -/
theorem C3_getReducer_shapes {σ P : Type} (handlers : Obj (Reducer σ P))
    (enhancer : Enhancer σ P) (s0 : Option σ) :
    (∀ builder : Builder σ P,
      getReducer (some (.pair handlers enhancer)) s0 (some builder) =
        enhancer (builder handlers s0) ∧
      getReducer (some (.map handlers)) s0 (some builder) = builder handlers s0 ∧
      getReducer none s0 (some builder) = builder [] s0) ∧
    getReducer (some (.pair handlers enhancer)) s0 none =
      enhancer (handleActions handlers s0) ∧
    getReducer (some (.map handlers)) s0 none = handleActions handlers s0 ∧
    getReducer none s0 none = handleActions ([] : Obj (Reducer σ P)) s0 ∧
    (∀ (x : σ) (a : Action P), getReducer none s0 none (some x) a = .ok (some x)) := by
  refine ⟨fun builder => ⟨rfl, rfl, rfl⟩, rfl, rfl, rfl, ?_⟩
  intro x a
  rfl

/-- For a handler map with at least one handler, the reducer built by `handleActions`
throws on an action whose type is missing or empty. -/
theorem handleActions_rejects_malformed {σ P : Type} (handlers : Obj (Reducer σ P))
    (d s : Option σ) (a : Action P) (hne : handlers ≠ [])
    (ha : a.type = none ∨ a.type = some "") :
    handleActions handlers d s a =
      .error (.invariant "dispatch: action should be a plain Object with type") := by
  cases handlers with
  | nil => exact absurd rfl hne
  | cons kv rest =>
    rcases ha with h | h <;>
      simp [handleActions, reduceReducers, Obj.keys, reduceLoop, handleAction, h, truthyType,
        invariant]

/-- C4: with the empty handler map, the reducer built by `handleActions` returns the state
(the default state for `undefined`) for every action, also for `{ type: "" }` and for an
action without a type, instead of throwing. -/
theorem C4_empty_map_accepts_malformed {σ P : Type} (d s : Option σ) (a : Action P) (p : P) :
    handleActions ([] : Obj (Reducer σ P)) d s a =
      .ok (match s with | none => d | some _ => s) ∧
    handleActions ([] : Obj (Reducer σ P)) d s ⟨some "", p⟩ =
      .ok (match s with | none => d | some _ => s) ∧
    handleActions ([] : Obj (Reducer σ P)) d s ⟨none, p⟩ =
      .ok (match s with | none => d | some _ => s) :=
  ⟨rfl, rfl, rfl⟩

/-! ## prefixNamespace -/

theorem qualify_inj (N k k' : String) (h : N ++ "/" ++ k = N ++ "/" ++ k') : k = k' := by
  have h1 := congrArg String.data h
  simp only [String.data_append] at h1
  exact String.ext (List.append_cancel_left h1)

theorem keys_qualified {V : Type} (N : String) (obj : Obj V) :
    Obj.keys (qualified N obj) = (Obj.keys obj).map (fun k => N ++ "/" ++ k) := by
  simp [Obj.keys, qualified, List.map_map, Function.comp_def]

theorem nodup_keys_qualified {V : Type} (N : String) (obj : Obj V)
    (hnd : (Obj.keys obj).Nodup) : (Obj.keys (qualified N obj)).Nodup := by
  rw [keys_qualified]
  exact List.Nodup.map (fun k k' h => qualify_inj N k k' h) hnd

theorem getOwn_qualified {V : Type} (N : String) (obj : Obj V) (k : String) :
    Obj.getOwn (qualified N obj) (N ++ "/" ++ k) = Obj.getOwn obj k := by
  induction obj with
  | nil => rfl
  | cons kv rest ih =>
    obtain ⟨k0, v⟩ := kv
    by_cases hk : k0 = k
    · subst hk
      simp [qualified, Obj.getOwn]
    · have hq : ¬ N ++ "/" ++ k0 = N ++ "/" ++ k := fun e => hk (qualify_inj N k0 k e)
      simp only [qualified, List.map_cons, Obj.getOwn, hq, hk, if_false]
      exact ih

theorem prefixKeys_foldl {V : Type} (N type : String) (rest : Obj V)
    (acc : Obj V × List String)
    (hfresh : ∀ k ∈ Obj.keys rest, (N ++ "/" ++ k) ∉ Obj.keys acc.1)
    (hnd : (Obj.keys rest).Nodup) :
    rest.foldl (prefixStep N type) acc =
      (acc.1 ++ qualified N rest, acc.2 ++ expectedWarnings N type rest) := by
  induction rest generalizing acc with
  | nil => simp [qualified, expectedWarnings]
  | cons kv rest ih =>
    obtain ⟨k, v⟩ := kv
    simp only [Obj.keys, List.map_cons, List.nodup_cons, List.mem_cons, forall_eq_or_imp]
      at hnd hfresh
    have hset : Obj.set acc.1 (N ++ "/" ++ k) v = acc.1 ++ [(N ++ "/" ++ k, v)] :=
      Obj.set_of_not_mem _ _ _ hfresh.1
    rw [List.foldl_cons, ih]
    · by_cases hw : startsWith k (N ++ "/") = true
      · simp [prefixStep, NAMESPACE_SEP, hset, qualified, expectedWarnings, hw]
      · simp [prefixStep, NAMESPACE_SEP, hset, qualified, expectedWarnings, hw]
    · intro k' hk'
      simp only [prefixStep, NAMESPACE_SEP, hset, Obj.keys, List.map_append, List.map_cons,
        List.map_nil, List.mem_append, List.mem_singleton, not_or]
      refine ⟨hfresh.2 k' hk', ?_⟩
      intro e
      have := qualify_inj N k' k e
      subst this
      exact hnd.1 hk'
    · exact hnd.2

/-- The function `prefix` qualifies every key and warns about the keys that already start
with the namespace. -/
theorem prefixKeys_eq {V : Type} (N type : String) (obj : Obj V)
    (hnd : (Obj.keys obj).Nodup) :
    prefixKeys obj N type = (qualified N obj, expectedWarnings N type obj) := by
  unfold prefixKeys
  rw [prefixKeys_foldl N type obj ([], []) (by simp [Obj.keys]) hnd]
  simp

theorem prefixNamespace_fst {S H E F B : Type} (model : Model S H E F B) :
    (prefixNamespace model).1 =
      { model with
        reducers :=
          match model.reducers with
          | some (.pair h e) => some (.pair (prefixKeys h model.«namespace» "reducer").1 e)
          | some (.map h) => some (.map (prefixKeys h model.«namespace» "reducer").1)
          | none => none
        effects :=
          match model.effects with
          | some eff => some (prefixKeys eff model.«namespace» "effect").1
          | none => none } := by
  obtain ⟨ns, st, rs, es, sb⟩ := model
  cases rs with
  | none => cases es <;> rfl
  | some r => cases r <;> cases es <;> rfl

theorem prefixNamespace_snd {S H E F B : Type} (model : Model S H E F B) :
    (prefixNamespace model).2 =
      (match model.reducers with
        | some (.pair h _) => (prefixKeys h model.«namespace» "reducer").2
        | some (.map h) => (prefixKeys h model.«namespace» "reducer").2
        | none => []) ++
      (match model.effects with
        | some eff => (prefixKeys eff model.«namespace» "effect").2
        | none => []) := by
  obtain ⟨ns, st, rs, es, sb⟩ := model
  cases rs with
  | none => cases es <;> simp [prefixNamespace]
  | some r => cases r <;> cases es <;> simp [prefixNamespace]

/-- C5: `prefixNamespace` returns the model with its reducer map (the first element of a
`[map, enhancer]` pair) and its effect map replaced by maps that hold, in the same order and
in the same number, the property `N/k: v` for every original property `k: v`, also for a key
`k` that already starts with `N/`, which only adds a warning; the namespace, the state, the
subscriptions and the enhancer of a pair are unchanged. -/
theorem C5_prefixNamespace_keys {S H E F B : Type} (model : Model S H E F B)
    (hmap : ∀ h, model.reducers = some (.map h) → (Obj.keys h).Nodup)
    (hpair : ∀ h e, model.reducers = some (.pair h e) → (Obj.keys h).Nodup)
    (heff : ∀ eff, model.effects = some eff → (Obj.keys eff).Nodup) :
    (prefixNamespace model).1.«namespace» = model.«namespace» ∧
    (prefixNamespace model).1.state = model.state ∧
    (prefixNamespace model).1.subscriptions = model.subscriptions ∧
    (model.reducers = none → (prefixNamespace model).1.reducers = none) ∧
    (∀ h, model.reducers = some (.map h) →
      (prefixNamespace model).1.reducers = some (.map (qualified model.«namespace» h))) ∧
    (∀ h e, model.reducers = some (.pair h e) →
      (prefixNamespace model).1.reducers = some (.pair (qualified model.«namespace» h) e)) ∧
    (model.effects = none → (prefixNamespace model).1.effects = none) ∧
    (∀ eff, model.effects = some eff →
      (prefixNamespace model).1.effects = some (qualified model.«namespace» eff)) ∧
    (∀ h, (model.reducers = some (.map h) ∨ ∃ e, model.reducers = some (.pair h e)) →
      Obj.keys (qualified model.«namespace» h) =
          (Obj.keys h).map (fun k => model.«namespace» ++ "/" ++ k) ∧
        (qualified model.«namespace» h).length = h.length ∧
        (Obj.keys (qualified model.«namespace» h)).Nodup ∧
        ∀ k, Obj.getOwn (qualified model.«namespace» h) (model.«namespace» ++ "/" ++ k) =
          Obj.getOwn h k) ∧
    (∀ eff, model.effects = some eff →
      Obj.keys (qualified model.«namespace» eff) =
          (Obj.keys eff).map (fun k => model.«namespace» ++ "/" ++ k) ∧
        (qualified model.«namespace» eff).length = eff.length ∧
        (Obj.keys (qualified model.«namespace» eff)).Nodup ∧
        ∀ k, Obj.getOwn (qualified model.«namespace» eff) (model.«namespace» ++ "/" ++ k) =
          Obj.getOwn eff k) ∧
    (prefixNamespace model).2 =
      (match model.reducers with
        | some (.pair h _) => expectedWarnings model.«namespace» "reducer" h
        | some (.map h) => expectedWarnings model.«namespace» "reducer" h
        | none => []) ++
      (match model.effects with
        | some eff => expectedWarnings model.«namespace» "effect" eff
        | none => []) := by
  have hq : ∀ (V : Type) (o : Obj V), (Obj.keys o).Nodup →
      Obj.keys (qualified model.«namespace» o) =
          (Obj.keys o).map (fun k => model.«namespace» ++ "/" ++ k) ∧
        (qualified model.«namespace» o).length = o.length ∧
        (Obj.keys (qualified model.«namespace» o)).Nodup ∧
        ∀ k, Obj.getOwn (qualified model.«namespace» o) (model.«namespace» ++ "/" ++ k) =
          Obj.getOwn o k :=
    fun V o hnd => ⟨keys_qualified _ o, by simp [qualified], nodup_keys_qualified _ o hnd,
      getOwn_qualified _ o⟩
  refine ⟨by rw [prefixNamespace_fst], by rw [prefixNamespace_fst],
    by rw [prefixNamespace_fst], ?_, ?_, ?_, ?_, ?_, ?_, ?_, ?_⟩
  · intro h
    rw [prefixNamespace_fst]
    simp [h]
  · intro h hr
    rw [prefixNamespace_fst]
    simp [hr, prefixKeys_eq _ _ h (hmap h hr)]
  · intro h e hr
    rw [prefixNamespace_fst]
    simp [hr, prefixKeys_eq _ _ h (hpair h e hr)]
  · intro h
    rw [prefixNamespace_fst]
    simp [h]
  · intro eff he
    rw [prefixNamespace_fst]
    simp [he, prefixKeys_eq _ _ eff (heff eff he)]
  · intro h hr
    rcases hr with hr | ⟨e, hr⟩
    · exact hq _ h (hmap h hr)
    · exact hq _ h (hpair h e hr)
  · intro eff he
    exact hq _ eff (heff eff he)
  · rw [prefixNamespace_snd]
    congr 1
    · cases hr : model.reducers with
      | none => rfl
      | some r =>
        cases r with
        | map h => simp [prefixKeys_eq _ _ h (hmap h hr)]
        | pair h e => simp [prefixKeys_eq _ _ h (hpair h e hr)]
    · cases he : model.effects with
      | none => rfl
      | some eff => simp [prefixKeys_eq _ _ eff (heff eff he)]

/-- C5, at a model whose reducer key `counter/dec` already starts with the namespace
`counter`: the key becomes `counter/counter/dec` and one warning is issued. -/
theorem C5_prefixNamespace_keys_witness :
    (prefixNamespace tallyModel).1.reducers =
        some (.map [("counter/inc", 1), ("counter/counter/dec", 2)]) ∧
    (prefixNamespace tallyModel).1.effects = some [("counter/load", 3)] ∧
    (prefixNamespace tallyModel).2 =
      ["[prefixNamespace]: reducer counter/dec should not be prefixed with namespace counter"] := by
  have hmap : ∀ h, tallyModel.reducers = some (.map h) → (Obj.keys h).Nodup := by
    intro h hh
    simp only [tallyModel, Option.some.injEq, Reducers.map.injEq] at hh
    subst hh
    decide
  have hpair : ∀ h e, tallyModel.reducers = some (.pair h e) → (Obj.keys h).Nodup := by
    intro h e hh
    simp [tallyModel] at hh
  have heff : ∀ eff, tallyModel.effects = some eff → (Obj.keys eff).Nodup := by
    intro eff hh
    simp only [tallyModel, Option.some.injEq] at hh
    subst hh
    decide
  have h := C5_prefixNamespace_keys tallyModel hmap hpair heff
  refine ⟨?_, ?_, ?_⟩
  · rw [h.2.2.2.2.1 _ rfl]
    rfl
  · rw [h.2.2.2.2.2.2.2.1 _ rfl]
    rfl
  · rw [h.2.2.2.2.2.2.2.2.2.2]
    decide

theorem qualify_ne_empty (N k : String) : N ++ "/" ++ k ≠ "" := by
  intro h
  have h1 := congrArg String.data h
  simp [String.data_append] at h1

/-- C2 (amended): for a model with namespace `N` and handler map `handlers`, the reducer
`getReducer` composes from the qualified model with the default builder is the base reducer
`handleActions(qualified handlers, state)` for a plain map and the enhancer applied to that
base reducer for a pair `[handlers, enhancer]`; the base reducer maps an action of type
`N/k` to `handlers[k](s, action)` and an action whose non-empty type is no `N/k` to `s`,
where `s` is the incoming state, or the initial state of the model when the incoming state
is `undefined`; for the counter model, `n` dispatches of `{ type: "counter/inc" }` from the
initial state yield `n` as long as `n` is at most `2^53`, and `2^53` from then on, the sum
`2^53 + 1` of double-precision arithmetic being `2^53`. -/
theorem C2_qualified_reducer {σ P F B : Type}
    (model : Model (Option σ) (Reducer σ P) (Enhancer σ P) F B)
    (handlers : Obj (Reducer σ P)) (hnd : (Obj.keys handlers).Nodup) :
    (model.reducers = some (.map handlers) →
      getReducer (prefixNamespace model).1.reducers model.state none =
        handleActions (qualified model.«namespace» handlers) model.state) ∧
    (∀ enhancer, model.reducers = some (.pair handlers enhancer) →
      getReducer (prefixNamespace model).1.reducers model.state none =
        enhancer (handleActions (qualified model.«namespace» handlers) model.state)) ∧
    (∀ k h s a, Obj.getOwn handlers k = some h →
      a.type = some (model.«namespace» ++ "/" ++ k) →
      handleActions (qualified model.«namespace» handlers) model.state s a =
        h (match s with | none => model.state | some _ => s) a) ∧
    (∀ s a t, a.type = some t → t ≠ "" →
      (∀ k ∈ Obj.keys handlers, t ≠ model.«namespace» ++ "/" ++ k) →
      handleActions (qualified model.«namespace» handlers) model.state s a =
        .ok (match s with | none => model.state | some _ => s)) ∧
    (∀ n : Nat,
      dispatchTimes (getReducer (prefixNamespace counterModel).1.reducers counterModel.state none)
        ⟨some "counter/inc", ()⟩ n counterModel.state =
          .ok (some (.int (min (n : Int) 9007199254740992)))) := by
  have hq := nodup_keys_qualified model.«namespace» handlers hnd
  refine ⟨?_, ?_, ?_, ?_, ?_⟩
  · intro hr
    rw [prefixNamespace_fst]
    simp [hr, prefixKeys_eq _ _ handlers hnd, getReducer]
  · intro enhancer hr
    rw [prefixNamespace_fst]
    simp [hr, prefixKeys_eq _ _ handlers hnd, getReducer]
  · intro k h s a hk ha
    rw [handleActions_eq _ _ s a _ hq ha (qualify_ne_empty _ _), getOwn_qualified, hk]
  · intro s a t ha hne hno
    have hnone : Obj.getOwn (qualified model.«namespace» handlers) t = none := by
      rw [Obj.getOwn_eq_none_iff, keys_qualified]
      intro hmem
      obtain ⟨k, hk, hkt⟩ := List.mem_map.mp hmem
      exact hno k hk hkt.symm
    rw [handleActions_eq _ _ s a t hq ha hne, hnone]
  · have hstep : ∀ (m : Int), 0 ≤ m → m ≤ 9007199254740992 →
        getReducer (prefixNamespace counterModel).1.reducers counterModel.state none
          (some (.int m)) ⟨some "counter/inc", ()⟩ =
            .ok (some (.int (min (m + 1) 9007199254740992))) := by
      intro m h0 h1
      have hinc : getReducer (prefixNamespace counterModel).1.reducers counterModel.state none
          (some (.int m)) ⟨some "counter/inc", ()⟩ = .ok (some (.int (addOne m))) := rfl
      rw [hinc]
      congr 3
      unfold addOne
      by_cases hlt : m < 9007199254740992
      · rw [if_pos ⟨by omega, hlt⟩]
        omega
      · have hm : m = 9007199254740992 := by omega
        subst hm
        decide
    have hgen : ∀ (n : Nat) (m : Int), 0 ≤ m → m ≤ 9007199254740992 →
        dispatchTimes
          (getReducer (prefixNamespace counterModel).1.reducers counterModel.state none)
          ⟨some "counter/inc", ()⟩ n (some (.int m)) =
            .ok (some (.int (min (m + n) 9007199254740992))) := by
      intro n
      induction n with
      | zero =>
        intro m _ h1
        simp only [dispatchTimes]
        congr 3
        simp only [Nat.cast_zero, add_zero]
        omega
      | succ n ih =>
        intro m h0 h1
        simp only [dispatchTimes, hstep m h0 h1]
        rw [ih _ (by omega) (by omega)]
        congr 3
        push_cast
        omega
    intro n
    have := hgen n 0 (le_refl _) (by decide)
    simpa [counterModel] using this

/-- C2 (amended), at the counter model: three dispatches of `{ type: "counter/inc" }` from
the initial state `0` yield `3`. -/
theorem C2_qualified_reducer_witness :
    (Obj.keys [("inc", (inc : Reducer JsNum Unit))]).Nodup ∧
    dispatchTimes (getReducer (prefixNamespace counterModel).1.reducers counterModel.state none)
      ⟨some "counter/inc", ()⟩ 3 counterModel.state = .ok (some (.int 3)) :=
  ⟨by decide,
    ((C2_qualified_reducer counterModel [("inc", inc)] (by decide)).2.2.2.2 3).trans rfl⟩

/-- C2 as stated fails: with a `[map, enhancer]` pair the composed reducer is what the
enhancer returns, here a reducer that maps `counter/inc` to the unchanged state `0` while
the handler `inc` yields `1`; with an `undefined` incoming state the handler runs on the
initial state `0` and yields `1`, while `inc(undefined)` is `NaN`; and an action whose type
is the empty string, which is no `counter/k`, is rejected rather than leaving the state
unchanged. -/
theorem C2_counterexample :
    (Obj.getOwn [("inc", (inc : Reducer JsNum Unit))] "inc" = some inc ∧
      getReducer (prefixNamespace counterModelEnhanced).1.reducers counterModelEnhanced.state
          none (some (.int 0)) ⟨some "counter/inc", ()⟩ = .ok (some (.int 0)) ∧
      (inc : Reducer JsNum Unit) (some (.int 0)) ⟨some "counter/inc", ()⟩ =
        .ok (some (.int 1)) ∧
      getReducer (prefixNamespace counterModelEnhanced).1.reducers counterModelEnhanced.state
          none (some (.int 0)) ⟨some "counter/inc", ()⟩ ≠
        (inc : Reducer JsNum Unit) (some (.int 0)) ⟨some "counter/inc", ()⟩) ∧
    (getReducer (prefixNamespace counterModel).1.reducers counterModel.state none
          none ⟨some "counter/inc", ()⟩ = .ok (some (.int 1)) ∧
      (inc : Reducer JsNum Unit) none ⟨some "counter/inc", ()⟩ = .ok (some .nan) ∧
      getReducer (prefixNamespace counterModel).1.reducers counterModel.state none
          none ⟨some "counter/inc", ()⟩ ≠
        (inc : Reducer JsNum Unit) none ⟨some "counter/inc", ()⟩) ∧
    ("" ∉ (Obj.keys [("inc", (inc : Reducer JsNum Unit))]).map (fun k => "counter" ++ "/" ++ k) ∧
      getReducer (prefixNamespace counterModel).1.reducers counterModel.state none
          (some (.int 0)) ⟨some "", ()⟩ =
        .error (.invariant "dispatch: action should be a plain Object with type") ∧
      getReducer (prefixNamespace counterModel).1.reducers counterModel.state none
          (some (.int 0)) ⟨some "", ()⟩ ≠ .ok (some (.int 0))) := by
  refine ⟨⟨rfl, rfl, rfl, ?_⟩, ⟨rfl, rfl, ?_⟩, ⟨by decide, rfl, ?_⟩⟩
  · intro h
    have h1 : (Except.ok (some (JsNum.int 0)) : Except JsError (Option JsNum)) =
        .ok (some (.int 1)) := h
    simp at h1
  · intro h
    have h1 : (Except.ok (some (JsNum.int 1)) : Except JsError (Option JsNum)) =
        .ok (some .nan) := h
    simp at h1
  · intro h
    have h1 : (Except.error (.invariant "dispatch: action should be a plain Object with type") :
        Except JsError (Option JsNum)) = .ok (some (.int 0)) := h
    simp at h1

/-! ## prefixType -/

/-- Where the pattern matches, no slash follows the first character. -/
theorem matchesAffix_tail (l : List Char) (h : matchesAffix l = true) : '/' ∉ l.tail := by
  match l, h with
  | [], h => simp [matchesAffix] at h
  | [_], h => simp [matchesAffix] at h
  | [_, _], h => simp [matchesAffix] at h
  | [_, _, _], h => simp [matchesAffix] at h
  | a :: b :: c :: d :: rest, h =>
    simp only [matchesAffix, Bool.and_eq_true, beq_iff_eq, List.all_eq_true, bne_iff_ne,
      ne_eq] at h
    obtain ⟨⟨⟨_, hb⟩, hc⟩, hall⟩ := h
    subst hb hc
    simp only [List.tail_cons, List.mem_cons, not_or]
    refine ⟨by decide, by decide, ?_⟩
    have h1 := hall d (List.mem_cons_self _ _)
    refine ⟨fun e => h1 e.symm, ?_⟩
    intro hm
    exact hall '/' (List.mem_cons_of_mem _ hm) rfl

/-- The pattern matches a slash, two at-signs and a token exactly when the token is not
empty and holds no slash. -/
theorem matchesAffix_token (tok : List Char) :
    matchesAffix ('/' :: '@' :: '@' :: tok) = true ↔ tok ≠ [] ∧ '/' ∉ tok := by
  cases tok with
  | nil => simp [matchesAffix]
  | cons c rest =>
    simp only [matchesAffix, Bool.and_eq_true, beq_iff_eq, List.all_eq_true, bne_iff_ne,
      ne_eq, true_and, not_false_eq_true, reduceCtorEq]
    constructor
    · intro h hm
      exact h '/' hm rfl
    · intro h x hx e
      exact h (e ▸ hx)

/-- Where the pattern matches, the characters are a slash, two at-signs and a token. -/
theorem matchesAffix_shape (l : List Char) (h : matchesAffix l = true) :
    ∃ tok, l = '/' :: '@' :: '@' :: tok := by
  match l, h with
  | [], h => simp [matchesAffix] at h
  | [_], h => simp [matchesAffix] at h
  | [_, _], h => simp [matchesAffix] at h
  | [_, _, _], h => simp [matchesAffix] at h
  | a :: b :: c :: d :: rest, h =>
    simp only [matchesAffix, Bool.and_eq_true, beq_iff_eq] at h
    obtain ⟨⟨⟨ha, hb⟩, hc⟩, _⟩ := h
    exact ⟨d :: rest, by rw [ha, hb, hc]⟩

/-- A trailing segment `/@@<token>`, the token not empty and without a slash, is removed. -/
theorem stripAffixChars_suffix (xs tok : List Char) (hne : tok ≠ []) (hns : '/' ∉ tok) :
    stripAffixChars (xs ++ '/' :: '@' :: '@' :: tok) = xs := by
  induction xs with
  | nil =>
    have hm := (matchesAffix_token tok).mpr ⟨hne, hns⟩
    simp [stripAffixChars, hm]
  | cons c rest ih =>
    have hno : matchesAffix (c :: (rest ++ '/' :: '@' :: '@' :: tok)) = false := by
      cases hm : matchesAffix (c :: (rest ++ '/' :: '@' :: '@' :: tok)) with
      | false => rfl
      | true =>
        exfalso
        exact matchesAffix_tail _ hm (by simp)
    rw [List.cons_append, stripAffixChars, hno, ih]
    simp

/-- A string that does not end in such a segment is left as it is. -/
theorem stripAffixChars_none (s : List Char)
    (h : ∀ xs tok, s = xs ++ '/' :: '@' :: '@' :: tok → tok = [] ∨ '/' ∈ tok) :
    stripAffixChars s = s := by
  induction s with
  | nil => rfl
  | cons c rest ih =>
    have hno : matchesAffix (c :: rest) = false := by
      cases hm : matchesAffix (c :: rest) with
      | false => rfl
      | true =>
        exfalso
        obtain ⟨tok, htok⟩ := matchesAffix_shape _ hm
        rw [htok] at hm
        have h2 := (matchesAffix_token tok).mp hm
        rcases h [] tok (by simp [htok]) with h3 | h3
        · exact h2.1 h3
        · exact h2.2 h3
    rw [stripAffixChars, hno]
    simp only [Bool.false_eq_true, if_false, List.cons.injEq, true_and]
    apply ih
    intro xs tok hs
    exact h (c :: xs) tok (by simp [hs])

theorem readTruthy_iff {V : Type} (o : Obj V) (key : String) :
    readTruthy o key = true ↔ key ∈ Obj.keys o ∨ key ∈ objectPrototypeKeys := by
  have h1 := Obj.getOwn_eq_none_iff o key
  cases hg : Obj.getOwn o key with
  | none =>
    rw [hg] at h1
    have h2 := h1.mp rfl
    simp [readTruthy, hg, h2]
  | some v =>
    rw [hg] at h1
    have h2 : key ∈ Obj.keys o := by
      by_contra hc
      exact Option.some_ne_none v (h1.mpr hc)
    simp [readTruthy, hg, h2]

/-- What `prefixType` returns: the qualified type when the type without its affix is an own
key of the reducer map or of the effect map, and also when it names a property that such a
map, if present, inherits from `Object.prototype`; the type itself otherwise. -/
theorem prefixType_eq {S H E F B : Type} (type : String) (model : Model S H E F B) :
    (((∃ h, (model.reducers = some (.map h) ∨ ∃ e, model.reducers = some (.pair h e)) ∧
            stripAffix (model.«namespace» ++ "/" ++ type) ∈ Obj.keys h) ∨
        (∃ eff, model.effects = some eff ∧
            stripAffix (model.«namespace» ++ "/" ++ type) ∈ Obj.keys eff) ∨
        ((model.reducers ≠ none ∨ model.effects ≠ none) ∧
            stripAffix (model.«namespace» ++ "/" ++ type) ∈ objectPrototypeKeys)) →
      prefixType type model = model.«namespace» ++ "/" ++ type) ∧
    (¬ ((∃ h, (model.reducers = some (.map h) ∨ ∃ e, model.reducers = some (.pair h e)) ∧
            stripAffix (model.«namespace» ++ "/" ++ type) ∈ Obj.keys h) ∨
        (∃ eff, model.effects = some eff ∧
            stripAffix (model.«namespace» ++ "/" ++ type) ∈ Obj.keys eff) ∨
        ((model.reducers ≠ none ∨ model.effects ≠ none) ∧
            stripAffix (model.«namespace» ++ "/" ++ type) ∈ objectPrototypeKeys)) →
      prefixType type model = type) := by
  obtain ⟨ns, st, rs, es, sb⟩ := model
  cases rs with
  | none =>
    cases es with
    | none => simp [prefixType]
    | some eff =>
      simp only [prefixType, NAMESPACE_SEP, Bool.or_eq_true, readTruthy_iff]
      constructor
      · intro h
        rw [if_pos]
        simpa using h
      · intro h
        rw [if_neg]
        simpa using h
  | some r =>
    cases r with
    | map h =>
      cases es with
      | none =>
        simp only [prefixType, NAMESPACE_SEP, Bool.or_eq_true, readTruthy_iff]
        constructor
        · intro h
          rw [if_pos]
          simpa using h
        · intro h
          rw [if_neg]
          simpa using h
      | some eff =>
        simp only [prefixType, NAMESPACE_SEP, Bool.or_eq_true, readTruthy_iff]
        constructor
        · intro h
          rw [if_pos]
          simp at h
          tauto
        · intro h
          rw [if_neg]
          simp at h
          tauto
    | pair h e =>
      cases es with
      | none =>
        simp only [prefixType, NAMESPACE_SEP, Bool.or_eq_true, readTruthy_iff]
        constructor
        · intro h
          rw [if_pos]
          simpa using h
        · intro h
          rw [if_neg]
          simpa using h
      | some eff =>
        simp only [prefixType, NAMESPACE_SEP, Bool.or_eq_true, readTruthy_iff]
        constructor
        · intro h
          rw [if_pos]
          simp at h
          tauto
        · intro h
          rw [if_neg]
          simp at h
          tauto

/-- C6: for the qualified model of `{ namespace: "toString", reducers: { inc } }` and the
type `@@x`, the type without its affix is `toString`, which is no key of the reducer map
`{ "toString/inc": inc }` (the model has no effects); `prefixType` nevertheless returns the
qualified type `toString/@@x`, because the read `reducers["toString"]` yields the function
every object inherits. With the namespace `counter` the same type is returned as it is. -/
theorem C6_inherited_name_is_qualified :
    (prefixNamespace toStringModel).1.reducers = some (.map [("toString/inc", inc)]) ∧
    (prefixNamespace toStringModel).1.effects = none ∧
    stripAffix ((prefixNamespace toStringModel).1.«namespace» ++ "/" ++ "@@x") = "toString" ∧
    "toString" ∉ Obj.keys [("toString/inc", (inc : Reducer JsNum Unit))] ∧
    prefixType "@@x" (prefixNamespace toStringModel).1 = "toString/@@x" ∧
    prefixType "@@x" (prefixNamespace toStringModel).1 ≠ "@@x" ∧
    prefixType "@@x" (prefixNamespace counterModel).1 = "@@x" := by
  refine ⟨rfl, rfl, by decide, by decide, by decide, by decide, by decide⟩

/-! ## Plugin: registration -/

/-- A step of `use` leaves the stored value of every other hook as it is. -/
theorem useKey_other {F : Type} (Q Q1 : Plugin F) (k : String) (v : Val F)
    (h : Plugin.useKey Q k v = .ok Q1) (key : String) (hne : k ≠ key) :
    Obj.getOwn Q1.hooks key = Obj.getOwn Q.hooks key := by
  unfold Plugin.useKey at h
  split at h
  · cases h
  · split at h
    · cases h
      rfl
    · split at h
      · cases h
        simp [Obj.getOwn_set, hne]
      · split at h
        · cases h
          simp [Obj.getOwn_set, hne]
        · cases h

/-- A step of `use` for a key other than `_handleActions` leaves that field as it is. -/
theorem useKey_field_other {F : Type} (Q Q1 : Plugin F) (k : String) (v : Val F)
    (h : Plugin.useKey Q k v = .ok Q1) (hne : k ≠ "_handleActions") :
    Q1._handleActions = Q._handleActions := by
  unfold Plugin.useKey at h
  split at h
  · cases h
  · rw [if_neg hne] at h
    split at h
    · cases h
      rfl
    · split at h
      · cases h
        rfl
      · cases h

/-- A step of `use` for the key `_handleActions` stores the value in that field. -/
theorem useKey_field {F : Type} (Q Q1 : Plugin F) (v : Val F)
    (h : Plugin.useKey Q "_handleActions" v = .ok Q1) :
    Q1._handleActions = v ∧ Q1.hooks = Q.hooks := by
  unfold Plugin.useKey at h
  split at h
  · cases h
  · rw [if_pos rfl] at h
    cases h
    exact ⟨rfl, rfl⟩

/-- A step of `use` for the key `extraEnhancers` replaces the stored value. -/
theorem useKey_replace {F : Type} (Q Q1 : Plugin F) (v : Val F)
    (h : Plugin.useKey Q "extraEnhancers" v = .ok Q1) :
    Obj.getOwn Q1.hooks "extraEnhancers" = some v := by
  unfold Plugin.useKey at h
  split at h
  · cases h
  · rw [if_neg (by decide), if_pos rfl] at h
    cases h
    simp [Obj.getOwn_set]

/-- A step of `use` for any other key appends the value to the stored list. -/
theorem useKey_push {F : Type} (Q Q1 : Plugin F) (k : String) (v : Val F)
    (items : List (Val F)) (h : Plugin.useKey Q k v = .ok Q1)
    (hk1 : k ≠ "_handleActions") (hk2 : k ≠ "extraEnhancers")
    (hown : Obj.getOwn Q.hooks k = some (.arr items)) :
    Obj.getOwn Q1.hooks k = some (.arr (items ++ [v])) := by
  unfold Plugin.useKey at h
  split at h
  · cases h
  · rw [if_neg hk1, if_neg hk2] at h
    simp only [Obj.read, hown] at h
    cases h
    simp [Obj.getOwn_set]

theorem useLoop_cons_ok {F : Type} (Q Q' : Plugin F) (k : String) (v : Val F)
    (rest : List (String × Val F)) (h : Plugin.useLoop Q ((k, v) :: rest) = (Q', none)) :
    ∃ Q1, Plugin.useKey Q k v = .ok Q1 ∧ Plugin.useLoop Q1 rest = (Q', none) := by
  cases hk : Plugin.useKey Q k v with
  | error e => simp [Plugin.useLoop, hk] at h
  | ok Q1 =>
    refine ⟨Q1, rfl, ?_⟩
    simpa [Plugin.useLoop, hk] using h

/-- A successful registration appends, to the list of a hook other than `extraEnhancers`
and `_handleActions`, the value the plugin holds for it, if any. -/
theorem useLoop_append {F : Type} (key : String) (hk1 : key ≠ "_handleActions")
    (hk2 : key ≠ "extraEnhancers") (kvs : List (String × Val F)) :
    ∀ (Q Q' : Plugin F) (items : List (Val F)), Plugin.useLoop Q kvs = (Q', none) →
      (Obj.keys kvs).Nodup → Obj.getOwn Q.hooks key = some (.arr items) →
      Obj.getOwn Q'.hooks key = some (.arr (items ++ (Obj.getOwn kvs key).toList)) := by
  induction kvs with
  | nil =>
    intro Q Q' items h _ hown
    simp only [Plugin.useLoop, Prod.mk.injEq, and_true] at h
    subst h
    simp [Obj.getOwn, hown]
  | cons kv rest ih =>
    obtain ⟨k, v⟩ := kv
    intro Q Q' items h hnd hown
    obtain ⟨Q1, h1, h2⟩ := useLoop_cons_ok Q Q' k v rest h
    simp only [Obj.keys, List.map_cons, List.nodup_cons] at hnd
    by_cases hk : k = key
    · subst hk
      have hnone : Obj.getOwn rest k = none := (Obj.getOwn_eq_none_iff rest k).mpr hnd.1
      have h3 := ih Q1 Q' (items ++ [v]) h2 hnd.2 (useKey_push Q Q1 k v items h1 hk1 hk2 hown)
      simpa [Obj.getOwn, hnone] using h3
    · have h3 := ih Q1 Q' items h2 hnd.2 (by rw [useKey_other Q Q1 k v h1 key hk, hown])
      simpa [Obj.getOwn, hk] using h3

/-- A successful registration replaces the stored value of `extraEnhancers` by the value
the plugin holds for it, if any. -/
theorem useLoop_replace {F : Type} (kvs : List (String × Val F)) :
    ∀ (Q Q' : Plugin F), Plugin.useLoop Q kvs = (Q', none) → (Obj.keys kvs).Nodup →
      Obj.getOwn Q'.hooks "extraEnhancers" =
        match Obj.getOwn kvs "extraEnhancers" with
        | some v => some v
        | none => Obj.getOwn Q.hooks "extraEnhancers" := by
  induction kvs with
  | nil =>
    intro Q Q' h _
    simp only [Plugin.useLoop, Prod.mk.injEq, and_true] at h
    subst h
    simp [Obj.getOwn]
  | cons kv rest ih =>
    obtain ⟨k, v⟩ := kv
    intro Q Q' h hnd
    obtain ⟨Q1, h1, h2⟩ := useLoop_cons_ok Q Q' k v rest h
    simp only [Obj.keys, List.map_cons, List.nodup_cons] at hnd
    by_cases hk : k = "extraEnhancers"
    · subst hk
      have hnone : Obj.getOwn rest "extraEnhancers" = none :=
        (Obj.getOwn_eq_none_iff rest _).mpr hnd.1
      have h3 := ih Q1 Q' h2 hnd.2
      rw [hnone, useKey_replace Q Q1 v h1] at h3
      simpa [Obj.getOwn] using h3
    · have h3 := ih Q1 Q' h2 hnd.2
      rw [useKey_other Q Q1 k v h1 _ hk] at h3
      simpa [Obj.getOwn, hk] using h3

/-- A successful registration replaces the field `_handleActions` by the value the plugin
holds for it, if any. -/
theorem useLoop_field {F : Type} (kvs : List (String × Val F)) :
    ∀ (Q Q' : Plugin F), Plugin.useLoop Q kvs = (Q', none) → (Obj.keys kvs).Nodup →
      Q'._handleActions = (Obj.getOwn kvs "_handleActions").getD Q._handleActions := by
  induction kvs with
  | nil =>
    intro Q Q' h _
    simp only [Plugin.useLoop, Prod.mk.injEq, and_true] at h
    subst h
    simp [Obj.getOwn]
  | cons kv rest ih =>
    obtain ⟨k, v⟩ := kv
    intro Q Q' h hnd
    obtain ⟨Q1, h1, h2⟩ := useLoop_cons_ok Q Q' k v rest h
    simp only [Obj.keys, List.map_cons, List.nodup_cons] at hnd
    by_cases hk : k = "_handleActions"
    · subst hk
      have hnone : Obj.getOwn rest "_handleActions" = none :=
        (Obj.getOwn_eq_none_iff rest _).mpr hnd.1
      have h3 := ih Q1 Q' h2 hnd.2
      rw [hnone, (useKey_field Q Q1 v h1).1] at h3
      simpa [Obj.getOwn] using h3
    · have h3 := ih Q1 Q' h2 hnd.2
      rw [useKey_field_other Q Q1 k v h1 hk] at h3
      simpa [Obj.getOwn, hk] using h3

/-- A registration, successful or not, leaves every hook whose key the plugin does not
contain as it is. -/
theorem useLoop_untouched {F : Type} (key : String) (kvs : List (String × Val F)) :
    ∀ (Q : Plugin F), key ∉ Obj.keys kvs →
      Obj.getOwn (Plugin.useLoop Q kvs).1.hooks key = Obj.getOwn Q.hooks key := by
  induction kvs with
  | nil =>
    intro Q _
    rfl
  | cons kv rest ih =>
    obtain ⟨k, v⟩ := kv
    intro Q hno
    simp only [Obj.keys, List.map_cons, List.mem_cons, not_or] at hno
    have hk : k ≠ key := fun e => hno.1 e.symm
    cases h1 : Plugin.useKey Q k v with
    | error e => simp [Plugin.useLoop, h1]
    | ok Q1 =>
      simp only [Plugin.useLoop, h1]
      rw [ih Q1 hno.2, useKey_other Q Q1 k v h1 key hk]

/-- A registration, successful or not, that does not contain `_handleActions` leaves that
field as it is. -/
theorem useLoop_field_untouched {F : Type} (kvs : List (String × Val F)) :
    ∀ (Q : Plugin F), "_handleActions" ∉ Obj.keys kvs →
      (Plugin.useLoop Q kvs).1._handleActions = Q._handleActions := by
  induction kvs with
  | nil =>
    intro Q _
    rfl
  | cons kv rest ih =>
    obtain ⟨k, v⟩ := kv
    intro Q hno
    simp only [Obj.keys, List.map_cons, List.mem_cons, not_or] at hno
    have hk : k ≠ "_handleActions" := fun e => hno.1 e.symm
    cases h1 : Plugin.useKey Q k v with
    | error e => simp [Plugin.useLoop, h1]
    | ok Q1 =>
      simp only [Plugin.useLoop, h1]
      rw [ih Q1 hno.2, useKey_field_other Q Q1 k v h1 hk]

theorem useAll_cons_ok {F : Type} (Q P : Plugin F) (p : Obj (Val F)) (ps : List (Obj (Val F)))
    (h : Plugin.useAll Q (p :: ps) = some P) :
    ∃ Q1, Plugin.useLoop Q p = (Q1, none) ∧ Plugin.useAll Q1 ps = some P := by
  rcases hu : Plugin.useLoop Q p with ⟨Q1, _ | e⟩
  · refine ⟨Q1, rfl, ?_⟩
    simpa [Plugin.useAll, Plugin.use, hu] using h
  · simp [Plugin.useAll, Plugin.use, hu] at h

/-- What a fresh registry holds. -/
theorem new_hooks {F : Type} (key : String) (hk : key ∈ hooks) :
    Obj.getOwn (Plugin.new : Plugin F).hooks key = some (.arr []) := by
  simp only [hooks, List.mem_cons, List.mem_singleton, List.not_mem_nil, or_false] at hk
  rcases hk with h | h | h | h | h | h | h | h | h <;> subst h <;> rfl

/-- After successful registrations, the list of a hook other than `extraEnhancers` and
`_handleActions` is extended by the values registered for it, in registration order. -/
theorem useAll_append {F : Type} (key : String) (hk1 : key ≠ "_handleActions")
    (hk2 : key ≠ "extraEnhancers") (ps : List (Obj (Val F))) :
    ∀ (Q P : Plugin F) (items : List (Val F)), Plugin.useAll Q ps = some P →
      (∀ p ∈ ps, (Obj.keys p).Nodup) → Obj.getOwn Q.hooks key = some (.arr items) →
      Obj.getOwn P.hooks key =
        some (.arr (items ++ ps.filterMap (fun p => Obj.getOwn p key))) := by
  induction ps with
  | nil =>
    intro Q P items h _ hown
    simp only [Plugin.useAll, Option.some.injEq] at h
    subst h
    simp [hown]
  | cons p ps ih =>
    intro Q P items h hnd hown
    obtain ⟨Q1, h1, h2⟩ := useAll_cons_ok Q P p ps h
    have hp := hnd p (List.mem_cons_self _ _)
    have h3 := ih Q1 P _ h2 (fun q hq => hnd q (List.mem_cons_of_mem _ hq))
      (useLoop_append key hk1 hk2 p Q Q1 items h1 hp hown)
    rw [h3]
    cases hg : Obj.getOwn p key <;> simp [List.filterMap_cons, hg]

/-- The value a sequence of writes leaves: the last write wins. -/
theorem foldl_last_write {α β : Type} (g : α → β → α) (pre post : List β) (p : β)
    (init x : α) (hp : ∀ c, g c p = x) (hpost : ∀ q ∈ post, ∀ c, g c q = c) :
    (pre ++ p :: post).foldl g init = x := by
  rw [List.foldl_append, List.foldl_cons, hp]
  clear hp
  induction post with
  | nil => rfl
  | cons q rest ih =>
    rw [List.foldl_cons, hpost q (List.mem_cons_self _ _)]
    exact ih (fun r hr => hpost r (List.mem_cons_of_mem _ hr))

/-- A sequence of writes none of which writes leaves the initial value. -/
theorem foldl_no_write {α β : Type} (g : α → β → α) (ps : List β) (init : α)
    (h : ∀ q ∈ ps, ∀ c, g c q = c) : ps.foldl g init = init := by
  induction ps with
  | nil => rfl
  | cons q rest ih =>
    rw [List.foldl_cons, h q (List.mem_cons_self _ _)]
    exact ih (fun r hr => h r (List.mem_cons_of_mem _ hr))

/-- After successful registrations, `extraEnhancers` holds the result of the writes made
to it, in registration order. -/
theorem useAll_replace {F : Type} (ps : List (Obj (Val F))) :
    ∀ (Q P : Plugin F), Plugin.useAll Q ps = some P → (∀ p ∈ ps, (Obj.keys p).Nodup) →
      Obj.getOwn P.hooks "extraEnhancers" =
        ps.foldl (fun cur p => match Obj.getOwn p "extraEnhancers" with
          | some v => some v
          | none => cur) (Obj.getOwn Q.hooks "extraEnhancers") := by
  induction ps with
  | nil =>
    intro Q P h _
    simp only [Plugin.useAll, Option.some.injEq] at h
    subst h
    rfl
  | cons p ps ih =>
    intro Q P h hnd
    obtain ⟨Q1, h1, h2⟩ := useAll_cons_ok Q P p ps h
    rw [ih Q1 P h2 (fun q hq => hnd q (List.mem_cons_of_mem _ hq)),
      useLoop_replace p Q Q1 h1 (hnd p (List.mem_cons_self _ _))]
    rfl

/-- After successful registrations, the field `_handleActions` holds the result of the
writes made to it, in registration order. -/
theorem useAll_field {F : Type} (ps : List (Obj (Val F))) :
    ∀ (Q P : Plugin F), Plugin.useAll Q ps = some P → (∀ p ∈ ps, (Obj.keys p).Nodup) →
      P._handleActions =
        ps.foldl (fun cur p => (Obj.getOwn p "_handleActions").getD cur) Q._handleActions := by
  induction ps with
  | nil =>
    intro Q P h _
    simp only [Plugin.useAll, Option.some.injEq] at h
    subst h
    rfl
  | cons p ps ih =>
    intro Q P h hnd
    obtain ⟨Q1, h1, h2⟩ := useAll_cons_ok Q P p ps h
    rw [ih Q1 P h2 (fun q hq => hnd q (List.mem_cons_of_mem _ hq)),
      useLoop_field p Q Q1 h1 (hnd p (List.mem_cons_self _ _))]
    rfl

/-- In a registry whose hooks other than `extraEnhancers` hold lists and which has no
other own key, `use` throws exactly when the plugin has a key that is no known hook name,
or has the key `extraEnhancers` while the stored value of `extraEnhancers` is falsy. -/
theorem use_raises_iff {F : Type} (p : Obj (Val F)) :
    ∀ (Q : Plugin F) (v0 : Val F), (Obj.keys p).Nodup →
      (∀ key ∈ hooks, key ≠ "extraEnhancers" →
        ∃ items, Obj.getOwn Q.hooks key = some (.arr items)) →
      (∀ key, key ∉ hooks → Obj.getOwn Q.hooks key = none) →
      Obj.getOwn Q.hooks "extraEnhancers" = some v0 →
      ((Plugin.use Q p).2 ≠ none ↔
        (∃ k ∈ Obj.keys p, k ∉ hooks) ∨
          ("extraEnhancers" ∈ Obj.keys p ∧ v0.truthy = false)) := by
  induction p with
  | nil =>
    intro Q v0 _ _ _ _
    simp [Plugin.use, Plugin.useLoop, Obj.keys]
  | cons kv rest ih =>
    obtain ⟨k, v⟩ := kv
    intro Q v0 hnd hl ho hx
    simp only [Obj.keys, List.map_cons, List.nodup_cons] at hnd
    have hkeys : Obj.keys ((k, v) :: rest) = k :: Obj.keys rest := rfl
    by_cases hk : k ∈ hooks
    · by_cases hk2 : k = "extraEnhancers"
      · subst hk2
        cases ht : v0.truthy with
        | false =>
          have hstep : ∃ e, Plugin.useKey Q "extraEnhancers" v = .error e := by
            simp [Plugin.useKey, Obj.read, hx, Read.truthy, ht, invariant]
          obtain ⟨e, he⟩ := hstep
          simp [Plugin.use, Plugin.useLoop, he, hkeys]
        | true =>
          have hstep : Plugin.useKey Q "extraEnhancers" v =
              .ok { Q with hooks := Obj.set Q.hooks "extraEnhancers" v } := by
            simp [Plugin.useKey, Obj.read, hx, Read.truthy, ht, invariant]
          have hres : (Plugin.use Q (("extraEnhancers", v) :: rest)).2 =
              (Plugin.use { Q with hooks := Obj.set Q.hooks "extraEnhancers" v } rest).2 := by
            simp [Plugin.use, Plugin.useLoop, hstep]
          have hiff := ih { Q with hooks := Obj.set Q.hooks "extraEnhancers" v } v hnd.2
            (by
              intro key hkey hne
              obtain ⟨items, hi⟩ := hl key hkey hne
              exact ⟨items, by simp [Obj.getOwn_set, Ne.symm hne, hi]⟩)
            (by
              intro key hkey
              have hne : ¬ "extraEnhancers" = key := fun e => hkey (e ▸ hk)
              simp [Obj.getOwn_set, hne, ho key hkey])
            (by simp [Obj.getOwn_set])
          rw [hres, hiff, hkeys]
          have hnot : "extraEnhancers" ∉ Obj.keys rest := hnd.1
          simp only [List.mem_cons, exists_eq_or_imp, hk, not_true_eq_false, false_or, hnot,
            false_and, or_false, true_or, true_and]
          simp
      · have hstep : ∃ Q1 : Plugin F, Plugin.useKey Q k v = .ok Q1 ∧
            (∀ key, key ≠ k → Obj.getOwn Q1.hooks key = Obj.getOwn Q.hooks key) ∧
            (∃ items, Obj.getOwn Q1.hooks k = some (.arr items)) := by
          obtain ⟨items, hi⟩ := hl k hk hk2
          by_cases hk1 : k = "_handleActions"
          · refine ⟨{ Q with _handleActions := v }, ?_, fun _ _ => rfl, items, hi⟩
            subst hk1
            simp [Plugin.useKey, Obj.read, hi, Read.truthy, Val.truthy, invariant]
          · refine ⟨{ Q with hooks := Obj.set Q.hooks k (.arr (items ++ [v])) }, ?_, ?_, ?_⟩
            · simp [Plugin.useKey, Obj.read, hi, Read.truthy, Val.truthy, invariant, hk1, hk2]
            · intro key hne
              simp [Obj.getOwn_set, Ne.symm hne]
            · exact ⟨items ++ [v], by simp [Obj.getOwn_set]⟩
        obtain ⟨Q1, hs1, hs2, hs3⟩ := hstep
        have hres : (Plugin.use Q ((k, v) :: rest)).2 = (Plugin.use Q1 rest).2 := by
          simp [Plugin.use, Plugin.useLoop, hs1]
        have hiff := ih Q1 v0 hnd.2
          (by
            intro key hkey hne
            by_cases hkk : key = k
            · subst hkk
              exact hs3
            · rw [hs2 key hkk]
              exact hl key hkey hne)
          (by
            intro key hkey
            have hkk : key ≠ k := fun e => hkey (e ▸ hk)
            rw [hs2 key hkk]
            exact ho key hkey)
          (by rw [hs2 _ (Ne.symm hk2)]; exact hx)
        rw [hres, hiff, hkeys]
        have hk2' : ¬ "extraEnhancers" = k := fun e => hk2 e.symm
        simp only [List.mem_cons, exists_eq_or_imp, hk, not_true_eq_false, false_or, hk2']
    · have hstep : ∃ e, Plugin.useKey Q k v = .error e := by
        have h1 : k ≠ "_handleActions" := fun e => hk (e ▸ (by decide))
        have h2 : k ≠ "extraEnhancers" := fun e => hk (e ▸ (by decide))
        by_cases hp : k ∈ objectPrototypeKeys
        · simp [Plugin.useKey, Obj.read, ho k hk, hp, Read.truthy, invariant, h1, h2]
        · simp [Plugin.useKey, Obj.read, ho k hk, hp, Read.truthy, invariant]
      obtain ⟨e, he⟩ := hstep
      have hres : (Plugin.use Q ((k, v) :: rest)).2 = some e := by
        simp [Plugin.use, Plugin.useLoop, he]
      rw [hres, hkeys]
      simp only [ne_eq, reduceCtorEq, not_false_eq_true, List.mem_cons, exists_eq_or_imp, hk,
        true_or]

/-- On a fresh registry, `use` throws exactly when the plugin has a key that is no known
hook name. -/
theorem use_new_raises_iff {F : Type} (p : Obj (Val F)) (hnd : (Obj.keys p).Nodup) :
    (Plugin.use (Plugin.new : Plugin F) p).2 ≠ none ↔ ∃ k ∈ Obj.keys p, k ∉ hooks := by
  have h := use_raises_iff p (Plugin.new : Plugin F) (.arr []) hnd
    (fun key hk _ => ⟨[], new_hooks key hk⟩)
    (by
      intro key hk
      rw [Obj.getOwn_eq_none_iff]
      exact hk)
    (new_hooks _ (by decide))
  simpa [Val.truthy] using h

/-- C7: after the successful registration of `{ extraEnhancers: undefined }` on a fresh
registry, the registration of `{ extraEnhancers: [] }`, whose only key is a known hook
name, is rejected with `unknown plugin property: extraEnhancers`. -/
theorem C7_known_key_is_rejected :
    Plugin.useAll (Plugin.new : Plugin Unit) [[("extraEnhancers", .undefined)]] =
      some (Plugin.use Plugin.new [("extraEnhancers", .undefined)]).1 ∧
    (∀ k ∈ Obj.keys [("extraEnhancers", (.arr [] : Val Unit))], k ∈ hooks) ∧
    (Plugin.use (Plugin.use (Plugin.new : Plugin Unit) [("extraEnhancers", .undefined)]).1
        [("extraEnhancers", .arr [])]).2 =
      some (.invariant "plugin.use: unknown plugin property: extraEnhancers") := by
  refine ⟨rfl, by decide, by decide⟩

/-- C8: after the successful registrations `ps` on a fresh registry, every hook other than
`extraEnhancers` and `_handleActions` holds the values registered for it, in registration
order; `extraEnhancers` and the field `_handleActions` hold the value of the last
registration that contains them, and their initial values `[]` and `null` when none does;
a registration leaves every hook whose key it does not contain as it is. -/
theorem C8_registration_order {F : Type} (ps : List (Obj (Val F))) (P : Plugin F)
    (hnd : ∀ p ∈ ps, (Obj.keys p).Nodup) (hok : Plugin.useAll Plugin.new ps = some P) :
    (∀ key ∈ hooks, key ≠ "extraEnhancers" → key ≠ "_handleActions" →
      Obj.getOwn P.hooks key = some (.arr (ps.filterMap (fun p => Obj.getOwn p key)))) ∧
    (∀ pre p post v, ps = pre ++ p :: post → Obj.getOwn p "extraEnhancers" = some v →
      (∀ q ∈ post, Obj.getOwn q "extraEnhancers" = none) →
      Obj.getOwn P.hooks "extraEnhancers" = some v) ∧
    ((∀ q ∈ ps, Obj.getOwn q "extraEnhancers" = none) →
      Obj.getOwn P.hooks "extraEnhancers" = some (.arr [])) ∧
    (∀ pre p post v, ps = pre ++ p :: post → Obj.getOwn p "_handleActions" = some v →
      (∀ q ∈ post, Obj.getOwn q "_handleActions" = none) → P._handleActions = v) ∧
    ((∀ q ∈ ps, Obj.getOwn q "_handleActions" = none) → P._handleActions = .null) ∧
    (∀ (Q : Plugin F) (p : Obj (Val F)),
      (∀ key, key ∉ Obj.keys p →
        Obj.getOwn (Plugin.use Q p).1.hooks key = Obj.getOwn Q.hooks key) ∧
      ("_handleActions" ∉ Obj.keys p →
        (Plugin.use Q p).1._handleActions = Q._handleActions)) := by
  refine ⟨?_, ?_, ?_, ?_, ?_, ?_⟩
  · intro key hk h2 h1
    have h := useAll_append key h1 h2 ps Plugin.new P [] hok hnd (new_hooks key hk)
    simpa using h
  · intro pre p post v hps hp hpost
    rw [useAll_replace ps Plugin.new P hok hnd, hps]
    apply foldl_last_write
    · intro c
      simp [hp]
    · intro q hq c
      simp [hpost q hq]
  · intro hnone
    rw [useAll_replace ps Plugin.new P hok hnd, foldl_no_write]
    · exact new_hooks "extraEnhancers" (by decide)
    · intro q hq c
      simp [hnone q hq]
  · intro pre p post v hps hp hpost
    rw [useAll_field ps Plugin.new P hok hnd, hps]
    apply foldl_last_write
    · intro c
      simp [hp]
    · intro q hq c
      simp [hpost q hq]
  · intro hnone
    rw [useAll_field ps Plugin.new P hok hnd, foldl_no_write]
    · rfl
    · intro q hq c
      simp [hnone q hq]
  · intro Q p
    exact ⟨fun key hkey => useLoop_untouched key p Q hkey,
      fun hkey => useLoop_field_untouched p Q hkey⟩

/-- C8, at the two sample registrations: `onError` holds `[f1, f2]`, `extraEnhancers` the
value of the first registration, the only one that contains it, and `_handleActions` the
value of the second. -/
theorem C8_registration_order_witness :
    (∀ p ∈ samplePlugins, (Obj.keys p).Nodup) ∧
    Plugin.useAll Plugin.new samplePlugins = some sampleRegistry ∧
    Obj.getOwn sampleRegistry.hooks "onError" = some (.arr [.fn "f1", .fn "f2"]) ∧
    Obj.getOwn sampleRegistry.hooks "extraEnhancers" = some (.arr [.fn "x1"]) ∧
    sampleRegistry._handleActions = .fn "h" := by
  have hnd : ∀ p ∈ samplePlugins, (Obj.keys p).Nodup := by decide
  have hok : Plugin.useAll Plugin.new samplePlugins = some sampleRegistry := rfl
  have h := C8_registration_order samplePlugins sampleRegistry hnd hok
  refine ⟨hnd, hok, ?_, ?_, ?_⟩
  · exact (h.1 "onError" (by decide) (by decide) (by decide)).trans rfl
  · refine h.2.1 [] samplePluginA [samplePluginB] _ rfl rfl ?_
    intro q hq
    rw [List.mem_singleton] at hq
    subst hq
    rfl
  · exact h.2.2.2.1 [samplePluginA] samplePluginB [] _ rfl rfl (by simp)

/-! ## Plugin: apply -/

theorem callEach_fns {F : Type} (outcome : Outcome F) (fs : List F) (args : List (Val F))
    (hret : ∀ f ∈ fs, outcome f args = none) :
    callEach outcome (fs.map Val.fn) args = (fs.map (fun f => (Val.fn f, args)), none) := by
  induction fs with
  | nil => rfl
  | cons f rest ih =>
    have h1 := hret f (List.mem_cons_self _ _)
    have h2 := ih (fun g hg => hret g (List.mem_cons_of_mem _ hg))
    simp [callEach, h1, h2]

/-- The loop ends at the first call that throws: the functions before it and the one that
throws have been called, the ones after it have not. -/
theorem callEach_throws {F : Type} (outcome : Outcome F) (pre post : List F) (f : F)
    (args : List (Val F)) (e : JsError) (hpre : ∀ g ∈ pre, outcome g args = none)
    (hf : outcome f args = some e) :
    callEach outcome ((pre ++ f :: post).map Val.fn) args =
      ((pre ++ [f]).map (fun g => (Val.fn g, args)), some e) := by
  induction pre with
  | nil => simp [callEach, hf]
  | cons g rest ih =>
    have h1 := hpre g (List.mem_cons_self _ _)
    have h2 := ih (fun x hx => hpre x (List.mem_cons_of_mem _ hx))
    rw [List.cons_append, List.map_cons, callEach, h1]
    simp only [h2, List.cons_append, List.map_cons]

/-- C9: `apply(name, d)` throws for every name other than `onError` and `onHmr`; for these
two names it returns a routine that, called with `args` on a registry whose registered
values for `name` are the functions `callbacks`, each of which returns, calls each of them
once, in registration order, with `args` and does not call `d` when there is at least one,
and otherwise calls `d` once with `args`, or does nothing when `d` is absent. -/
theorem C9_apply_routine {F : Type} (outcome : Outcome F) (ps : List (Obj (Val F)))
    (P : Plugin F) (name : String) (d : Val F) (callbacks : List F)
    (hnd : ∀ p ∈ ps, (Obj.keys p).Nodup) (hok : Plugin.useAll Plugin.new ps = some P)
    (hcb : ps.filterMap (fun p => Obj.getOwn p name) = callbacks.map Val.fn) :
    (name ≠ "onError" → name ≠ "onHmr" →
      (Plugin.apply outcome name d : Except JsError _) =
        .error (.invariant ("plugin.apply: hook " ++ name ++ " cannot be applied"))) ∧
    (name = "onError" ∨ name = "onHmr" →
      Plugin.apply outcome name d = .ok (Plugin.applied outcome name d) ∧
      ∀ args : List (Val F),
        (callbacks ≠ [] → (∀ f ∈ callbacks, outcome f args = none) →
          Plugin.applied outcome name d P args =
            (callbacks.map (fun f => (Val.fn f, args)), none)) ∧
        (callbacks = [] → ∀ g, d = .fn g →
          Plugin.applied outcome name d P args = ([(Val.fn g, args)], outcome g args)) ∧
        (callbacks = [] → d = .undefined →
          Plugin.applied outcome name d P args = ([], none))) := by
  constructor
  · intro h1 h2
    simp [Plugin.apply, invariant, h1, h2]
  · intro hname
    have hk : name ∈ hooks ∧ name ≠ "_handleActions" ∧ name ≠ "extraEnhancers" := by
      rcases hname with h | h <;> subst h <;> decide
    have hown : Obj.getOwn P.hooks name = some (.arr (callbacks.map Val.fn)) := by
      have h := useAll_append name hk.2.1 hk.2.2 ps Plugin.new P [] hok hnd (new_hooks name hk.1)
      rw [hcb] at h
      simpa using h
    constructor
    · rcases hname with h | h <;> subst h <;> rfl
    · intro args
      refine ⟨?_, ?_, ?_⟩
      · intro hne hret
        simp [Plugin.applied, Obj.read, hown, hne, callEach_fns outcome callbacks args hret]
      · intro he g hd
        subst he hd
        cases ho : outcome g args <;>
          simp [Plugin.applied, Obj.read, hown, Val.truthy, callEach, ho]
      · intro he hd
        subst he hd
        simp [Plugin.applied, Obj.read, hown, Val.truthy]

/-- C9, at the two sample registrations: the routine of `apply("onError", fallback)` calls
`f1` and then `f2` with the arguments and does not call `fallback`. -/
theorem C9_apply_routine_witness :
    (∀ p ∈ samplePlugins, (Obj.keys p).Nodup) ∧
    Plugin.useAll Plugin.new samplePlugins = some sampleRegistry ∧
    Plugin.applied sampleOutcome "onError" (.fn "fallback") sampleRegistry [.str "boom"] =
      ([(.fn "f1", [.str "boom"]), (.fn "f2", [.str "boom"])], none) := by
  have hnd : ∀ p ∈ samplePlugins, (Obj.keys p).Nodup := by decide
  have hok : Plugin.useAll Plugin.new samplePlugins = some sampleRegistry := rfl
  have h := C9_apply_routine sampleOutcome samplePlugins sampleRegistry "onError"
    (.fn "fallback") ["f1", "f2"] hnd hok rfl
  exact ⟨hnd, hok, ((h.2 (Or.inl rfl)).2 [.str "boom"]).1 (by decide) (by decide)⟩

/-! ## Plugin: get -/

theorem Obj.keys_set {V : Type} (o : Obj V) (key : String) (v : V) :
    Obj.keys (Obj.set o key v) = if key ∈ Obj.keys o then Obj.keys o else Obj.keys o ++ [key] := by
  induction o with
  | nil => simp [Obj.set, Obj.keys]
  | cons kv rest ih =>
    obtain ⟨k, w⟩ := kv
    simp only [Obj.keys] at ih
    by_cases hk : k = key
    · subst hk
      simp [Obj.set, Obj.keys]
    · have hk' : ¬ key = k := fun e => hk e.symm
      by_cases hm : key ∈ List.map Prod.fst rest
      · simp [Obj.set, Obj.keys, hk, hm, ih]
      · simp [Obj.set, Obj.keys, hk, hk', hm, ih]

theorem Obj.nodup_keys_set {V : Type} (o : Obj V) (key : String) (v : V)
    (hnd : (Obj.keys o).Nodup) : (Obj.keys (Obj.set o key v)).Nodup := by
  rw [Obj.keys_set]
  by_cases hm : key ∈ Obj.keys o
  · simpa [hm] using hnd
  · simp only [hm, if_false]
    exact List.Nodup.append hnd (List.nodup_singleton _) (by simpa using hm)

theorem nodup_keys_setAll {V : Type} (props : Obj V) :
    ∀ acc : Obj V, (Obj.keys acc).Nodup →
      (Obj.keys (props.foldl (fun acc kv => Obj.set acc kv.1 kv.2) acc)).Nodup := by
  induction props with
  | nil => intro acc h; exact h
  | cons kv rest ih =>
    intro acc h
    exact ih _ (Obj.nodup_keys_set acc kv.1 kv.2 h)

theorem getOwn_setAll {V : Type} (key : String) (props : Obj V) :
    ∀ acc : Obj V, (Obj.keys props).Nodup →
      Obj.getOwn (props.foldl (fun acc kv => Obj.set acc kv.1 kv.2) acc) key =
        match Obj.getOwn props key with
        | some v => some v
        | none => Obj.getOwn acc key := by
  induction props with
  | nil => intro acc _; rfl
  | cons kv rest ih =>
    obtain ⟨k, v⟩ := kv
    intro acc hnd
    simp only [Obj.keys, List.map_cons, List.nodup_cons] at hnd
    rw [List.foldl_cons, ih _ hnd.2, Obj.getOwn_set]
    by_cases hk : k = key
    · subst hk
      have hnone : Obj.getOwn rest k = none := (Obj.getOwn_eq_none_iff rest k).mpr hnd.1
      simp [Obj.getOwn, hnone]
    · simp [Obj.getOwn, hk]

/-- A spread `{ ...ret, ...props }` holds, for every key, the value of `props` when `props`
has the key and the value of `ret` otherwise. -/
theorem getOwn_spread {V : Type} (key : String) (ret props : Obj V)
    (hr : (Obj.keys ret).Nodup) (hp : (Obj.keys props).Nodup) :
    Obj.getOwn (spread ret props) key =
      match Obj.getOwn props key with
      | some v => some v
      | none => Obj.getOwn ret key := by
  unfold spread
  rw [getOwn_setAll key props _ hp, getOwn_setAll key ret [] hr]
  cases Obj.getOwn props key with
  | some v => rfl
  | none => cases Obj.getOwn ret key <;> rfl

theorem nodup_keys_spread {V : Type} (ret props : Obj V) :
    (Obj.keys (spread ret props)).Nodup := by
  unfold spread
  exact nodup_keys_setAll props _ (nodup_keys_setAll ret [] (by simp [Obj.keys]))

/-- The merge of `getExtraReducers`, started from `ret`: for every key the value of the
last contribution that has the key, and the value of `ret` when none has it. -/
theorem getOwn_merge {F : Type} (key : String) (cs : List (Obj (Val F))) :
    ∀ ret : Obj (Val F), (Obj.keys ret).Nodup → (∀ c ∈ cs, (Obj.keys c).Nodup) →
      (Obj.keys ((cs.map Val.obj).foldl
        (fun ret reducerObj => spread ret (spreadProps reducerObj)) ret)).Nodup ∧
      Obj.getOwn ((cs.map Val.obj).foldl
        (fun ret reducerObj => spread ret (spreadProps reducerObj)) ret) key =
        match cs.reverse.findSome? (fun c => Obj.getOwn c key) with
        | some v => some v
        | none => Obj.getOwn ret key := by
  induction cs with
  | nil => intro ret hr _; exact ⟨hr, rfl⟩
  | cons c rest ih =>
    intro ret hr hc
    have hcn := hc c (List.mem_cons_self _ _)
    have h := ih (spread ret c) (nodup_keys_spread ret c)
      (fun q hq => hc q (List.mem_cons_of_mem _ hq))
    have hsp : spreadProps (Val.obj c) = c := rfl
    simp only [List.map_cons, List.foldl_cons, hsp]
    refine ⟨h.1, ?_⟩
    rw [h.2, getOwn_spread key ret c hr hcn, List.reverse_cons, List.findSome?_append]
    cases List.findSome? (fun c => Obj.getOwn c key) rest.reverse with
    | some v => rfl
    | none =>
      cases hg : Obj.getOwn c key <;> simp [List.findSome?, hg]

theorem onReducerLoop_fns {F R : Type} (call : F → R → R) (es : List F) :
    ∀ r : R, onReducerLoop call (es.map Val.fn) r = .ok (es.foldl (fun acc e => call e acc) r) := by
  induction es with
  | nil => intro r; rfl
  | cons e rest ih =>
    intro r
    simp [onReducerLoop, ih]

/-- C10: on a registry whose registered `onReducer` values are the functions `e1 .. en`, in
registration order, `get("onReducer")` returns a function that maps a base reducer `r` to
`en(...(e2(e1(r))))`, which is `r` when nothing is registered; when the registered
`extraReducers` values are the objects `contribs`, `get("extraReducers")` returns an object
that holds, for every key, the value of the last contribution that has the key, and has no
other key. -/
theorem C10_get_composes {F R : Type} (call : F → R → R) (ps : List (Obj (Val F)))
    (P : Plugin F) (enhancers : List F) (contribs : List (Obj (Val F)))
    (hnd : ∀ p ∈ ps, (Obj.keys p).Nodup) (hok : Plugin.useAll Plugin.new ps = some P)
    (henh : ps.filterMap (fun p => Obj.getOwn p "onReducer") = enhancers.map Val.fn)
    (hcon : ps.filterMap (fun p => Obj.getOwn p "extraReducers") = contribs.map Val.obj)
    (hcnd : ∀ c ∈ contribs, (Obj.keys c).Nodup) :
    (∃ enhance, Plugin.get call P "onReducer" = .ok (.onReducer enhance) ∧
      (∀ r, enhance P r = .ok (enhancers.reverse.foldr (fun e acc => call e acc) r)) ∧
      (enhancers = [] → ∀ r, enhance P r = .ok r)) ∧
    (∃ merged, Plugin.get call P "extraReducers" = .ok (.extraReducers merged) ∧
      (Obj.keys merged).Nodup ∧
      (∀ key, Obj.getOwn merged key =
        contribs.reverse.findSome? (fun c => Obj.getOwn c key)) ∧
      (∀ key, key ∈ Obj.keys merged ↔ ∃ c ∈ contribs, key ∈ Obj.keys c)) := by
  have hown1 : Obj.getOwn P.hooks "onReducer" = some (.arr (enhancers.map Val.fn)) := by
    have h := useAll_append "onReducer" (by decide) (by decide) ps Plugin.new P [] hok hnd
      (new_hooks _ (by decide))
    rw [henh] at h
    simpa using h
  have hown2 : Obj.getOwn P.hooks "extraReducers" = some (.arr (contribs.map Val.obj)) := by
    have h := useAll_append "extraReducers" (by decide) (by decide) ps Plugin.new P [] hok hnd
      (new_hooks _ (by decide))
    rw [hcon] at h
    simpa using h
  constructor
  · refine ⟨_, by simp only [Plugin.get, Obj.read, hown1]; rfl, ?_, ?_⟩
    · intro r
      simp only [Obj.read, hown1, getOnReducer, onReducerLoop_fns, List.foldr_reverse]
    · intro he r
      subst he
      simp only [Obj.read, hown1, getOnReducer, List.map_nil, onReducerLoop]
  · have hm : ∀ key, (Obj.keys (getExtraReducers (contribs.map Val.obj))).Nodup ∧
        Obj.getOwn (getExtraReducers (contribs.map Val.obj)) key =
          contribs.reverse.findSome? (fun c => Obj.getOwn c key) := by
      intro key
      have h := getOwn_merge key contribs [] (by simp [Obj.keys]) hcnd
      refine ⟨h.1, ?_⟩
      unfold getExtraReducers
      rw [h.2]
      cases List.findSome? (fun c => Obj.getOwn c key) contribs.reverse <;> rfl
    refine ⟨getExtraReducers (contribs.map Val.obj), ?_, (hm "").1, fun key => (hm key).2, ?_⟩
    · simp only [Plugin.get, Obj.read, hown2]
      rfl
    · intro key
      constructor
      · intro hk
        have h1 : Obj.getOwn (getExtraReducers (contribs.map Val.obj)) key ≠ none := by
          intro e
          exact (Obj.getOwn_eq_none_iff _ key).mp e hk
        rw [(hm key).2] at h1
        cases hf : List.findSome? (fun c => Obj.getOwn c key) contribs.reverse with
        | none => exact absurd hf h1
        | some v =>
          obtain ⟨c, hc, hcv⟩ := List.exists_of_findSome?_eq_some hf
          refine ⟨c, List.mem_reverse.mp hc, ?_⟩
          by_contra hno
          rw [(Obj.getOwn_eq_none_iff c key).mpr hno] at hcv
          cases hcv
      · rintro ⟨c, hc, hkc⟩
        by_contra hno
        have h1 := (Obj.getOwn_eq_none_iff _ key).mpr hno
        rw [(hm key).2, List.findSome?_eq_none_iff] at h1
        have h2 := h1 c (List.mem_reverse.mpr hc)
        exact (Obj.getOwn_eq_none_iff c key).mp h2 hkc

/-- C10, at the two sample registrations: the composed enhancer maps `r` to `e2(e1(r))`,
and in the merged extra reducers the key `b`, contributed twice, holds the later value
`r3` while `a` holds `r1`. -/
theorem C10_get_composes_witness :
    (∀ p ∈ samplePlugins, (Obj.keys p).Nodup) ∧
    Plugin.useAll Plugin.new samplePlugins = some sampleRegistry ∧
    (∃ enhance, Plugin.get callByName sampleRegistry "onReducer" = .ok (.onReducer enhance) ∧
      enhance sampleRegistry "r" = .ok "e2(e1(r))") ∧
    (∃ merged,
      (Plugin.get callByName sampleRegistry "extraReducers" : Except JsError (Got String String)) =
        .ok (.extraReducers merged) ∧
      Obj.getOwn merged "a" = some (.fn "r1") ∧ Obj.getOwn merged "b" = some (.fn "r3")) := by
  have hnd : ∀ p ∈ samplePlugins, (Obj.keys p).Nodup := by decide
  have hok : Plugin.useAll Plugin.new samplePlugins = some sampleRegistry := rfl
  have hcnd : ∀ c ∈ [[("a", Val.fn "r1"), ("b", Val.fn "r2")], [("b", Val.fn "r3")]],
      (Obj.keys c).Nodup := by decide
  obtain ⟨⟨enhance, hget, henh, _⟩, ⟨merged, hget2, _, hown, _⟩⟩ :=
    C10_get_composes callByName samplePlugins sampleRegistry ["e1", "e2"]
      [[("a", .fn "r1"), ("b", .fn "r2")], [("b", .fn "r3")]] hnd hok rfl rfl hcnd
  refine ⟨hnd, hok, ⟨enhance, hget, (henh "r").trans ?_⟩,
    ⟨merged, hget2, (hown "a").trans rfl, (hown "b").trans rfl⟩⟩
  exact congrArg Except.ok (by decide)

/-! ## getSaga: hooks on effects -/

/-- A hook registered last is applied last, to the routine the hooks before it produced. -/
theorem applyOnEffect_append {R Vb M : Type} (verbs : Vb) (fns : List (R → Vb → M → String → R))
    (h : R → Vb → M → String → R) (model : M) (key : String) :
    ∀ e : R, applyOnEffect verbs (fns ++ [h]) e model key =
      h (applyOnEffect verbs fns e model key) verbs model key := by
  induction fns with
  | nil => intro e; rfl
  | cons f rest ih =>
    intro e
    simp only [List.cons_append, applyOnEffect]
    exact ih _

theorem applyOnEffect_eq_foldl {R Vb M : Type} (verbs : Vb)
    (fns : List (R → Vb → M → String → R)) (model : M) (key : String) :
    ∀ e : R, applyOnEffect verbs fns e model key =
      fns.foldl (fun acc h => h acc verbs model key) e := by
  induction fns with
  | nil => intro e; rfl
  | cons f rest ih =>
    intro e
    simp only [applyOnEffect, List.foldl_cons]
    exact ih _

/-- C14: `applyOnEffect` returns `hn(...h2(h1(e, verbs, model, key), ...)...)`: the result
for no hook is `e`, a hook added last is called with the routine the hooks before it
produced and is outermost, and, the hooks recording their calls, each hook is called once,
in registration order, with the same verbs, model and key. -/
theorem C14_applyOnEffect_nests {R Vb M : Type} (verbs : Vb)
    (fns : List (R → Vb → M → String → R)) (e : R) (model : M) (key : String) (n : Nat) :
    applyOnEffect verbs fns e model key =
      fns.reverse.foldr (fun h acc => h acc verbs model key) e ∧
    applyOnEffect verbs ([] : List (R → Vb → M → String → R)) e model key = e ∧
    (∀ h1 h2 h3 : R → Vb → M → String → R,
      applyOnEffect verbs [h1, h2, h3] e model key =
        h3 (h2 (h1 e verbs model key) verbs model key) verbs model key) ∧
    (∀ h : R → Vb → M → String → R,
      applyOnEffect verbs (fns ++ [h]) e model key =
        h (applyOnEffect verbs fns e model key) verbs model key) ∧
    (applyOnEffect verbs ((List.range n).map HookedTerm.call) HookedTerm.base model
        key).hooksCalled = List.range n ∧
    (applyOnEffect verbs ((List.range n).map HookedTerm.call) HookedTerm.base model
        key).context = List.replicate n (verbs, model, key) := by
  refine ⟨?_, rfl, fun _ _ _ => rfl, fun h => applyOnEffect_append verbs fns h model key e,
    ?_, ?_⟩
  · rw [applyOnEffect_eq_foldl, List.foldr_reverse]
  · induction n with
    | zero => rfl
    | succ n ih =>
      rw [List.range_succ, List.map_append, List.map_singleton, applyOnEffect_append]
      simp only [HookedTerm.hooksCalled, ih]
  · induction n with
    | zero => rfl
    | succ n ih =>
      rw [List.range_succ, List.map_append, List.map_singleton, applyOnEffect_append]
      simp only [HookedTerm.context, ih]
      rw [List.replicate_succ']

/-! ## getSaga: effect declarations -/

/-- What the first part of `getWatcher` does with a pair whose options have a non-empty
type: it throws exactly when the type is none of the five modes, or is `throttle` with a
falsy `ms`, or is `poll` with a falsy `delay`. -/
theorem watcherSettings_error_iff {E : Type} (effect : E) (o : EffectOpts) (t : String)
    (ht : o.type = some t) (hne : t ≠ "") :
    (∃ e, watcherSettings (.pair effect (some o)) = .error e) ↔
      (t ∉ ["watcher", "takeEvery", "takeLatest", "throttle", "poll"] ∨
        (t = "throttle" ∧ truthyNumber o.ms = false) ∨
        (t = "poll" ∧ truthyNumber o.delay = false)) := by
  by_cases h1 : t = "throttle"
  · subst h1
    cases hm : truthyNumber o.ms <;>
      simp [watcherSettings, readOpts, ht, truthyType, invariant, hm]
  · by_cases h2 : t = "poll"
    · subst h2
      cases hd : truthyNumber o.delay <;>
        simp [watcherSettings, readOpts, ht, truthyType, invariant, hd]
    · by_cases h4 : t = "watcher" ∨ t = "takeEvery" ∨ t = "takeLatest"
      · simp [watcherSettings, readOpts, ht, truthyType, invariant, hne, h1, h2, h4]
      · simp [watcherSettings, readOpts, ht, truthyType, invariant, hne, h1, h2, h4]

/-- A bare routine, a pair without options and a pair whose options have no type are
accepted with the mode `takeEvery`. -/
theorem watcherSettings_default {E : Type} (effect : E) (o : EffectOpts)
    (ht : o.type = none) :
    watcherSettings (.bare effect) = .ok ("takeEvery", none, none) ∧
    watcherSettings (.pair effect none) = .ok ("takeEvery", none, none) ∧
    watcherSettings (.pair effect (some o)) = .ok ("takeEvery", none, none) := by
  refine ⟨rfl, rfl, ?_⟩
  simp [watcherSettings, readOpts, ht, truthyType, invariant]

/-- C15: the pair `[routine, { type: "poll", delay: 0 }]`, whose `delay` is defined, is
rejected with `opts.delay should be defined`, and so is `{ type: "throttle", ms: 0 }`; the
pair `[routine, { type: "" }]`, whose type is none of the five modes, is accepted with the
mode `takeEvery`. -/
theorem C15_zero_delay_is_rejected :
    watcherSettings (.pair () (some { type := some "poll", ms := none, delay := some 0 })) =
      .error (.invariant "app.start: opts.delay should be defined if type is poll") ∧
    watcherSettings (.pair () (some { type := some "throttle", ms := some 0, delay := none })) =
      .error (.invariant "app.start: opts.ms should be defined if type is throttle") ∧
    watcherSettings (.pair () (some { type := some "", ms := none, delay := none })) =
      .ok ("takeEvery", none, none) ∧
    getWatcher () (fun (_ _ : Unit) => (Val.undefined : Val String)) "ns/poll"
        (.pair (fun _ => .returned .undefined)
          (some { type := some "poll", ms := none, delay := some 0 }))
        () quietHandler [] () =
      .error (.invariant "app.start: opts.delay should be defined if type is poll") :=
  ⟨rfl, rfl, rfl, rfl⟩

/-! ## getSaga: the watcher of an effect -/

/-- C13 (amended): for a declaration that `getWatcher` accepts with the mode `type`, the
watcher of the modes `takeEvery`, `takeLatest`, `throttle` and `poll` runs the saga
`sagaWithCatch` wrapped by every hook on effects, in registration order; the watcher of the
mode `watcher` is `sagaWithCatch` itself, which no hook wraps. -/
theorem C13_watcher_worker {F M O Vb : Type} (verbs : Vb) (createEffects : M → O → Val F)
    (key : String) (decl : EffectDecl (EffectRoutine F)) (model : M)
    (onError : ErrorHandler F) (onEffect : List (Saga F → Vb → M → String → Saga F))
    (opts : O) (type : String) (ms delayMs : Option Int)
    (hs : watcherSettings decl = .ok (type, ms, delayMs)) :
    (type = "takeEvery" →
      getWatcher verbs createEffects key decl model onError onEffect opts =
        .ok (.takeEvery key (applyOnEffect verbs onEffect
          (sagaWithCatch key decl.effect (createEffects model opts) onError) model key))) ∧
    (type = "takeLatest" →
      getWatcher verbs createEffects key decl model onError onEffect opts =
        .ok (.takeLatest key (applyOnEffect verbs onEffect
          (sagaWithCatch key decl.effect (createEffects model opts) onError) model key))) ∧
    (type = "throttle" →
      getWatcher verbs createEffects key decl model onError onEffect opts =
        .ok (.throttle ms key (applyOnEffect verbs onEffect
          (sagaWithCatch key decl.effect (createEffects model opts) onError) model key))) ∧
    (type = "poll" →
      getWatcher verbs createEffects key decl model onError onEffect opts =
        .ok (.poll delayMs (key ++ "-start") (key ++ "-stop") (applyOnEffect verbs onEffect
          (sagaWithCatch key decl.effect (createEffects model opts) onError) model key))) ∧
    (type = "watcher" →
      getWatcher verbs createEffects key decl model onError onEffect opts =
        .ok (.raw (sagaWithCatch key decl.effect (createEffects model opts) onError))) ∧
    (∃ w, getWatcher verbs createEffects key decl model onError onEffect opts = .ok w ∧
      (type ≠ "watcher" → w.worker = applyOnEffect verbs onEffect
        (sagaWithCatch key decl.effect (createEffects model opts) onError) model key) ∧
      (type = "watcher" →
        w.worker = sagaWithCatch key decl.effect (createEffects model opts) onError)) := by
  refine ⟨?_, ?_, ?_, ?_, ?_, ?_⟩
  · intro h
    subst h
    simp [getWatcher, hs]
  · intro h
    subst h
    simp [getWatcher, hs]
  · intro h
    subst h
    simp [getWatcher, hs]
  · intro h
    subst h
    simp [getWatcher, hs]
  · intro h
    subst h
    simp [getWatcher, hs]
  · by_cases h1 : type = "watcher"
    · exact ⟨.raw (sagaWithCatch key decl.effect (createEffects model opts) onError),
        by simp [getWatcher, hs, h1], fun h => absurd h1 h, fun _ => rfl⟩
    · by_cases h2 : type = "takeLatest"
      · exact ⟨.takeLatest key (applyOnEffect verbs onEffect
          (sagaWithCatch key decl.effect (createEffects model opts) onError) model key),
          by simp [getWatcher, hs, h2], fun _ => rfl, fun h => absurd h h1⟩
      · by_cases h3 : type = "throttle"
        · exact ⟨.throttle ms key (applyOnEffect verbs onEffect
          (sagaWithCatch key decl.effect (createEffects model opts) onError) model key),
            by simp [getWatcher, hs, h3], fun _ => rfl, fun h => absurd h h1⟩
        · by_cases h4 : type = "poll"
          · exact ⟨.poll delayMs (key ++ "-start") (key ++ "-stop") (applyOnEffect verbs onEffect
          (sagaWithCatch key decl.effect (createEffects model opts) onError) model key),
              by simp [getWatcher, hs, h4], fun _ => rfl, fun h => absurd h h1⟩
          · exact ⟨.takeEvery key (applyOnEffect verbs onEffect
          (sagaWithCatch key decl.effect (createEffects model opts) onError) model key),
              by simp [getWatcher, hs, h1, h2, h3, h4], fun _ => rfl, fun h => absurd h h1⟩

/-- C13 (amended), at the pair `[routine, { type: "takeLatest" }]` with one hook that
silences the saga: the watcher runs the silenced saga. -/
theorem C13_watcher_worker_witness :
    getWatcher () (fun (_ _ : Unit) => (Val.undefined : Val String)) "ns/fetch"
        (.pair (fun _ => .returned (.num 1))
          (some { type := some "takeLatest", ms := none, delay := none }))
        () quietHandler [silencingHook] () =
      .ok (.takeLatest "ns/fetch" (applyOnEffect () [silencingHook]
        (sagaWithCatch "ns/fetch" (fun _ => .returned (.num 1)) .undefined quietHandler)
        () "ns/fetch")) :=
  (C13_watcher_worker () (fun (_ _ : Unit) => (Val.undefined : Val String)) "ns/fetch"
    (.pair (fun _ => .returned (.num 1))
      (some { type := some "takeLatest", ms := none, delay := none }))
    () quietHandler [silencingHook] () "takeLatest" none none rfl).2.1 rfl

/-- C13 as stated fails: for the pair `[routine, { type: "watcher" }]` and one registered
hook that silences the saga, the watcher runs `sagaWithCatch` itself, which puts the markers
and runs the routine, and not the saga the hook returns, which does nothing. -/
theorem C13_counterexample :
    ∃ w, getWatcher () (fun (_ _ : Unit) => (Val.undefined : Val String)) "ns/fetch"
        (.pair (fun _ => .returned (.num 1))
          (some { type := some "watcher", ms := none, delay := none }))
        () quietHandler [silencingHook] () = .ok w ∧
      w.worker [] = ([.put "ns/fetch/@@start", .effect [.undefined], .put "ns/fetch/@@end"],
        none) ∧
      applyOnEffect () [silencingHook]
        (sagaWithCatch "ns/fetch" (fun _ => .returned (.num 1)) .undefined quietHandler)
        () "ns/fetch" [] = ([], none) ∧
      w.worker ≠ applyOnEffect () [silencingHook]
        (sagaWithCatch "ns/fetch" (fun _ => .returned (.num 1)) .undefined quietHandler)
        () "ns/fetch" := by
  refine ⟨_, rfl, rfl, rfl, ?_⟩
  intro h
  have h1 := congrArg (fun r => r.1.length) (congrFun h [])
  exact absurd h1 (by decide)

/-! ## getSaga: the error-handling wrapper -/

/-- When the effect routine returns `r`, `sagaWithCatch` puts the two markers, calls
`resolve` once with `r` and calls neither `reject` nor the error handler. -/
theorem sagaWithCatch_returned {F : Type} (key : String) (effect : EffectRoutine F)
    (capabilities : Val F) (onError : ErrorHandler F) (props : Obj (Val F))
    (rest : List (Val F)) (resolve reject : F) (r : Val F)
    (hres : Obj.getOwn props "__dva_resolve" = some (.fn resolve))
    (hrej : Obj.getOwn props "__dva_reject" = some (.fn reject))
    (hret : effect ((.obj props :: rest) ++ [capabilities]) = .returned r) :
    sagaWithCatch key effect capabilities onError (.obj props :: rest) =
      ([.put (key ++ "/" ++ "@@start"), .effect ((.obj props :: rest) ++ [capabilities]),
        .put (key ++ "/" ++ "@@end"), .call (.fn resolve) [r]], none) := by
  simp only [sagaWithCatch, callbackOf, hres, hrej, hret, callCallback, NAMESPACE_SEP]
  rfl

/-- When the effect routine throws a value `e` other than `undefined` and `null` and the
error handler returns, `sagaWithCatch` puts the start marker only, calls the error handler
once with `e`, the key and the arguments, never calls `resolve`, and calls `reject` once
with `e` exactly when `e` is not marked with a truthy `_dontReject`. -/
theorem sagaWithCatch_threw {F : Type} (key : String) (effect : EffectRoutine F)
    (capabilities : Val F) (onError : ErrorHandler F) (props : Obj (Val F))
    (rest : List (Val F)) (resolve reject : F) (e : Val F) (after : Obj (Val F))
    (hres : Obj.getOwn props "__dva_resolve" = some (.fn resolve))
    (hrej : Obj.getOwn props "__dva_reject" = some (.fn reject))
    (hthrow : effect ((.obj props :: rest) ++ [capabilities]) = .threw e)
    (hhandler : onError e key (.obj props :: rest) = .returned after)
    (hundef : e ≠ .undefined) (hnull : e ≠ .null) :
    ∃ marked, dontReject (e.withProps after) = .ok marked ∧
      sagaWithCatch key effect capabilities onError (.obj props :: rest) =
        ([.put (key ++ "/" ++ "@@start"), .effect ((.obj props :: rest) ++ [capabilities]),
          .onError e key (.obj props :: rest)] ++
          (if marked then [] else [.call (.fn reject) [e.withProps after]]), none) := by
  have hd : ∃ marked, dontReject (e.withProps after) = .ok marked := by
    cases e with
    | undefined => exact absurd rfl hundef
    | null => exact absurd rfl hnull
    | obj p =>
      simp only [Val.withProps, dontReject]
      cases Obj.getOwn after "_dontReject" <;> exact ⟨_, rfl⟩
    | bool b => exact ⟨false, rfl⟩
    | num n => exact ⟨false, rfl⟩
    | str s => exact ⟨false, rfl⟩
    | fn f => exact ⟨false, rfl⟩
    | arr items => exact ⟨false, rfl⟩
  obtain ⟨marked, hm⟩ := hd
  refine ⟨marked, hm, ?_⟩
  cases marked
  · simp only [sagaWithCatch, callbackOf, hres, hrej, hthrow, sagaCaught, hhandler, hm,
      callCallback, NAMESPACE_SEP]
    rfl
  · simp only [sagaWithCatch, callbackOf, hres, hrej, hthrow, sagaCaught, hhandler, hm,
      NAMESPACE_SEP]
    rfl

/-- C11: when the effect routine throws `undefined` and the error handler returns without
marking anything, `sagaWithCatch` calls the error handler and then throws a `TypeError`
from the read `e._dontReject`: `reject` is not called although the error is not marked as
suppressed. When the routine throws the string `boom`, `reject` is called with it. -/
theorem C11_undefined_is_never_rejected :
    sagaWithCatch "ns/fetch" (fun _ => .threw .undefined) .undefined quietHandler
        [deferredAction] =
      ([.put "ns/fetch/@@start", .effect [deferredAction, .undefined],
        .onError .undefined "ns/fetch" [deferredAction]],
        some (typeErrorVal "Cannot read properties of undefined")) ∧
    sagaWithCatch "ns/fetch" (fun _ => .threw (.str "boom")) .undefined quietHandler
        [deferredAction] =
      ([.put "ns/fetch/@@start", .effect [deferredAction, .undefined],
        .onError (.str "boom") "ns/fetch" [deferredAction],
        .call (.fn "reject") [.str "boom"]], none) :=
  ⟨rfl, rfl⟩

/-! ## index.js: the global error handler -/

/-- The routine of `apply` on a registry built by successful registrations whose values for
the hook are functions. -/
theorem applied_registered {F : Type} (outcome : Outcome F) (ps : List (Obj (Val F)))
    (P : Plugin F) (name : String) (d : F) (callbacks : List F) (args : List (Val F))
    (hname : name = "onError" ∨ name = "onHmr")
    (hnd : ∀ p ∈ ps, (Obj.keys p).Nodup) (hok : Plugin.useAll Plugin.new ps = some P)
    (hcb : ps.filterMap (fun p => Obj.getOwn p name) = callbacks.map Val.fn) :
    (callbacks = [] →
      Plugin.applied outcome name (.fn d) P args = ([(Val.fn d, args)], outcome d args)) ∧
    (callbacks ≠ [] → (∀ f ∈ callbacks, outcome f args = none) →
      Plugin.applied outcome name (.fn d) P args =
        (callbacks.map (fun f => (Val.fn f, args)), none)) := by
  have hk : name ∈ hooks ∧ name ≠ "_handleActions" ∧ name ≠ "extraEnhancers" := by
    rcases hname with h | h <;> subst h <;> decide
  have hown : Obj.getOwn P.hooks name = some (.arr (callbacks.map Val.fn)) := by
    have h := useAll_append name hk.2.1 hk.2.2 ps Plugin.new P [] hok hnd (new_hooks name hk.1)
    rw [hcb] at h
    simpa using h
  constructor
  · intro he
    subst he
    cases ho : outcome d args <;>
      simp [Plugin.applied, Obj.read, hown, Val.truthy, callEach, ho]
  · intro hne hret
    simp [Plugin.applied, Obj.read, hown, hne, callEach_fns outcome callbacks args hret]

/-- C12 (amended): the error handler built by `start` ignores a falsy error value: it calls
nothing and throws nothing. For an error that is a non-empty string or an object, it throws
when no hook on errors is registered, the default handler being the only function called;
when at least one is registered and the hooks return, it calls every hook once, in
registration order, with the error object, the dispatch function and the extension, and
does not throw. The error object is the object passed, or a new `Error` for a string, and
carries `preventDefault`, whose call marks it with a truthy `_dontReject`. -/
theorem C12_onError_hooks {U : Type} (user : U → List (Val (RuntimeFn U)) → Option JsError)
    (ps : List (Obj (Val (RuntimeFn U)))) (P : Plugin (RuntimeFn U))
    (callbacks : List (RuntimeFn U)) (dispatch err extension : Val (RuntimeFn U))
    (hnd : ∀ p ∈ ps, (Obj.keys p).Nodup) (hok : Plugin.useAll Plugin.new ps = some P)
    (hcb : ps.filterMap (fun p => Obj.getOwn p "onError") = callbacks.map Val.fn) :
    (err.truthy = false →
      start.onError (runtimeOutcome user) P dispatch err extension = ([], none)) ∧
    (((∃ s, err = .str s ∧ s ≠ "") ∨ ∃ props, err = .obj props) →
      (callbacks = [] →
        start.onError (runtimeOutcome user) P dispatch err extension =
          ([(.fn .rethrow, [handedError err, dispatch, extension])],
            some (.thrown "Error"))) ∧
      (callbacks ≠ [] →
        (∀ f ∈ callbacks,
          runtimeOutcome user f [handedError err, dispatch, extension] = none) →
        start.onError (runtimeOutcome user) P dispatch err extension =
          (callbacks.map (fun f => (Val.fn f, [handedError err, dispatch, extension])),
            none)) ∧
      (∃ props, handedError err = .obj props ∧
        Obj.getOwn props "preventDefault" = some (.fn .preventDefault)) ∧
      dontReject (preventDefaultEffect (handedError err)) = .ok true) := by
  constructor
  · intro hf
    simp [start.onError, hf]
  · intro herr
    have happ := fun args => applied_registered (runtimeOutcome user) ps P "onError" .rethrow
      callbacks args (Or.inl rfl) hnd hok hcb
    have hrun : start.onError (runtimeOutcome user) P dispatch err extension =
        Plugin.applied (runtimeOutcome user) "onError" (.fn .rethrow) P
          [handedError err, dispatch, extension] := by
      rcases herr with ⟨s, hs, hne⟩ | ⟨props, hp⟩
      · subst hs
        simp [start.onError, Val.truthy, hne, newError, attachPreventDefault, Plugin.apply,
          invariant, handedError, Obj.set]
      · subst hp
        simp [start.onError, Val.truthy, attachPreventDefault, Plugin.apply, invariant,
          handedError]
    refine ⟨?_, ?_, ?_, ?_⟩
    · intro he
      rw [hrun, (happ _).1 he]
      rfl
    · intro hne hret
      rw [hrun, (happ _).2 hne hret]
    · rcases herr with ⟨s, hs, _⟩ | ⟨props, hp⟩
      · subst hs
        exact ⟨_, rfl, rfl⟩
      · subst hp
        exact ⟨_, rfl, by simp [Obj.getOwn_set]⟩
    · rcases herr with ⟨s, hs, _⟩ | ⟨props, hp⟩
      · subst hs
        rfl
      · subst hp
        simp [handedError, preventDefaultEffect, dontReject, Obj.getOwn_set, Val.truthy]

/-- C12 (amended), at the registrations `{ onError: f1 }` and `{ onError: f2 }` and the
error `"boom"`: both hooks are called, in this order, with the wrapped error. -/
theorem C12_onError_hooks_witness :
    start.onError (runtimeOutcome (fun (_ : String) _ => none))
        (Plugin.use (Plugin.use Plugin.new (errorHook "f1")).1 (errorHook "f2")).1
        (.fn (.user "dispatch")) (.str "boom") .undefined =
      ([(.fn (.user "f1"), [handedError (.str "boom"), .fn (.user "dispatch"), .undefined]),
        (.fn (.user "f2"), [handedError (.str "boom"), .fn (.user "dispatch"), .undefined])],
        none) :=
  ((C12_onError_hooks (fun (_ : String) _ => none) [errorHook "f1", errorHook "f2"]
    (Plugin.use (Plugin.use Plugin.new (errorHook "f1")).1 (errorHook "f2")).1
    [.user "f1", .user "f2"] (.fn (.user "dispatch")) (.str "boom") .undefined
    (by decide) rfl rfl).2 (Or.inl ⟨"boom", rfl, by decide⟩)).2.1 (by simp)
    (by
      intro f hf
      simp only [List.mem_cons, List.mem_singleton, List.not_mem_nil, or_false] at hf
      rcases hf with h | h <;> subst h <;> rfl)

/-- C12 as stated fails: for the error value `undefined`, and for the empty string, the
handler does not throw when no hook on errors is registered, and calls no hook when one is
registered. -/
theorem C12_counterexample :
    start.onError (runtimeOutcome (fun (_ : String) _ => none)) Plugin.new
        (.fn (.user "dispatch")) .undefined .undefined = ([], none) ∧
    start.onError (runtimeOutcome (fun (_ : String) _ => none)) Plugin.new
        (.fn (.user "dispatch")) (.str "") .undefined = ([], none) ∧
    start.onError (runtimeOutcome (fun (_ : String) _ => none))
        (Plugin.use Plugin.new (errorHook "f1")).1
        (.fn (.user "dispatch")) .undefined .undefined = ([], none) ∧
    start.onError (runtimeOutcome (fun (_ : String) _ => none)) Plugin.new
        (.fn (.user "dispatch")) (.str "boom") .undefined =
      ([(.fn .rethrow, [handedError (.str "boom"), .fn (.user "dispatch"), .undefined])],
        some (.thrown "Error")) :=
  ⟨rfl, rfl, rfl, rfl⟩

/-! ## createPromiseMiddleware -/

theorem head_filter_namespace {S H E X B : Type} (ns : String) (m : Model S H E X B) :
    ∀ models : List (Model S H E X B), (models.map (fun x => x.«namespace»)).Nodup →
      m ∈ models → m.«namespace» = ns →
      (models.filter (fun x => decide (x.«namespace» = ns))).head? = some m := by
  intro models
  induction models with
  | nil => intro _ hm; simp at hm
  | cons x rest ih =>
    intro hnd hm hns
    simp only [List.map_cons, List.nodup_cons] at hnd
    rcases List.mem_cons.mp hm with h | h
    · subst h
      simp [List.filter, hns]
    · have hx : x.«namespace» ≠ ns := by
        intro e
        apply hnd.1
        rw [e, ← hns]
        exact List.mem_map_of_mem (fun x => x.«namespace») h
      simp only [List.filter, hx, decide_False]
      exact ih hnd.2 h hns

theorem firstSegment_qualified (N k : String) (h : '/' ∉ N.data) :
    firstSegment (N ++ "/" ++ k) = N := by
  apply String.ext
  simp only [firstSegment, String.data_append]
  rw [List.append_assoc, List.takeWhile_append_of_pos]
  · simp
  · intro a ha
    simp only [bne_iff_ne, ne_eq]
    intro e
    exact h (e ▸ ha)

/-- When `isEffect` holds for a type that is no name inherited from `Object.prototype`: the
type is an own key of the effect map of the model found, and the stored value is truthy. -/
theorem isEffect_iff {S H E B F G : Type} (models : List (Model S H E (Val G) B)) (s : String)
    (hnd : (models.map (fun x => x.«namespace»)).Nodup) (hs : s ∉ objectPrototypeKeys) :
    isEffect models (Val.str s : Val F) = true ↔
      s ≠ "" ∧ ∃ m ∈ models, m.«namespace» = firstSegment s ∧
        ∃ eff, m.effects = some eff ∧ ∃ v, Obj.getOwn eff s = some v ∧ v.truthy = true := by
  by_cases he : s = ""
  · simp [isEffect, he]
  · simp only [isEffect, he, if_false, ne_eq, not_false_eq_true, true_and]
    constructor
    · intro h
      cases hf : (models.filter
          (fun m => decide (m.«namespace» = firstSegment s))).head? with
      | none => simp [hf] at h
      | some m =>
        have hm := List.mem_of_mem_head? (Option.mem_def.mpr hf)
        rw [List.mem_filter] at hm
        simp only [hf] at h
        cases hef : m.effects with
        | none => simp [hef] at h
        | some eff =>
          simp only [hef] at h
          cases hg : Obj.getOwn eff s with
          | none => simp [Obj.read, hg, hs, Read.truthy] at h
          | some v =>
            simp only [Obj.read, hg, Read.truthy] at h
            exact ⟨m, hm.1, by simpa using hm.2, eff, hef, v, hg, h⟩
    · rintro ⟨m, hm, hns, eff, hef, v, hg, hv⟩
      rw [head_filter_namespace (firstSegment s) m models hnd hm hns]
      simp only [hef, Obj.read, hg, Read.truthy]
      exact hv

/-- C16 (amended): for a module list with pairwise distinct namespaces and an action whose
type is no property name inherited from `Object.prototype`, the middleware returns a new
promise and forwards `{ __dva_resolve, __dva_reject, ...action }` exactly when the type is a
non-empty string, the part of the type before its first slash is the namespace of a
registered model, and the type is an own key of the effect map of that model whose stored
value is truthy; when the namespaces hold no slash and the effect keys are qualified, this
is when the type is a key of the effect map of some registered model with a truthy value,
and, when every declared effect is truthy, as a routine and a pair `[routine, opts]` are,
when the type is a declared effect key of some registered model. For every other action it
returns the result of `next` on the action itself. The forwarded action keeps every field of
the action, and carries the callbacks of the promise when the action has no field of their
names. -/
theorem C16_bridge {S H E B F G R : Type} (models : List (Model S H E (Val G) B))
    (next : Obj (Val F) → R) (resolve reject : Val F) (action : Obj (Val F))
    (hnd : (models.map (fun x => x.«namespace»)).Nodup) (hact : (Obj.keys action).Nodup) :
    (∀ s, Obj.getOwn action "type" = some (.str s) → s ∉ objectPrototypeKeys →
      ((createPromiseMiddleware models next resolve reject action =
          .deferred (spread [("__dva_resolve", resolve), ("__dva_reject", reject)] action)) ↔
        (s ≠ "" ∧ ∃ m ∈ models, m.«namespace» = firstSegment s ∧
          ∃ eff, m.effects = some eff ∧ ∃ v, Obj.getOwn eff s = some v ∧ v.truthy = true)) ∧
      (¬ (s ≠ "" ∧ ∃ m ∈ models, m.«namespace» = firstSegment s ∧
          ∃ eff, m.effects = some eff ∧ ∃ v, Obj.getOwn eff s = some v ∧ v.truthy = true) →
        createPromiseMiddleware models next resolve reject action = .direct (next action)) ∧
      ((∀ m ∈ models, '/' ∉ m.«namespace».data) →
        (∀ m ∈ models, ∀ eff, m.effects = some eff →
          ∀ k ∈ Obj.keys eff, ∃ k0, k = m.«namespace» ++ "/" ++ k0) →
        (((createPromiseMiddleware models next resolve reject action =
            .deferred (spread [("__dva_resolve", resolve), ("__dva_reject", reject)] action)) ↔
          ∃ m ∈ models, ∃ eff, m.effects = some eff ∧
            ∃ v, Obj.getOwn eff s = some v ∧ v.truthy = true) ∧
        ((∀ m ∈ models, ∀ eff, m.effects = some eff → ∀ kv ∈ eff, kv.2.truthy = true) →
          ((createPromiseMiddleware models next resolve reject action =
              .deferred (spread [("__dva_resolve", resolve), ("__dva_reject", reject)]
                action)) ↔
            ∃ m ∈ models, ∃ eff, m.effects = some eff ∧ s ∈ Obj.keys eff))))) ∧
    ((∀ s, Obj.getOwn action "type" ≠ some (.str s)) →
      createPromiseMiddleware models next resolve reject action = .direct (next action)) ∧
    (∀ key v, Obj.getOwn action key = some v →
      Obj.getOwn (spread [("__dva_resolve", resolve), ("__dva_reject", reject)] action) key =
        some v) ∧
    ("__dva_resolve" ∉ Obj.keys action →
      Obj.getOwn (spread [("__dva_resolve", resolve), ("__dva_reject", reject)] action)
        "__dva_resolve" = some resolve) ∧
    ("__dva_reject" ∉ Obj.keys action →
      Obj.getOwn (spread [("__dva_resolve", resolve), ("__dva_reject", reject)] action)
        "__dva_reject" = some reject) := by
  have hcb : (Obj.keys [("__dva_resolve", resolve), ("__dva_reject", reject)]).Nodup := by
    simp [Obj.keys]
  have hsp := fun key => getOwn_spread key
    [("__dva_resolve", resolve), ("__dva_reject", reject)] action hcb hact
  have hmain : ∀ s, Obj.getOwn action "type" = some (.str s) → s ∉ objectPrototypeKeys →
      ((createPromiseMiddleware models next resolve reject action =
          .deferred (spread [("__dva_resolve", resolve), ("__dva_reject", reject)] action)) ↔
        (s ≠ "" ∧ ∃ m ∈ models, m.«namespace» = firstSegment s ∧
          ∃ eff, m.effects = some eff ∧ ∃ v, Obj.getOwn eff s = some v ∧ v.truthy = true)) ∧
      (¬ (s ≠ "" ∧ ∃ m ∈ models, m.«namespace» = firstSegment s ∧
          ∃ eff, m.effects = some eff ∧ ∃ v, Obj.getOwn eff s = some v ∧ v.truthy = true) →
        createPromiseMiddleware models next resolve reject action = .direct (next action)) := by
    intro s hs hp
    have hiff := @isEffect_iff S H E B F G models s hnd hp
    cases hb : isEffect models (Val.str s : Val F) with
    | true =>
      have hr := hiff.mp hb
      refine ⟨⟨fun _ => hr, fun _ => by simp [createPromiseMiddleware, hs, hb]⟩,
        fun hno => absurd hr hno⟩
    | false =>
      have hno : ¬ (s ≠ "" ∧ ∃ m ∈ models, m.«namespace» = firstSegment s ∧
          ∃ eff, m.effects = some eff ∧
            ∃ v, Obj.getOwn eff s = some v ∧ v.truthy = true) := by
        intro h
        rw [hiff.mpr h] at hb
        cases hb
      refine ⟨⟨fun h => ?_, fun h => absurd h hno⟩, fun _ => ?_⟩
      · simp [createPromiseMiddleware, hs, hb] at h
      · simp [createPromiseMiddleware, hs, hb]
  refine ⟨?_, ?_, ?_, ?_, ?_⟩
  · intro s hs hp
    refine ⟨(hmain s hs hp).1, (hmain s hs hp).2, ?_⟩
    intro hslash hq
    have hfirst : (createPromiseMiddleware models next resolve reject action =
          .deferred (spread [("__dva_resolve", resolve), ("__dva_reject", reject)] action)) ↔
        ∃ m ∈ models, ∃ eff, m.effects = some eff ∧
          ∃ v, Obj.getOwn eff s = some v ∧ v.truthy = true := by
      rw [(hmain s hs hp).1]
      constructor
      · rintro ⟨_, m, hm, _, eff, hef, v, hg, hv⟩
        exact ⟨m, hm, eff, hef, v, hg, hv⟩
      · rintro ⟨m, hm, eff, hef, v, hg, hv⟩
        have hk : s ∈ Obj.keys eff := by
          by_contra hc
          rw [(Obj.getOwn_eq_none_iff eff s).mpr hc] at hg
          cases hg
        obtain ⟨k0, hk0⟩ := hq m hm eff hef s hk
        refine ⟨?_, m, hm, ?_, eff, hef, v, hg, hv⟩
        · rw [hk0]
          exact qualify_ne_empty _ _
        · rw [hk0, firstSegment_qualified _ _ (hslash m hm)]
    refine ⟨hfirst, ?_⟩
    intro htruthy
    rw [hfirst]
    constructor
    · rintro ⟨m, hm, eff, hef, v, hg, _⟩
      refine ⟨m, hm, eff, hef, ?_⟩
      by_contra hc
      rw [(Obj.getOwn_eq_none_iff eff s).mpr hc] at hg
      cases hg
    · rintro ⟨m, hm, eff, hef, hk⟩
      cases hg : Obj.getOwn eff s with
      | none => exact absurd hk ((Obj.getOwn_eq_none_iff eff s).mp hg)
      | some v =>
        exact ⟨m, hm, eff, hef, v, hg,
          htruthy m hm eff hef (s, v) (Obj.mem_of_getOwn eff s v hg)⟩
  · intro hno
    have hb : isEffect models ((Obj.getOwn action "type").getD .undefined) = false := by
      cases ht : Obj.getOwn action "type" with
      | none => rfl
      | some v =>
        cases v with
        | str s => exact absurd ht (hno s)
        | _ => rfl
    simp [createPromiseMiddleware, hb]
  · intro key v hk
    rw [hsp key, hk]
  · intro hk
    rw [hsp, (Obj.getOwn_eq_none_iff action _).mpr hk]
    rfl
  · intro hk
    rw [hsp, (Obj.getOwn_eq_none_iff action _).mpr hk]
    rfl

/-- C16 (amended), at the qualified model of `{ namespace: "ns", effects: { fetch } }` and
the action `{ type: "ns/fetch", payload: 1 }`: the action is forwarded with the callbacks of
a new promise. -/
theorem C16_bridge_witness :
    createPromiseMiddleware [(prefixNamespace fetchModel).1] (fun _ => (0 : Nat))
        (.fn "resolve") (.fn "reject")
        [("type", (.str "ns/fetch" : Val String)), ("payload", .num 1)] =
      .deferred [("__dva_resolve", .fn "resolve"), ("__dva_reject", .fn "reject"),
        ("type", .str "ns/fetch"), ("payload", .num 1)] :=
  ((C16_bridge [(prefixNamespace fetchModel).1] (fun _ => (0 : Nat))
    (.fn "resolve") (.fn "reject")
    [("type", (.str "ns/fetch" : Val String)), ("payload", .num 1)]
    (by decide) (by decide)).1 "ns/fetch" rfl (by decide)).1.mpr
    ⟨by decide, (prefixNamespace fetchModel).1, List.mem_singleton.mpr rfl, by decide,
      [("ns/fetch", .fn "fetch")], rfl, .fn "fetch", rfl, rfl⟩

/-- C16 as stated fails: the type `a/b/fetch` is a declared, qualified effect key of the
registered model with the namespace `a/b`, yet the middleware, which looks for a model
named `a`, forwards the action as it is and returns what `next` returns. -/
theorem C16_counterexample :
    (prefixNamespace nestedModel).1.effects = some [("a/b/fetch", .fn "fetch")] ∧
    createPromiseMiddleware [(prefixNamespace nestedModel).1] (fun _ => (0 : Nat))
        (.fn "resolve") (.fn "reject") [("type", (.str "a/b/fetch" : Val String))] =
      .direct 0 :=
  ⟨rfl, rfl⟩

/-- An effect key declared with a falsy value is no effect for the middleware: for the
qualified model of `{ namespace: "ns", effects: { fetch: undefined } }` the action
`{ type: "ns/fetch" }` is forwarded as it is. -/
theorem createPromiseMiddleware_falsy_effect :
    (prefixNamespace falsyEffectModel).1.effects = some [("ns/fetch", .undefined)] ∧
    createPromiseMiddleware [(prefixNamespace falsyEffectModel).1] (fun _ => (0 : Nat))
        (.fn "resolve") (.fn "reject") [("type", (.str "ns/fetch" : Val String))] =
      .direct 0 :=
  ⟨rfl, rfl⟩


/-! ## subscription.js -/

theorem length_filter_split {α : Type} (p : α → Bool) (l : List α) :
    (l.filter p).length + (l.filter (fun a => !p a)).length = l.length := by
  induction l with
  | nil => rfl
  | cons a rest ih =>
    cases h : p a <;> simp [List.filter_cons, h] <;> omega

/-- The loop of `run` from the arrays `acc`, over subscriptions that are functions and
return. -/
theorem runLoop_returned {F : Type} (behaviour : Behaviour F) (api onError : Val F)
    (rets : F → Val F) (fs : List (String × F))
    (hret : ∀ kf ∈ fs, behaviour kf.2 [api, onError] = .ok (rets kf.2)) (acc : Unlistener F) :
    (runLoop behaviour api onError (fs.map (fun kf => (kf.1, Val.fn kf.2))) acc).error = none ∧
    (runLoop behaviour api onError (fs.map (fun kf => (kf.1, Val.fn kf.2))) acc).calls =
      fs.map (fun kf => (Val.fn kf.2, [api, onError])) ∧
    (runLoop behaviour api onError (fs.map (fun kf => (kf.1, Val.fn kf.2))) acc).value.funcs =
      acc.funcs ++ (fs.map (fun kf => rets kf.2)).filter isFunction ∧
    (runLoop behaviour api onError (fs.map (fun kf => (kf.1, Val.fn kf.2))) acc).value.nonFuncs =
      acc.nonFuncs ++ (fs.filter (fun kf => !isFunction (rets kf.2))).map Prod.fst := by
  induction fs generalizing acc with
  | nil => simp [runLoop]
  | cons kf rest ih =>
    have h1 := hret kf (List.mem_cons_self _ _)
    have h2 := fun a => ih (fun g hg => hret g (List.mem_cons_of_mem _ hg)) a
    simp only [List.map_cons, runLoop, h1]
    cases hfn : isFunction (rets kf.2)
    · obtain ⟨e1, e2, e3, e4⟩ := h2 { acc with nonFuncs := acc.nonFuncs ++ [kf.1] }
      simp [List.filter_cons, hfn, e1, e2, e3, e4]
    · obtain ⟨e1, e2, e3, e4⟩ := h2 { acc with funcs := acc.funcs ++ [rets kf.2] }
      simp [List.filter_cons, hfn, e1, e2, e3, e4]

/-- C17: for a subscription map whose values are the functions `fs`, in declaration order,
each of which returns (`rets f` is what `f` returns), `run` calls each of them once, in that
order, with the object `{ dispatch, history }` and `onError`, and returns `{ funcs, nonFuncs }`
where `funcs` holds the returned functions in declaration order and `nonFuncs` the keys of
the subscriptions that returned anything else; the two lengths add up to the number of
subscriptions. -/
theorem C17_run_classifies {F : Type} (behaviour : Behaviour F) (dispatch history onError : Val F)
    (rets : F → Val F) (fs : List (String × F))
    (hret : ∀ kf ∈ fs,
      behaviour kf.2 [.obj [("dispatch", dispatch), ("history", history)], onError] =
        .ok (rets kf.2)) :
    (run behaviour (fs.map (fun kf => (kf.1, Val.fn kf.2))) dispatch history onError).error
      = none ∧
    (run behaviour (fs.map (fun kf => (kf.1, Val.fn kf.2))) dispatch history onError).calls =
      fs.map (fun kf =>
        (Val.fn kf.2, [.obj [("dispatch", dispatch), ("history", history)], onError])) ∧
    (run behaviour (fs.map (fun kf => (kf.1, Val.fn kf.2))) dispatch history onError).value.funcs
      = (fs.map (fun kf => rets kf.2)).filter isFunction ∧
    (run behaviour (fs.map (fun kf => (kf.1, Val.fn kf.2))) dispatch history
        onError).value.nonFuncs =
      (fs.filter (fun kf => !isFunction (rets kf.2))).map Prod.fst ∧
    (run behaviour (fs.map (fun kf => (kf.1, Val.fn kf.2))) dispatch history
        onError).value.funcs.length +
      (run behaviour (fs.map (fun kf => (kf.1, Val.fn kf.2))) dispatch history
        onError).value.nonFuncs.length = fs.length := by
  obtain ⟨e1, e2, e3, e4⟩ := runLoop_returned behaviour
    (.obj [("dispatch", dispatch), ("history", history)]) onError rets fs hret
    { funcs := [], nonFuncs := [] }
  simp only [List.nil_append] at e3 e4
  refine ⟨e1, e2, e3, e4, ?_⟩
  simp only [run]
  rw [e3, e4, List.length_map]
  have h := length_filter_split (fun kf : String × F => isFunction (rets kf.2)) fs
  have h' : ((fs.map (fun kf => rets kf.2)).filter isFunction).length =
      (fs.filter (fun kf : String × F => isFunction (rets kf.2))).length := by
    rw [List.filter_map, List.length_map]
    rfl
  omega

/-- Witness for C17: the map `{ a: watch, b: setup, c: watch }`, where `watch` returns the
teardown `stop` and `setup` returns `undefined`. -/
theorem C17_run_classifies_witness :
    (run sampleBehaviour (sampleSubscriptions.map (fun kf => (kf.1, Val.fn kf.2)))
      (.fn "dispatch") (.str "history") (.fn "onError")).value.funcs
        = [.fn "stop", .fn "stop"] ∧
    (run sampleBehaviour (sampleSubscriptions.map (fun kf => (kf.1, Val.fn kf.2)))
      (.fn "dispatch") (.str "history") (.fn "onError")).value.nonFuncs = ["b"] :=
  have h := C17_run_classifies sampleBehaviour (.fn "dispatch") (.str "history") (.fn "onError")
    (fun f => if f = "watch" then .fn "stop" else .undefined) sampleSubscriptions
    (by
      intro kf _
      simp only [sampleBehaviour]
      split <;> rfl)
  ⟨h.2.2.1.trans rfl, h.2.2.2.1.trans rfl⟩


theorem Obj.getOwn_delete_self {V : Type} (o : Obj V) (key : String) :
    Obj.getOwn (Obj.delete o key) key = none := by
  rw [Obj.getOwn_eq_none_iff]
  simp [Obj.keys, Obj.delete]

theorem Obj.getOwn_delete_other {V : Type} (o : Obj V) (key key' : String) (h : key' ≠ key) :
    Obj.getOwn (Obj.delete o key) key' = Obj.getOwn o key' := by
  induction o with
  | nil => rfl
  | cons kv rest ih =>
    obtain ⟨k, v⟩ := kv
    by_cases hk : k = key
    · have hk' : ¬ k = key' := fun e => h (e.symm.trans hk)
      have e1 : Obj.delete ((k, v) :: rest) key = Obj.delete rest key := by
        simp [Obj.delete, List.filter_cons, hk]
      rw [e1, ih]
      simp only [Obj.getOwn, hk', if_false]
    · have e1 : Obj.delete ((k, v) :: rest) key = (k, v) :: Obj.delete rest key := by
        simp [Obj.delete, List.filter_cons, hk]
      rw [e1]
      by_cases hk' : k = key'
      · simp only [Obj.getOwn, hk', if_true]
      · simp only [Obj.getOwn, hk', if_false]
        exact ih

theorem Obj.delete_of_not_own {V : Type} (o : Obj V) (key : String)
    (h : Obj.getOwn o key = none) : Obj.delete o key = o := by
  rw [Obj.getOwn_eq_none_iff] at h
  simp only [Obj.delete, List.filter_eq_self, decide_eq_true_eq]
  intro kv hkv e
  exact h (e ▸ List.mem_map_of_mem Prod.fst hkv)

/-- With an entry of its own for the namespace, `unlisten` calls the stored functions once
each, in stored order, with no argument, and then deletes the entry; the warning about
subscriptions without a teardown does not throw. -/
theorem unlisten_own {F : Type} (outcome : Outcome F) (unlisteners : Obj (Unlistener F))
    (ns : String) (entry : Unlistener F) (fs : List F)
    (hown : Obj.getOwn unlisteners ns = some entry) (hfs : entry.funcs = fs.map Val.fn)
    (hret : ∀ f ∈ fs, outcome f [] = none) :
    (unlisten outcome unlisteners ns).error = none ∧
    (unlisten outcome unlisteners ns).calls = fs.map (fun f => (Val.fn f, [])) ∧
    (unlisten outcome unlisteners ns).registry = Obj.delete unlisteners ns := by
  have h := callEach_fns outcome fs [] hret
  simp [unlisten, Obj.read, hown, hfs, h]

/-- Without an entry for a namespace that is not a property name of `Object.prototype`,
`unlisten` does nothing. -/
theorem unlisten_missing {F : Type} (outcome : Outcome F) (unlisteners : Obj (Unlistener F))
    (ns : String) (hnone : Obj.getOwn unlisteners ns = none) (hk : ns ∉ objectPrototypeKeys) :
    unlisten outcome unlisteners ns =
      { registry := unlisteners, calls := [], warnings := [], error := none } := by
  simp [unlisten, Obj.read, hnone, hk]

/-- Without an entry for a namespace that is a property name of `Object.prototype`,
`unlisten` throws. -/
theorem unlisten_inherited {F : Type} (outcome : Outcome F) (unlisteners : Obj (Unlistener F))
    (ns : String) (hnone : Obj.getOwn unlisteners ns = none) (hk : ns ∈ objectPrototypeKeys) :
    unlisten outcome unlisteners ns =
      { registry := unlisteners, calls := [], warnings := []
        error := some (.typeError "Cannot read properties of undefined (reading length)") } := by
  simp [unlisten, Obj.read, hnone, hk]

/-- C18: on the empty registry `{}`, `unlisten(registry, "toString")` does not return: the
read `registry["toString"]` yields the function inherited from `Object.prototype`, the guard
lets it through and the read `nonFuncs.length` throws a `TypeError`; for the namespace
`counter` the same call returns and leaves the registry as it was. -/
theorem C18_inherited_namespace_raises :
    (unlisten sampleOutcome ([] : Obj (Unlistener String)) "toString").error =
      some (.typeError "Cannot read properties of undefined (reading length)") ∧
    (unlisten sampleOutcome ([] : Obj (Unlistener String)) "counter").error = none ∧
    (unlisten sampleOutcome ([] : Obj (Unlistener String)) "counter").calls = [] ∧
    (unlisten sampleOutcome ([] : Obj (Unlistener String)) "counter").registry = [] :=
  ⟨rfl, rfl, rfl, rfl⟩


/-! ## index.js: unmodel and replaceModel -/

/-- C19: in an application started with the models `@@dva`, `toString` and `counter`, none
of which declares subscriptions, `unmodel("toString")` does not return: after the two
dispatches, `unlisten` reads `unlisteners["toString"]` from `Object.prototype` and throws a
`TypeError`, so that the statement that filters `app._models` is never reached and the
model `toString` stays in the module list; `unmodel("counter")` on the same application
returns and removes the model `counter`. -/
theorem C19_unmodel_inherited_namespace :
    (create.unmodel sampleStarted sampleApp "toString").2 =
      some (.typeError "Cannot read properties of undefined (reading length)") ∧
    (create.unmodel sampleStarted sampleApp "toString").1.models.map (fun m => m.«namespace») =
      ["@@dva", "toString", "counter"] ∧
    dispatchedTypes (create.unmodel sampleStarted sampleApp "toString").1.events =
      ["@@dva/UPDATE", "toString/@@CANCEL_EFFECTS"] ∧
    (create.unmodel sampleStarted sampleApp "counter").2 = none ∧
    (create.unmodel sampleStarted sampleApp "counter").1.models.map (fun m => m.«namespace») =
      ["@@dva", "toString"] :=
  ⟨rfl, rfl, rfl, rfl, rfl⟩

/-- C20: in an application started with the models `@@dva`, `toString` and `counter`, none
of which declares subscriptions, `replaceModel` of a valid model with namespace `toString`
does not return: `unlisten` reads `unlisteners["toString"]` from `Object.prototype` and
throws a `TypeError` before the old model is removed and before the new one is registered,
and no `@@dva/UPDATE` is dispatched; `replaceModel` of a model with namespace `counter` on
the same application returns, moves the namespace to the end of the module list and
dispatches `@@dva/UPDATE` once. -/
theorem C20_replace_inherited_namespace :
    sampleCheckModel (plainModel "toString")
        (sampleApp.models.filter (fun x => decide (x.«namespace» ≠ "toString"))) = none ∧
    (create.replaceModel sampleStarted sampleApp (plainModel "toString")).2 =
      some (.typeError "Cannot read properties of undefined (reading length)") ∧
    (create.replaceModel sampleStarted sampleApp (plainModel "toString")).1.models.map
        (fun m => m.«namespace») = ["@@dva", "toString", "counter"] ∧
    dispatchedTypes (create.replaceModel sampleStarted sampleApp (plainModel "toString")).1.events
      = ["toString/@@CANCEL_EFFECTS"] ∧
    (create.replaceModel sampleStarted sampleApp (plainModel "counter")).2 = none ∧
    (create.replaceModel sampleStarted sampleApp (plainModel "counter")).1.models.map
        (fun m => m.«namespace») = ["@@dva", "toString", "counter"] ∧
    dispatchedTypes (create.replaceModel sampleStarted sampleApp (plainModel "counter")).1.events
      = ["counter/@@CANCEL_EFFECTS", "@@dva/UPDATE"] :=
  ⟨rfl, rfl, rfl, rfl, rfl, rfl, rfl⟩


/-- Every canceller forked by `getSaga` for a model waits for the action type
`namespace/@@CANCEL_EFFECTS` of that model, the type `unmodel` and `replaceModel` dispatch. -/
theorem getSaga_cancelOn {F S H E X B O Vb : Type} (verbs : Vb)
    (createEffects : Model S H E X B → O → Val F)
    (effects : Obj (EffectDecl (EffectRoutine F))) (model : Model S H E X B)
    (onError : ErrorHandler F)
    (onEffect : List (Saga F → Vb → Model S H E X B → String → Saga F)) (opts : O) :
    ∀ t ∈ (getSaga verbs createEffects effects model onError onEffect opts).1,
      t.cancelOn = model.«namespace» ++ "/@@CANCEL_EFFECTS" := by
  unfold getSaga
  induction effects with
  | nil => intro t ht; simp [getSagaLoop] at ht
  | cons kd rest ih =>
    obtain ⟨key, decl⟩ := kd
    intro t ht
    simp only [getSagaLoop] at ht
    cases hw : getWatcher verbs createEffects key decl model onError onEffect opts with
    | error e => simp [hw] at ht
    | ok w =>
      simp only [hw, List.mem_cons] at ht
      rcases ht with h | h
      · rw [h]
      · exact ih t h

/-- Where `unlisten` returns, `unmodel` returns: it removes the namespace from both reducer
maps, replaces the reducer by the one made of the remaining maps, dispatches `@@dva/UPDATE`
and then `namespace/@@CANCEL_EFFECTS`, tears down the subscriptions and filters the module
list. `unlisten` returns when the registry has an entry of its own for the namespace whose
teardowns return, and when it has none and the namespace is no property name of
`Object.prototype` (`unlisten_own`, `unlisten_missing`). -/
theorem unmodel_returns {σ P X F : Type} (env : Started σ P X F) (app : App σ P X F)
    (ns : String) (hun : (unlisten env.outcome app.unlisteners ns).error = none) :
    (create.unmodel env app ns).2 = none ∧
    (create.unmodel env app ns).1.models =
      app.models.filter (fun model => decide (model.«namespace» ≠ ns)) ∧
    (create.unmodel env app ns).1.reducers = Obj.delete app.reducers ns ∧
    (create.unmodel env app ns).1.asyncReducers = Obj.delete app.asyncReducers ns ∧
    (create.unmodel env app ns).1.unlisteners = (unlisten env.outcome app.unlisteners ns).registry ∧
    (create.unmodel env app ns).1.events =
      app.events ++
        [.replaceReducer (spread (spread (Obj.delete app.reducers ns) env.extraReducers)
            (Obj.delete app.asyncReducers ns)),
         .dispatch "@@dva/UPDATE", .dispatch (ns ++ "/@@CANCEL_EFFECTS")] ++
        (unlisten env.outcome app.unlisteners ns).warnings.map .warned ++
        (unlisten env.outcome app.unlisteners ns).calls.map .called := by
  simp [create.unmodel, hun, start.createReducer]


theorem prefixNamespace_keeps {S H E F B : Type} (model : Model S H E F B) :
    (prefixNamespace model).1.«namespace» = model.«namespace» ∧
    (prefixNamespace model).1.state = model.state ∧
    (prefixNamespace model).1.subscriptions = model.subscriptions := by
  rw [prefixNamespace_fst]
  exact ⟨rfl, rfl, rfl⟩

theorem dispatchedTypes_append {σ P X F : Type} (a b : List (StoreEvent σ P X F)) :
    dispatchedTypes (a ++ b) = dispatchedTypes a ++ dispatchedTypes b := by
  simp [dispatchedTypes, List.filterMap_append]

theorem dispatchedTypes_warned {σ P X F : Type} (l : List String) :
    dispatchedTypes (l.map (StoreEvent.warned : String → StoreEvent σ P X F)) = [] := by
  induction l with
  | nil => rfl
  | cons a rest ih =>
    simp only [dispatchedTypes, List.map_cons, List.filterMap_cons] at ih ⊢
    exact ih

theorem dispatchedTypes_called {σ P X F : Type} (l : List (Call F)) :
    dispatchedTypes (l.map (StoreEvent.called : Call F → StoreEvent σ P X F)) = [] := by
  induction l with
  | nil => rfl
  | cons a rest ih =>
    simp only [dispatchedTypes, List.map_cons, List.filterMap_cons] at ih ⊢
    exact ih

/-- The type of the cancellation action of a namespace is never the type of the bump
action. -/
theorem cancel_ne_update (ns : String) : ns ++ "/@@CANCEL_EFFECTS" ≠ "@@dva/UPDATE" := by
  intro h
  have h1 := congrArg (fun s : String => s.data.reverse.head?) h
  simp at h1

/-- On a list of models with pairwise distinct namespaces, `findIndex` by namespace returns
`-1` when no model has the namespace, and otherwise an index whose removal leaves the list
without the models of that namespace. -/
theorem eraseIdx_findIndex {S H E X B : Type} (ns : String) (models : List (Model S H E X B)) :
    (models.map (fun x => x.«namespace»)).Nodup → ∀ i : Nat,
      (findIndexLoop (fun model _ => decide (model.«namespace» = ns)) models i = -1 ∧
        (∀ x ∈ models, x.«namespace» ≠ ns)) ∨
      (∃ k : Nat,
        findIndexLoop (fun model _ => decide (model.«namespace» = ns)) models i =
          ((i + k : Nat) : Int) ∧
        (∃ x ∈ models, x.«namespace» = ns) ∧
        models.eraseIdx k = models.filter (fun x => decide (x.«namespace» ≠ ns))) := by
  induction models with
  | nil => intro _ _; left; simp [findIndexLoop]
  | cons a rest ih =>
    intro hnd i
    simp only [List.map_cons, List.nodup_cons] at hnd
    by_cases ha : a.«namespace» = ns
    · right
      refine ⟨0, by simp [findIndexLoop, ha], ⟨a, List.mem_cons_self _ _, ha⟩, ?_⟩
      have hrest : rest.filter (fun x => decide (x.«namespace» ≠ ns)) = rest := by
        rw [List.filter_eq_self]
        intro x hx
        simp only [ne_eq, decide_not, Bool.not_eq_eq_eq_not, Bool.not_true,
          decide_eq_false_iff_not]
        intro hxn
        apply hnd.1
        rw [ha, ← hxn]
        exact List.mem_map_of_mem (fun x => x.«namespace») hx
      simp only [ne_eq, decide_not] at hrest
      simp [List.filter_cons, ha, hrest]
    · rcases ih hnd.2 (i + 1) with ⟨h1, h2⟩ | ⟨k, h1, ⟨x, hx, hxn⟩, h3⟩
      · left
        refine ⟨by simp [findIndexLoop, ha, h1], ?_⟩
        intro x hx
        rcases List.mem_cons.mp hx with h | h
        · rw [h]; exact ha
        · exact h2 x h
      · right
        refine ⟨k + 1, ?_, ⟨x, List.mem_cons_of_mem _ hx, hxn⟩, ?_⟩
        · simp only [findIndexLoop, ha, decide_False, Bool.false_eq_true, if_false, h1]
          congr 1
          omega
        · simp [List.filter_cons, ha, h3]


/-- With a model that `checkModel` accepts, or in production mode, `model` appends the
qualified model to the module list. -/
theorem model_accepted {σ P X F : Type} (env : Started σ P X F) (app : App σ P X F)
    (m : AppModel σ P X F)
    (hvalid : env.production = false → env.checkModel m app.models = none) :
    create.model env app m =
      .ok ({ app with
              models := app.models ++ [(prefixNamespace m).1]
              events := app.events ++ (prefixNamespace m).2.map .warned },
            (prefixNamespace m).1) := by
  cases hp : env.production
  · simp [create.model, hp, hvalid hp]
  · simp [create.model, hp]

/-- With a model that `checkModel` accepts and whose subscriptions return, `injectModel`
returns: the qualified model is appended to the module list, its reducer is stored under its
namespace among the injected reducers and mounted, its subscriptions are run and their
teardowns stored, and nothing is dispatched. -/
theorem injectModel_returns {σ P X F : Type} (env : Started σ P X F) (app : App σ P X F)
    (m : AppModel σ P X F)
    (hvalid : env.production = false → env.checkModel m app.models = none)
    (hrun : ∀ subs, m.subscriptions = some subs →
      (run env.behaviour subs (env.prefixedDispatch (prefixNamespace m).1) env.history
        env.onError).error = none) :
    (create.injectModel env app m).2 = none ∧
    (create.injectModel env app m).1.models = app.models ++ [(prefixNamespace m).1] ∧
    (create.injectModel env app m).1.reducers = app.reducers ∧
    (create.injectModel env app m).1.asyncReducers =
      Obj.set app.asyncReducers m.«namespace»
        (getReducer (prefixNamespace m).1.reducers m.state env.handleActionsHook) ∧
    (create.injectModel env app m).1.unlisteners =
      (match m.subscriptions with
        | some subs => Obj.set app.unlisteners m.«namespace»
            (run env.behaviour subs (env.prefixedDispatch (prefixNamespace m).1) env.history
              env.onError).value
        | none => app.unlisteners) ∧
    dispatchedTypes (create.injectModel env app m).1.events = dispatchedTypes app.events ∧
    StoreEvent.replaceReducer (spread (spread app.reducers env.extraReducers)
        (Obj.set app.asyncReducers m.«namespace»
          (getReducer (prefixNamespace m).1.reducers m.state env.handleActionsHook))) ∈
      (create.injectModel env app m).1.events := by
  obtain ⟨h1, h2, h3⟩ := prefixNamespace_keeps m
  have hw := @dispatchedTypes_warned σ P X F (prefixNamespace m).2
  unfold create.injectModel
  rw [model_accepted env app m hvalid]
  simp only [h1, h2, h3, start.createReducer]
  cases hs : m.subscriptions with
  | none =>
    cases he : (prefixNamespace m).1.effects with
    | none =>
      simp [dispatchedTypes_append, hw]
      simp [dispatchedTypes]
    | some eff =>
      simp [dispatchedTypes_append, hw]
      simp [dispatchedTypes]
  | some subs =>
    have hr := hrun subs hs
    have hc := @dispatchedTypes_called σ P X F
      (run env.behaviour subs (env.prefixedDispatch (prefixNamespace m).1) env.history
        env.onError).calls
    cases he : (prefixNamespace m).1.effects with
    | none =>
      simp [dispatchedTypes_append, hw, hr, hc]
      simp [dispatchedTypes]
    | some eff =>
      simp [dispatchedTypes_append, hw, hr, hc]
      simp [dispatchedTypes]


/-- Where `unlisten` returns, the block that removes the old model returns: the cancellation
action is dispatched, the namespace is deleted from both reducer maps and the model at the
index is spliced out. -/
theorem removeOld_returns {σ P X F : Type} (env : Started σ P X F) (app : App σ P X F)
    (ns : String) (k : Nat) (hu : (unlisten env.outcome app.unlisteners ns).error = none) :
    ∃ removed, replaceModel.removeOld env app ns (k : Int) = (removed, none) ∧
      removed.models = app.models.eraseIdx k ∧
      removed.reducers = Obj.delete app.reducers ns ∧
      removed.asyncReducers = Obj.delete app.asyncReducers ns ∧
      dispatchedTypes removed.events =
        dispatchedTypes app.events ++ [ns ++ "/@@CANCEL_EFFECTS"] := by
  refine ⟨(replaceModel.removeOld env app ns (k : Int)).1, ?_, ?_, ?_, ?_, ?_⟩
  · simp [replaceModel.removeOld, hu]
  · simp [replaceModel.removeOld, hu]
  · simp [replaceModel.removeOld, hu]
  · simp [replaceModel.removeOld, hu]
  · simp only [replaceModel.removeOld, hu, dispatchedTypes_append, dispatchedTypes_warned,
      dispatchedTypes_called, List.append_nil]
    rfl

/-- The statements of `replaceModel` after the old model is removed. -/
theorem replaceModel_after {σ P X F : Type} (env : Started σ P X F) (app : App σ P X F)
    (m : AppModel σ P X F) (removed : App σ P X F)
    (hrem : (if findIndex app.models
          (fun model _ => decide (model.«namespace» = m.«namespace»)) ≠ -1 then
        replaceModel.removeOld env app m.«namespace»
          (findIndex app.models (fun model _ => decide (model.«namespace» = m.«namespace»)))
      else (app, none)) = (removed, none))
    (hinj : (create.injectModel env removed m).2 = none) :
    create.replaceModel env app m =
      ({ (create.injectModel env removed m).1 with
          events := (create.injectModel env removed m).1.events ++ [.dispatch "@@dva/UPDATE"] },
        none) := by
  simp only [create.replaceModel, hrem, hinj]

/-- Where the teardown of the old model returns, `replaceModel` of a model that `checkModel`
accepts and whose subscriptions return behaves as follows on a module list with pairwise
distinct namespaces: it returns, the module list is the previous one without the
model of that namespace, followed by the qualified new model; the reducer mounted under the
namespace is the one of the new model; and the actions dispatched are the cancellation
action, when a model with the namespace existed, and then `@@dva/UPDATE`, once. -/
theorem replaceModel_returns {σ P X F : Type} (env : Started σ P X F) (app : App σ P X F)
    (m : AppModel σ P X F)
    (hnd : (app.models.map (fun x => x.«namespace»)).Nodup)
    (hvalid : env.production = false →
      env.checkModel m (app.models.filter (fun x => decide (x.«namespace» ≠ m.«namespace»)))
        = none)
    (hun : (∃ x ∈ app.models, x.«namespace» = m.«namespace») →
      (unlisten env.outcome app.unlisteners m.«namespace»).error = none)
    (hrun : ∀ subs, m.subscriptions = some subs →
      (run env.behaviour subs (env.prefixedDispatch (prefixNamespace m).1) env.history
        env.onError).error = none)
    (ha : (Obj.keys app.asyncReducers).Nodup) :
    (create.replaceModel env app m).2 = none ∧
    (create.replaceModel env app m).1.models =
      app.models.filter (fun x => decide (x.«namespace» ≠ m.«namespace»)) ++
        [(prefixNamespace m).1] ∧
    Obj.getOwn (start.createReducer env (create.replaceModel env app m).1) m.«namespace» =
      some (getReducer (prefixNamespace m).1.reducers m.state env.handleActionsHook) ∧
    StoreEvent.replaceReducer (start.createReducer env (create.replaceModel env app m).1) ∈
      (create.replaceModel env app m).1.events ∧
    dispatchedTypes (create.replaceModel env app m).1.events =
      dispatchedTypes app.events ++
        (if ∃ x ∈ app.models, x.«namespace» = m.«namespace» then
          [m.«namespace» ++ "/@@CANCEL_EFFECTS"] else []) ++ ["@@dva/UPDATE"] ∧
    m.«namespace» ++ "/@@CANCEL_EFFECTS" ≠ "@@dva/UPDATE" := by
  have hmount : ∀ rs as : Obj (Reducer σ P), (Obj.keys as).Nodup →
      Obj.getOwn (spread (spread rs env.extraReducers) (Obj.set as m.«namespace»
        (getReducer (prefixNamespace m).1.reducers m.state env.handleActionsHook)))
        m.«namespace» =
      some (getReducer (prefixNamespace m).1.reducers m.state env.handleActionsHook) := by
    intro rs as has
    rw [getOwn_spread _ _ _ (nodup_keys_spread _ _) (Obj.nodup_keys_set _ _ _ has),
      Obj.getOwn_set]
    simp
  have key : ∀ removed : App σ P X F,
      (if findIndex app.models
            (fun model _ => decide (model.«namespace» = m.«namespace»)) ≠ -1 then
          replaceModel.removeOld env app m.«namespace»
            (findIndex app.models (fun model _ => decide (model.«namespace» = m.«namespace»)))
        else (app, none)) = (removed, none) →
      removed.models = app.models.filter (fun x => decide (x.«namespace» ≠ m.«namespace»)) →
      (Obj.keys removed.asyncReducers).Nodup →
      (create.replaceModel env app m).2 = none ∧
      (create.replaceModel env app m).1.models =
        app.models.filter (fun x => decide (x.«namespace» ≠ m.«namespace»)) ++
          [(prefixNamespace m).1] ∧
      Obj.getOwn (start.createReducer env (create.replaceModel env app m).1) m.«namespace» =
        some (getReducer (prefixNamespace m).1.reducers m.state env.handleActionsHook) ∧
      StoreEvent.replaceReducer (start.createReducer env (create.replaceModel env app m).1) ∈
        (create.replaceModel env app m).1.events ∧
      dispatchedTypes (create.replaceModel env app m).1.events =
        dispatchedTypes removed.events ++ ["@@dva/UPDATE"] := by
    intro removed hrem hmodels hnda
    obtain ⟨e1, e2, e3, e4, _, e6, e7⟩ := injectModel_returns env removed m
      (by rw [hmodels]; exact hvalid) hrun
    rw [replaceModel_after env app m removed hrem e1]
    refine ⟨rfl, ?_, ?_, ?_, ?_⟩
    · show (create.injectModel env removed m).1.models = _
      rw [e2, hmodels]
    · show Obj.getOwn (spread (spread (create.injectModel env removed m).1.reducers
        env.extraReducers) (create.injectModel env removed m).1.asyncReducers) _ = _
      rw [e3, e4]
      exact hmount _ _ hnda
    · show StoreEvent.replaceReducer (spread (spread (create.injectModel env removed m).1.reducers
        env.extraReducers) (create.injectModel env removed m).1.asyncReducers) ∈
          (create.injectModel env removed m).1.events ++ [.dispatch "@@dva/UPDATE"]
      rw [e3, e4]
      exact List.mem_append_left _ e7
    · show dispatchedTypes ((create.injectModel env removed m).1.events ++
        [.dispatch "@@dva/UPDATE"]) = _
      rw [dispatchedTypes_append, e6]
      rfl
  rcases eraseIdx_findIndex m.«namespace» app.models hnd 0 with ⟨h1, h2⟩ | ⟨k, h1, h2, h3⟩
  · have hno : ¬ ∃ x ∈ app.models, x.«namespace» = m.«namespace» := by
      rintro ⟨x, hx, hxn⟩
      exact h2 x hx hxn
    have hfilter : app.models.filter (fun x => decide (x.«namespace» ≠ m.«namespace»)) =
        app.models := by
      rw [List.filter_eq_self]
      intro x hx
      simpa using h2 x hx
    obtain ⟨k1, k2, k3, k4, k5⟩ := key app (by simp [findIndex, h1]) hfilter.symm ha
    refine ⟨k1, k2, k3, k4, ?_, cancel_ne_update _⟩
    rw [k5]
    simp [hno]
  · obtain ⟨removed, hrem, fm, _, fa, fe⟩ := removeOld_returns env app m.«namespace» k (hun h2)
    have hidx : findIndex app.models
        (fun model _ => decide (model.«namespace» = m.«namespace»)) = (k : Int) := by
      simp [findIndex, h1]
    have hk : (k : Int) ≠ -1 := by omega
    have hda : (Obj.keys removed.asyncReducers).Nodup := by
      rw [fa]
      simp only [Obj.keys, Obj.delete]
      exact List.Nodup.sublist (List.Sublist.map _ (List.filter_sublist _)) ha
    obtain ⟨k1, k2, k3, k4, k5⟩ := key removed (by rw [hidx, if_pos hk]; exact hrem)
      (by rw [fm, h3]) hda
    refine ⟨k1, k2, k3, k4, ?_, cancel_ne_update _⟩
    rw [k5, fe]
    simp [h2]


/-! ## index.js: start -/

theorem keys_foldl_set {α V : Type} (f : α → String) (g : α → V) (l : List α) :
    ∀ (acc : Obj V) (k : String),
      k ∈ Obj.keys (l.foldl (fun acc x => Obj.set acc (f x) (g x)) acc) ↔
        k ∈ Obj.keys acc ∨ k ∈ l.map f := by
  induction l with
  | nil => intro acc k; simp
  | cons x rest ih =>
    intro acc k
    rw [List.foldl_cons, ih, Obj.keys_set]
    by_cases hm : f x ∈ Obj.keys acc
    · simp only [hm, if_true, List.map_cons, List.mem_cons]
      constructor
      · rintro (h | h)
        · exact Or.inl h
        · exact Or.inr (Or.inr h)
      · rintro (h | h | h)
        · exact Or.inl h
        · exact Or.inl (h ▸ hm)
        · exact Or.inr h
    · simp only [hm, if_false, List.map_cons, List.mem_cons, List.mem_append,
        List.mem_singleton]
      tauto

theorem nodup_keys_foldl_set {α V : Type} (f : α → String) (g : α → V) (l : List α) :
    ∀ acc : Obj V, (Obj.keys acc).Nodup →
      (Obj.keys (l.foldl (fun acc x => Obj.set acc (f x) (g x)) acc)).Nodup := by
  induction l with
  | nil => intro acc h; exact h
  | cons x rest ih =>
    intro acc h
    exact ih _ (Obj.nodup_keys_set acc (f x) (g x) h)

theorem getOwn_foldl_set_other {α V : Type} (f : α → String) (g : α → V) (l : List α)
    (k : String) (hk : k ∉ l.map f) :
    ∀ acc : Obj V,
      Obj.getOwn (l.foldl (fun acc x => Obj.set acc (f x) (g x)) acc) k = Obj.getOwn acc k := by
  induction l with
  | nil => intro acc; rfl
  | cons x rest ih =>
    intro acc
    simp only [List.map_cons, List.mem_cons, not_or] at hk
    rw [List.foldl_cons, ih hk.2, Obj.getOwn_set]
    have hne : ¬ f x = k := fun e => hk.1 e.symm
    simp [hne]

theorem getOwn_foldl_set_mem {α V : Type} (f : α → String) (g : α → V) (l : List α)
    (hnd : (l.map f).Nodup) (x : α) (hx : x ∈ l) :
    ∀ acc : Obj V,
      Obj.getOwn (l.foldl (fun acc x => Obj.set acc (f x) (g x)) acc) (f x) = some (g x) := by
  induction l with
  | nil => simp at hx
  | cons y rest ih =>
    intro acc
    simp only [List.map_cons, List.nodup_cons] at hnd
    rw [List.foldl_cons]
    rcases List.mem_cons.mp hx with h | h
    · subst h
      rw [getOwn_foldl_set_other f g rest (f x) hnd.1, Obj.getOwn_set]
      simp
    · exact ih hnd.2 h _

/-- The keys of the object `reducers` of `start`: the keys of `initialReducer` and the
namespaces of the registered models. -/
theorem keys_start_reducers {σ P X F : Type} (env : Started σ P X F)
    (initialReducer : Obj (Reducer σ P)) (models : List (AppModel σ P X F)) (k : String) :
    k ∈ Obj.keys (start.reducers env initialReducer models) ↔
      k ∈ Obj.keys initialReducer ∨ k ∈ models.map (fun m => m.«namespace») := by
  unfold start.reducers
  rw [keys_foldl_set (fun m : AppModel σ P X F => m.«namespace»)
    (fun m => getReducer m.reducers m.state env.handleActionsHook)]
  have h := keys_foldl_set (fun kv : String × Reducer σ P => kv.1) (fun kv => kv.2)
    initialReducer [] k
  simp only [spread, List.foldl_nil]
  rw [h]
  simp [Obj.keys]

/-- The test of `start` on the extra reducers: it fails when a key of the extra reducers is a
key of `reducers`, and also when it is a property name of `Object.prototype`. -/
theorem start_raises_iff {σ P X F : Type} (env : Started σ P X F)
    (createStore : Obj (Reducer σ P) → Option JsError)
    (initialReducer : Obj (Reducer σ P)) (app : App σ P X F) :
    (create.start env createStore initialReducer app).created = none ↔
      ∃ k ∈ Obj.keys env.extraReducers,
        k ∈ Obj.keys initialReducer ∨ k ∈ app.models.map (fun m => m.«namespace») ∨
          k ∈ objectPrototypeKeys := by
  have hprop : ∀ k, Obj.hasProperty (start.reducers env initialReducer app.models) k = true ↔
      (k ∈ Obj.keys initialReducer ∨ k ∈ app.models.map (fun m => m.«namespace»)) ∨
        k ∈ objectPrototypeKeys := by
    intro k
    rw [← keys_start_reducers env initialReducer app.models k]
    exact readTruthy_iff _ k
  by_cases hall : (Obj.keys env.extraReducers).all
      (fun key => !Obj.hasProperty (start.reducers env initialReducer app.models) key) = true
  · have hno : ¬ ∃ k ∈ Obj.keys env.extraReducers,
        k ∈ Obj.keys initialReducer ∨ k ∈ app.models.map (fun m => m.«namespace») ∨
          k ∈ objectPrototypeKeys := by
      rintro ⟨k, hk, hc⟩
      rw [List.all_eq_true] at hall
      have h1 := hall k hk
      have h2 := (hprop k).mpr (by tauto)
      simp [h2] at h1
    simp only [create.start, invariant, hall, if_true, hno, iff_false]
    cases createStore (spread (spread (start.reducers env initialReducer app.models)
      env.extraReducers) []) <;> simp
  · have hyes : ∃ k ∈ Obj.keys env.extraReducers,
        k ∈ Obj.keys initialReducer ∨ k ∈ app.models.map (fun m => m.«namespace») ∨
          k ∈ objectPrototypeKeys := by
      simp only [List.all_eq_true, not_forall] at hall
      obtain ⟨k, hk, h1⟩ := hall
      refine ⟨k, hk, ?_⟩
      have h2 : Obj.hasProperty (start.reducers env initialReducer app.models) k = true := by
        simpa using h1
      have h3 := (hprop k).mp h2
      tauto
    have hall' : (Obj.keys env.extraReducers).all
        (fun key => !Obj.hasProperty (start.reducers env initialReducer app.models) key) =
          false := by
      simpa using hall
    simp only [create.start, invariant, hall', Bool.false_eq_true, if_false, true_iff]
    exact hyes


/-- When the test of `start` passes, the map handed to `createStore` holds the reducer of
every registered model, for models with pairwise distinct namespaces, and every extra
reducer. -/
theorem start_composed {σ P X F : Type} (env : Started σ P X F)
    (createStore : Obj (Reducer σ P) → Option JsError)
    (initialReducer : Obj (Reducer σ P)) (app : App σ P X F)
    (hx : (Obj.keys env.extraReducers).Nodup)
    (hnd : (app.models.map (fun m => m.«namespace»)).Nodup)
    (hno : ¬ ∃ k ∈ Obj.keys env.extraReducers,
        k ∈ Obj.keys initialReducer ∨ k ∈ app.models.map (fun m => m.«namespace») ∨
          k ∈ objectPrototypeKeys) :
    ∃ mounted, (create.start env createStore initialReducer app).created = some mounted ∧
      (∀ m ∈ app.models, Obj.getOwn mounted m.«namespace» =
        some (getReducer m.reducers m.state env.handleActionsHook)) ∧
      (∀ kv ∈ env.extraReducers, Obj.getOwn mounted kv.1 = some kv.2) := by
  have hcreated : (create.start env createStore initialReducer app).created =
      some (spread (spread (start.reducers env initialReducer app.models) env.extraReducers)
        []) := by
    have hne : (create.start env createStore initialReducer app).created ≠ none :=
      fun h => hno ((start_raises_iff env createStore initialReducer app).mp h)
    by_cases hall : (Obj.keys env.extraReducers).all
        (fun key => !Obj.hasProperty (start.reducers env initialReducer app.models) key) = true
    · simp only [create.start, invariant, hall, if_true]
      cases createStore (spread (spread (start.reducers env initialReducer app.models)
        env.extraReducers) []) <;> rfl
    · exfalso
      apply hne
      have hall' : (Obj.keys env.extraReducers).all
          (fun key => !Obj.hasProperty (start.reducers env initialReducer app.models) key) =
            false := by
        simpa using hall
      simp only [create.start, invariant, hall', Bool.false_eq_true, if_false]
  have hrn : (Obj.keys (start.reducers env initialReducer app.models)).Nodup := by
    unfold start.reducers
    exact nodup_keys_foldl_set _ _ _ _ (nodup_keys_spread _ _)
  have hget : ∀ k, Obj.getOwn (spread (spread (start.reducers env initialReducer app.models)
      env.extraReducers) []) k =
        (Obj.getOwn env.extraReducers k).orElse
          (fun _ => Obj.getOwn (start.reducers env initialReducer app.models) k) := by
    intro k
    rw [getOwn_spread k _ [] (nodup_keys_spread _ _) (by simp [Obj.keys]),
      getOwn_spread k _ _ hrn hx]
    cases Obj.getOwn env.extraReducers k <;> rfl
  refine ⟨_, hcreated, ?_, ?_⟩
  · intro m hm
    have hnone : Obj.getOwn env.extraReducers m.«namespace» = none := by
      rw [Obj.getOwn_eq_none_iff]
      intro hk
      exact hno ⟨_, hk, Or.inr (Or.inl (List.mem_map_of_mem (fun m => m.«namespace») hm))⟩
    rw [hget, hnone]
    simp only [Option.orElse]
    exact getOwn_foldl_set_mem (fun m : AppModel σ P X F => m.«namespace»)
      (fun m => getReducer m.reducers m.state env.handleActionsHook) app.models hnd m hm _
  · intro kv hkv
    rw [hget, Obj.getOwn_of_mem env.extraReducers kv.1 kv.2 hx hkv]
    rfl

/-- C21: with the registered models `@@dva` and `counter`, no initial reducer and the one
extra reducer `toString`, no key of the extra reducers is a key of the reducer map built from
the models, yet `start` raises `extraReducers is conflict with other reducers`: the test
`key in reducers` also holds for the names `reducers` inherits from `Object.prototype`.
With the extra reducer `extra` instead, `start` does not raise and the composed map holds
the two model reducers and the extra reducer. -/
theorem C21_inherited_key_collides :
    Obj.keys (start.reducers (extraStarted "toString") [] registeredApp.models) =
      ["@@dva", "counter"] ∧
    Obj.keys (extraStarted "toString").extraReducers = ["toString"] ∧
    (create.start (extraStarted "toString") (fun _ => none) [] registeredApp).error =
      some (.invariant ("[app.start] extraReducers is conflict with other reducers, " ++
        "reducers list: @@dva, counter")) ∧
    (create.start (extraStarted "extra") (fun _ => none) [] registeredApp).error = none ∧
    (create.start (extraStarted "extra") (fun _ => none) [] registeredApp).created.map Obj.keys
      = some ["@@dva", "counter", "extra"] :=
  ⟨rfl, rfl, rfl, rfl, rfl⟩


/-! ## index.js: the module list -/

/-- What `model` does: in development mode it throws what `checkModel` throws and otherwise
appends the qualified model; in production mode it always appends. -/
theorem model_cases {σ P X F : Type} (env : Started σ P X F) (app : App σ P X F)
    (m : AppModel σ P X F) :
    (∃ e, create.model env app m = .error e ∧ env.production = false ∧
      env.checkModel m app.models = some e) ∨
    (create.model env app m =
        .ok ({ app with
                models := app.models ++ [(prefixNamespace m).1]
                events := app.events ++ (prefixNamespace m).2.map .warned },
              (prefixNamespace m).1) ∧
      (env.production = true ∨ env.checkModel m app.models = none)) := by
  cases hp : env.production
  · cases hc : env.checkModel m app.models with
    | none =>
      right
      exact ⟨model_accepted env app m (fun _ => hc), Or.inr rfl⟩
    | some e =>
      left
      exact ⟨e, by simp [create.model, hp, hc], rfl, rfl⟩
  · right
    exact ⟨model_accepted env app m (fun h => by simp [hp] at h), Or.inl rfl⟩

/-- The module list after `injectModel`: unchanged when `model` throws, and otherwise the
previous list followed by the qualified model, whatever happens afterwards. -/
theorem injectModel_models {σ P X F : Type} (env : Started σ P X F) (app : App σ P X F)
    (m : AppModel σ P X F) :
    ((∃ e, create.model env app m = .error e ∧ env.production = false ∧
        env.checkModel m app.models = some e ∧ (create.injectModel env app m).2 = some e) ∧
      (create.injectModel env app m).1.models = app.models) ∨
    ((env.production = true ∨ env.checkModel m app.models = none) ∧
      (create.injectModel env app m).1.models = app.models ++ [(prefixNamespace m).1]) := by
  rcases model_cases env app m with ⟨e, he, hp, hc⟩ | ⟨hok, hacc⟩
  · left
    refine ⟨⟨e, he, hp, hc, ?_⟩, ?_⟩
    · simp [create.injectModel, he]
    · simp [create.injectModel, he]
  · right
    refine ⟨hacc, ?_⟩
    unfold create.injectModel
    rw [hok]
    simp only []
    cases (prefixNamespace m).1.effects <;> cases (prefixNamespace m).1.subscriptions
    · rfl
    · simp only []
      split <;> rfl
    · rfl
    · simp only []
      split <;> rfl

/-- The module list after `unmodel`: unchanged when `unlisten` throws, filtered otherwise. -/
theorem unmodel_models {σ P X F : Type} (env : Started σ P X F) (app : App σ P X F)
    (ns : String) :
    (create.unmodel env app ns).1.models = app.models ∨
    (create.unmodel env app ns).1.models =
      app.models.filter (fun model => decide (model.«namespace» ≠ ns)) := by
  unfold create.unmodel
  simp only []
  split
  · left; rfl
  · right; rfl

/-- The module list after the block of `replaceModel` that removes the old model: unchanged
when `unlisten` throws, and otherwise without the model at the index. -/
theorem removeOld_models {σ P X F : Type} (env : Started σ P X F) (app : App σ P X F)
    (ns : String) (idx : Int) :
    (replaceModel.removeOld env app ns idx).1.models = app.models ∨
    (replaceModel.removeOld env app ns idx).1.models = app.models.eraseIdx idx.toNat := by
  unfold replaceModel.removeOld
  simp only []
  split
  · left; rfl
  · right; rfl

theorem subscriptions_models {σ P X F : Type} (env : Started σ P X F)
    (l : List (AppModel σ P X F)) :
    ∀ app : App σ P X F, (start.subscriptions env l app).1.models = app.models := by
  induction l with
  | nil => intro app; rfl
  | cons model rest ih =>
    intro app
    unfold start.subscriptions
    split
    · exact ih app
    · simp only []
      split
      · rfl
      · rw [ih]

/-- The function `start` leaves the module list as it was. -/
theorem start_models {σ P X F : Type} (env : Started σ P X F)
    (createStore : Obj (Reducer σ P) → Option JsError)
    (initialReducer : Obj (Reducer σ P)) (app : App σ P X F) :
    (create.start env createStore initialReducer app).app.models = app.models := by
  unfold create.start
  simp only []
  split
  · rfl
  · split
    · rfl
    · simp only []
      rw [subscriptions_models]


theorem unique_append {S H E X B : Type} (models : List (Model S H E X B))
    (m : Model S H E X B) (hnd : (models.map (fun x => x.«namespace»)).Nodup)
    (hno : ¬ ∃ x ∈ models, x.«namespace» = m.«namespace») :
    ((models ++ [(prefixNamespace m).1]).map (fun x => x.«namespace»)).Nodup := by
  rw [List.map_append, List.map_singleton, (prefixNamespace_keeps m).1]
  refine List.Nodup.append hnd (List.nodup_singleton _) ?_
  intro k hk hk'
  rw [List.mem_singleton] at hk'
  obtain ⟨x, hx, hxk⟩ := List.mem_map.mp hk
  exact hno ⟨x, hx, hxk.trans hk'⟩

/-- In development mode, with a `checkModel` that rejects a namespace already present,
`injectModel` keeps the namespaces of the module list pairwise distinct. -/
theorem injectModel_unique {σ P X F : Type} (env : Started σ P X F)
    (hdev : env.production = false)
    (hcheck : ∀ m ms, (∃ x ∈ ms, x.«namespace» = m.«namespace») → env.checkModel m ms ≠ none)
    (app : App σ P X F) (m : AppModel σ P X F)
    (hnd : (app.models.map (fun x => x.«namespace»)).Nodup) :
    ((create.injectModel env app m).1.models.map (fun x => x.«namespace»)).Nodup := by
  rcases injectModel_models env app m with ⟨_, h⟩ | ⟨hacc, h⟩
  · rw [h]
    exact hnd
  · rw [h]
    apply unique_append _ _ hnd
    intro hex
    rcases hacc with hp | hc
    · rw [hdev] at hp
      exact Bool.false_ne_true hp
    · exact hcheck m app.models hex hc

/-- In development mode, with a `checkModel` that rejects a namespace already present,
`replaceModel` keeps the namespaces of the module list pairwise distinct. -/
theorem replaceModel_unique {σ P X F : Type} (env : Started σ P X F)
    (hdev : env.production = false)
    (hcheck : ∀ m ms, (∃ x ∈ ms, x.«namespace» = m.«namespace») → env.checkModel m ms ≠ none)
    (app : App σ P X F) (m : AppModel σ P X F)
    (hnd : (app.models.map (fun x => x.«namespace»)).Nodup) :
    ((create.replaceModel env app m).1.models.map (fun x => x.«namespace»)).Nodup := by
  have hrem : ((if findIndex app.models
        (fun model _ => decide (model.«namespace» = m.«namespace»)) ≠ -1 then
      replaceModel.removeOld env app m.«namespace»
        (findIndex app.models (fun model _ => decide (model.«namespace» = m.«namespace»)))
    else (app, none)).1.models.map (fun x => x.«namespace»)).Nodup := by
    split
    · rcases removeOld_models env app m.«namespace»
        (findIndex app.models (fun model _ => decide (model.«namespace» = m.«namespace»)))
        with h | h
      · rw [h]
        exact hnd
      · rw [h]
        exact List.Nodup.sublist (List.Sublist.map _ (List.eraseIdx_sublist _ _)) hnd
    · exact hnd
  unfold create.replaceModel
  simp only []
  generalize (if findIndex app.models
        (fun model _ => decide (model.«namespace» = m.«namespace»)) ≠ -1 then
      replaceModel.removeOld env app m.«namespace»
        (findIndex app.models (fun model _ => decide (model.«namespace» = m.«namespace»)))
    else (app, none)) = removed at hrem ⊢
  have hinj := injectModel_unique env hdev hcheck removed.1 m hrem
  split
  · exact hrem
  · split
    · exact hinj
    · exact hinj

/-- C22 (amended): in development mode, with a `checkModel` that rejects a model whose
namespace is already in the module list, every state reached from a module list with
pairwise distinct namespaces by any sequence of registrations before or after `start`, of
`start`, of removals and of replacements has a module list with pairwise distinct
namespaces; there, registering a model whose namespace is present throws, before and after
`start`, and leaves the module list as it was. -/
theorem C22_unique_in_development {σ P X F : Type} (env : Started σ P X F)
    (createStore : Obj (Reducer σ P) → Option JsError)
    (hdev : env.production = false)
    (hcheck : ∀ m ms, (∃ x ∈ ms, x.«namespace» = m.«namespace») → env.checkModel m ms ≠ none)
    (app : App σ P X F) (hnd : (app.models.map (fun x => x.«namespace»)).Nodup)
    (ops : List (Operation σ P X F)) :
    ((Operation.applyAll env createStore app ops).models.map (fun x => x.«namespace»)).Nodup ∧
    ∀ m, (∃ x ∈ (Operation.applyAll env createStore app ops).models,
        x.«namespace» = m.«namespace») →
      (∃ e, create.model env (Operation.applyAll env createStore app ops) m = .error e) ∧
      (Operation.apply env createStore (Operation.applyAll env createStore app ops)
        (.register m)).models = (Operation.applyAll env createStore app ops).models ∧
      (∃ e, (create.injectModel env (Operation.applyAll env createStore app ops) m).2 =
        some e) ∧
      (create.injectModel env (Operation.applyAll env createStore app ops) m).1.models =
        (Operation.applyAll env createStore app ops).models := by
  constructor
  · unfold Operation.applyAll
    induction ops generalizing app with
    | nil => exact hnd
    | cons op rest ih =>
      rw [List.foldl_cons]
      apply ih
      cases op with
      | register m =>
        rcases model_cases env app m with ⟨e, he, _, _⟩ | ⟨hok, hacc⟩
        · simp only [Operation.apply, he]
          exact hnd
        · simp only [Operation.apply, hok]
          apply unique_append _ _ hnd
          intro hex
          rcases hacc with hp | hc
          · rw [hdev] at hp
            exact Bool.false_ne_true hp
          · exact hcheck m app.models hex hc
      | start initialReducer =>
        simp only [Operation.apply]
        rw [start_models]
        exact hnd
      | inject m => exact injectModel_unique env hdev hcheck app m hnd
      | unregister ns =>
        simp only [Operation.apply]
        rcases unmodel_models env app ns with h | h
        · rw [h]
          exact hnd
        · rw [h]
          exact List.Nodup.sublist (List.Sublist.map _ (List.filter_sublist _)) hnd
      | replace m => exact replaceModel_unique env hdev hcheck app m hnd
  · intro m hex
    generalize Operation.applyAll env createStore app ops = s at hex ⊢
    have hrej := hcheck m s.models hex
    rcases model_cases env s m with ⟨e, he, _, _⟩ | ⟨_, hacc⟩
    · refine ⟨⟨e, he⟩, ?_, ?_⟩
      · simp only [Operation.apply, he]
      · rcases injectModel_models env s m with ⟨⟨e', _, _, _, h2⟩, h⟩ | ⟨hacc, _⟩
        · exact ⟨⟨e', h2⟩, h⟩
        · exfalso
          rcases hacc with hp | hc
          · rw [hdev] at hp
            exact Bool.false_ne_true hp
          · exact hrej hc
    · exfalso
      rcases hacc with hp | hc
      · rw [hdev] at hp
        exact Bool.false_ne_true hp
      · exact hrej hc


theorem sampleCheckModel_rejects (m : AppModel JsNum Unit Unit String)
    (ms : List (AppModel JsNum Unit Unit String))
    (h : ∃ x ∈ ms, x.«namespace» = m.«namespace») : sampleCheckModel m ms ≠ none := by
  unfold sampleCheckModel
  by_cases he : m.«namespace» = ""
  · simp [he]
  · have hany : ms.any (fun x => decide (x.«namespace» = m.«namespace»)) = true := by
      rw [List.any_eq_true]
      obtain ⟨x, hx, hxn⟩ := h
      exact ⟨x, hx, by simpa using hxn⟩
    simp [he, hany]

/-- Witness for C22: in the sample development environment, from the application `create()`
returns, the sample sequence of operations leaves the module list `@@dva`, `counter`; the
second registration of `counter` and the second injection of `todo` are rejected. -/
theorem C22_unique_in_development_witness :
    sampleStarted.production = false ∧
    ((Operation.applyAll sampleStarted (fun _ => none) createdApp
      sampleOperations).models.map (fun x => x.«namespace»)).Nodup ∧
    (Operation.applyAll sampleStarted (fun _ => none) createdApp
      sampleOperations).models.map (fun x => x.«namespace») = ["@@dva", "counter"] ∧
    (Operation.applyAll sampleStarted (fun _ => none) createdApp
      (sampleOperations.take 5)).models.map (fun x => x.«namespace») =
        ["@@dva", "counter", "todo"] :=
  ⟨rfl,
    (C22_unique_in_development sampleStarted (fun _ => none) rfl sampleCheckModel_rejects
      createdApp (by decide) sampleOperations).1, rfl, rfl⟩

/-- C22 as stated fails: in production mode `model` does not call `checkModel`, so a second
registration of a model with the namespace `counter` is accepted, before `start` and after
it, and the module list holds two models with that namespace. -/
theorem C22_counterexample :
    productionStarted.production = true ∧
    (Operation.applyAll productionStarted (fun _ => none) createdApp
      [.register (plainModel "counter"), .register (plainModel "counter")]).models.map
        (fun x => x.«namespace») = ["@@dva", "counter", "counter"] ∧
    (Operation.applyAll productionStarted (fun _ => none) createdApp
      [.register (plainModel "counter"), .start [], .inject (plainModel "counter")]).models.map
        (fun x => x.«namespace») = ["@@dva", "counter", "counter"] ∧
    (create.injectModel productionStarted
      (Operation.applyAll productionStarted (fun _ => none) createdApp
        [.register (plainModel "counter"), .start []]) (plainModel "counter")).2 = none ∧
    (Operation.applyAll sampleStarted (fun _ => none) createdApp
      [.register (plainModel "counter"), .register (plainModel "counter")]).models.map
        (fun x => x.«namespace») = ["@@dva", "counter"] :=
  ⟨rfl, rfl, rfl, rfl, rfl⟩


/-! ## index.js: injected reducers and extra reducers -/

/-- In the map `{ ...reducers, ...extraReducers, ...asyncReducers }` an injected reducer
takes precedence over an extra reducer and over a static reducer of the same key. -/
theorem getOwn_createReducer_injected {σ P X F : Type} (env : Started σ P X F)
    (app : App σ P X F) (key : String) (r : Reducer σ P)
    (ha : (Obj.keys app.asyncReducers).Nodup)
    (h : Obj.getOwn app.asyncReducers key = some r) :
    Obj.getOwn (start.createReducer env app) key = some r := by
  unfold start.createReducer
  rw [getOwn_spread _ _ _ (nodup_keys_spread _ _) ha, h]

/-- C23: `injectModel` of a model that `checkModel` accepts against the module list (no check
is made in production mode) and whose subscriptions return is accepted whatever the extra
reducers are, in particular when the namespace of the model is a key of the extra reducers
or of the static reducers; the reducer composed from the model is stored among the injected
reducers, and in the map `{ ...reducers, ...extraReducers, ...asyncReducers }` handed to
`replaceReducer` the entry of the namespace is that reducer. -/
theorem C23_injected_reducer_wins {σ P X F : Type} (env : Started σ P X F)
    (app : App σ P X F) (m : AppModel σ P X F) (extra : Obj (Reducer σ P))
    (hvalid : env.production = false → env.checkModel m app.models = none)
    (hrun : ∀ subs, m.subscriptions = some subs →
      (run env.behaviour subs (env.prefixedDispatch (prefixNamespace m).1) env.history
        env.onError).error = none)
    (ha : (Obj.keys app.asyncReducers).Nodup) :
    (create.injectModel { env with extraReducers := extra } app m).2 = none ∧
    (create.injectModel { env with extraReducers := extra } app m).1.models =
      app.models ++ [(prefixNamespace m).1] ∧
    Obj.getOwn
        (start.createReducer { env with extraReducers := extra }
          (create.injectModel { env with extraReducers := extra } app m).1) m.«namespace» =
      some (getReducer (prefixNamespace m).1.reducers m.state env.handleActionsHook) ∧
    StoreEvent.replaceReducer
        (start.createReducer { env with extraReducers := extra }
          (create.injectModel { env with extraReducers := extra } app m).1) ∈
      (create.injectModel { env with extraReducers := extra } app m).1.events := by
  obtain ⟨e1, e2, e3, e4, _, _, e7⟩ :=
    injectModel_returns { env with extraReducers := extra } app m hvalid hrun
  refine ⟨e1, e2, ?_, ?_⟩
  · apply getOwn_createReducer_injected
    · rw [e4]
      exact Obj.nodup_keys_set _ _ _ ha
    · rw [e4, Obj.getOwn_set]
      simp
  · unfold start.createReducer
    rw [e3, e4]
    exact e7

/-- Witness for C23: in an application started with the extra reducer `counter`, which leaves
every state as it is, the model `counter` is injected in production mode; the entry
`counter` of the recomposed map is the reducer of the model, which maps the state `0` and
the action `counter/inc` to `1`. -/
theorem C23_injected_reducer_wins_witness :
    Obj.keys productionWithExtra.extraReducers = ["counter"] ∧
    (create.injectModel productionWithExtra startedWithExtra (plainModel "counter")).2 = none ∧
    (Obj.getOwn
        (start.createReducer productionWithExtra
          (create.injectModel productionWithExtra startedWithExtra
            (plainModel "counter")).1) "counter").map
      (fun r => r (some (.int 0)) { type := some "counter/inc", payload := () }) =
        some (.ok (some (.int 1))) :=
  have h := C23_injected_reducer_wins productionStarted startedWithExtra (plainModel "counter")
    [("counter", identify)] (fun hp => absurd hp (by decide)) (fun _ hs => by cases hs)
    (by decide)
  ⟨rfl, h.1, (congrArg (Option.map (fun r => r (some (.int 0))
    { type := some "counter/inc", payload := () })) h.2.2.1).trans rfl⟩

/-! ## prefixType: applying it twice -/

/-- C24: for the qualified model of `{ namespace: "toString", reducers: { toString } }`,
whose declared key does not start with `toString/`, and the type `@@x`, `prefixType` is not
idempotent: the first call reads `reducers["toString"]` from `Object.prototype` and returns
`toString/@@x`, and the second call finds the own key `toString/toString` and returns
`toString/toString/@@x`. For the model that declares both `inc` and `counter/inc`, outside
the precondition, the second call also qualifies again. -/
theorem C24_inherited_namespace_not_idempotent :
    Obj.keys [("toString", (inc : Reducer JsNum Unit))] = ["toString"] ∧
    startsWith "toString" ("toString" ++ "/") = false ∧
    (prefixNamespace selfNamedModel).1.reducers = some (.map [("toString/toString", inc)]) ∧
    prefixType "@@x" (prefixNamespace selfNamedModel).1 = "toString/@@x" ∧
    prefixType (prefixType "@@x" (prefixNamespace selfNamedModel).1)
      (prefixNamespace selfNamedModel).1 = "toString/toString/@@x" ∧
    prefixType (prefixType "@@x" (prefixNamespace selfNamedModel).1)
      (prefixNamespace selfNamedModel).1 ≠ prefixType "@@x" (prefixNamespace selfNamedModel).1 ∧
    prefixType "inc" (prefixNamespace doubledModel).1 = "counter/inc" ∧
    prefixType (prefixType "inc" (prefixNamespace doubledModel).1)
      (prefixNamespace doubledModel).1 = "counter/counter/inc" := by
  refine ⟨rfl, by decide, rfl, by decide, by decide, by decide, by decide, by decide⟩


/-- The search for the affix goes past a leading part when a slash follows it: a match
reaches the end of the input and has no slash after its first character. -/
theorem stripAffixChars_append (pre s : List Char) (hs : '/' ∈ s) :
    stripAffixChars (pre ++ s) = pre ++ stripAffixChars s := by
  induction pre with
  | nil => rfl
  | cons c rest ih =>
    have hno : matchesAffix (c :: (rest ++ s)) = false := by
      cases hm : matchesAffix (c :: (rest ++ s)) with
      | false => rfl
      | true =>
        exfalso
        exact matchesAffix_tail _ hm (by simp [hs])
    rw [List.cons_append, stripAffixChars, hno, ih]
    simp

/-- The type `N/t` without its affix is `N` itself or starts with `N/`. -/
theorem stripAffix_qualified (N t : String) :
    stripAffix (N ++ "/" ++ t) = N ∨ startsWith (stripAffix (N ++ "/" ++ t)) (N ++ "/") = true := by
  have hdata : (N ++ "/" ++ t).data = N.data ++ ('/' :: t.data) := by
    simp [String.data_append]
  have hstrip : (stripAffix (N ++ "/" ++ t)).data =
      N.data ++ stripAffixChars ('/' :: t.data) := by
    simp only [stripAffix, hdata]
    exact stripAffixChars_append N.data ('/' :: t.data) (List.mem_cons_self _ _)
  cases hm : matchesAffix ('/' :: t.data) with
  | true =>
    left
    apply String.ext
    rw [hstrip, stripAffixChars, hm]
    simp
  | false =>
    right
    simp only [startsWith]
    rw [hstrip, stripAffixChars, hm]
    simp only [Bool.false_eq_true, if_false, String.data_append]
    rw [List.isPrefixOf_iff_prefix]
    exact ⟨stripAffixChars t.data, by simp⟩

/-- Qualifying a qualified type once more: the type without its affix gains the namespace. -/
theorem stripAffix_requalified (N t : String) :
    stripAffix (N ++ "/" ++ (N ++ "/" ++ t)) = N ++ "/" ++ stripAffix (N ++ "/" ++ t) := by
  apply String.ext
  have h := stripAffixChars_append (N.data ++ ['/']) (N.data ++ ('/' :: t.data)) (by simp)
  simp only [stripAffix, String.data_append]
  simpa using h

theorem inherited_name_has_no_slash : ∀ k ∈ objectPrototypeKeys, '/' ∉ k.data := by
  decide

theorem namespace_ne_qualified (N k : String) : N ≠ N ++ "/" ++ k := by
  intro h
  have h1 := congrArg (fun s : String => s.data.length) h
  simp [String.data_append] at h1

/-- An own key of the reducer map or of the effect map of a qualified model is `N/k` for a
key `k` the caller declared. -/
theorem qualified_own_keys {S H E F B : Type} (model : Model S H E F B)
    (hr : ∀ h, (model.reducers = some (.map h) ∨ ∃ e, model.reducers = some (.pair h e)) →
      (Obj.keys h).Nodup)
    (he : ∀ eff, model.effects = some eff → (Obj.keys eff).Nodup) (w : String)
    (hw : (∃ h, ((prefixNamespace model).1.reducers = some (.map h) ∨
          ∃ e, (prefixNamespace model).1.reducers = some (.pair h e)) ∧ w ∈ Obj.keys h) ∨
      (∃ eff, (prefixNamespace model).1.effects = some eff ∧ w ∈ Obj.keys eff)) :
    ∃ k, w = model.«namespace» ++ "/" ++ k ∧
      ((∃ h, (model.reducers = some (.map h) ∨ ∃ e, model.reducers = some (.pair h e)) ∧
          k ∈ Obj.keys h) ∨
        (∃ eff, model.effects = some eff ∧ k ∈ Obj.keys eff)) := by
  rw [prefixNamespace_fst] at hw
  obtain ⟨ns, st, rs, es, sb⟩ := model
  simp only at hw hr he ⊢
  have hkeys : ∀ {V : Type} (o : Obj V) (type : String), (Obj.keys o).Nodup →
      w ∈ Obj.keys (prefixKeys o ns type).1 → ∃ k, w = ns ++ "/" ++ k ∧ k ∈ Obj.keys o := by
    intro V o type hnd hmem
    rw [prefixKeys_eq ns type o hnd, keys_qualified] at hmem
    obtain ⟨k, hk, hkw⟩ := List.mem_map.mp hmem
    exact ⟨k, hkw.symm, hk⟩
  rcases hw with ⟨h, hh, hmem⟩ | ⟨eff, heff, hmem⟩
  · cases rs with
    | none =>
      rcases hh with hh | ⟨e, hh⟩ <;> simp at hh
    | some r =>
      cases r with
      | map h0 =>
        rcases hh with hh | ⟨e, hh⟩
        · simp only [Option.some.injEq, Reducers.map.injEq] at hh
          subst hh
          obtain ⟨k, hk1, hk2⟩ := hkeys h0 "reducer" (hr h0 (Or.inl rfl)) hmem
          exact ⟨k, hk1, Or.inl ⟨h0, Or.inl rfl, hk2⟩⟩
        · simp at hh
      | pair h0 e0 =>
        rcases hh with hh | ⟨e, hh⟩
        · simp at hh
        · simp only [Option.some.injEq, Reducers.pair.injEq] at hh
          obtain ⟨hh1, _⟩ := hh
          subst hh1
          obtain ⟨k, hk1, hk2⟩ := hkeys h0 "reducer" (hr h0 (Or.inr ⟨e0, rfl⟩)) hmem
          exact ⟨k, hk1, Or.inl ⟨h0, Or.inr ⟨e0, rfl⟩, hk2⟩⟩
  · cases es with
    | none => simp at heff
    | some eff0 =>
      simp only [Option.some.injEq] at heff
      subst heff
      obtain ⟨k, hk1, hk2⟩ := hkeys eff0 "effect" (he eff0 rfl) hmem
      exact ⟨k, hk1, Or.inr ⟨eff0, rfl, hk2⟩⟩


/-- For a qualified model whose namespace is no property name of `Object.prototype` and none
of whose declared reducer or effect keys starts with `N/`, `prefixType` is idempotent: a
type it has qualified is returned as it is by a second call. -/
theorem prefixType_idempotent {S H E F B : Type} (model : Model S H E F B) (t : String)
    (hr : ∀ h, (model.reducers = some (.map h) ∨ ∃ e, model.reducers = some (.pair h e)) →
      (Obj.keys h).Nodup ∧ ∀ k ∈ Obj.keys h, startsWith k (model.«namespace» ++ "/") = false)
    (he : ∀ eff, model.effects = some eff →
      (Obj.keys eff).Nodup ∧ ∀ k ∈ Obj.keys eff, startsWith k (model.«namespace» ++ "/") = false)
    (hN : model.«namespace» ∉ objectPrototypeKeys) :
    prefixType (prefixType t (prefixNamespace model).1) (prefixNamespace model).1 =
      prefixType t (prefixNamespace model).1 := by
  have hns := (prefixNamespace_keeps model).1
  have hown := qualified_own_keys model (fun h hh => (hr h hh).1) (fun eff hf => (he eff hf).1)
  have hdecl : ∀ k,
      ((∃ h, (model.reducers = some (.map h) ∨ ∃ e, model.reducers = some (.pair h e)) ∧
          k ∈ Obj.keys h) ∨
        (∃ eff, model.effects = some eff ∧ k ∈ Obj.keys eff)) →
      startsWith k (model.«namespace» ++ "/") = false := by
    intro k hk
    rcases hk with ⟨h, hh, hmem⟩ | ⟨eff, hf, hmem⟩
    · exact (hr h hh).2 k hmem
    · exact (he eff hf).2 k hmem
  obtain ⟨hyes, hnot⟩ := prefixType_eq t (prefixNamespace model).1
  obtain ⟨_, hnot2⟩ := prefixType_eq ((prefixNamespace model).1.«namespace» ++ "/" ++ t)
    (prefixNamespace model).1
  by_cases hM :
      (∃ h, ((prefixNamespace model).1.reducers = some (.map h) ∨
            ∃ e, (prefixNamespace model).1.reducers = some (.pair h e)) ∧
          stripAffix ((prefixNamespace model).1.«namespace» ++ "/" ++ t) ∈ Obj.keys h) ∨
        (∃ eff, (prefixNamespace model).1.effects = some eff ∧
          stripAffix ((prefixNamespace model).1.«namespace» ++ "/" ++ t) ∈ Obj.keys eff) ∨
        (((prefixNamespace model).1.reducers ≠ none ∨ (prefixNamespace model).1.effects ≠ none) ∧
          stripAffix ((prefixNamespace model).1.«namespace» ++ "/" ++ t) ∈ objectPrototypeKeys)
  · rw [hyes hM]
    apply hnot2
    intro hc
    rw [hns] at hc hM
    rw [stripAffix_requalified] at hc
    -- the type without its affix, after the first call, is a declared key
    have hw : ∃ k, model.«namespace» ++ "/" ++ stripAffix (model.«namespace» ++ "/" ++ t) =
          model.«namespace» ++ "/" ++ k ∧
        startsWith k (model.«namespace» ++ "/") = false := by
      rcases hc with ⟨h, hh, hmem⟩ | ⟨eff, hf, hmem⟩ | ⟨_, hmem⟩
      · obtain ⟨k, hk1, hk2⟩ := hown _ (Or.inl ⟨h, hh, hmem⟩)
        exact ⟨k, hk1, hdecl k hk2⟩
      · obtain ⟨k, hk1, hk2⟩ := hown _ (Or.inr ⟨eff, hf, hmem⟩)
        exact ⟨k, hk1, hdecl k hk2⟩
      · exfalso
        apply inherited_name_has_no_slash _ hmem
        simp [String.data_append]
    obtain ⟨k, hk1, hk2⟩ := hw
    have hk : stripAffix (model.«namespace» ++ "/" ++ t) = k := qualify_inj _ _ _ hk1
    rw [← hk] at hk2
    have hwN : stripAffix (model.«namespace» ++ "/" ++ t) = model.«namespace» := by
      rcases stripAffix_qualified model.«namespace» t with h | h
      · exact h
      · rw [h] at hk2
        exact absurd hk2 (by decide)
    rw [hwN] at hM
    rcases hM with ⟨h, hh, hmem⟩ | ⟨eff, hf, hmem⟩ | ⟨_, hmem⟩
    · obtain ⟨k', hk1', _⟩ := hown _ (Or.inl ⟨h, hh, hmem⟩)
      exact namespace_ne_qualified _ _ hk1'
    · obtain ⟨k', hk1', _⟩ := hown _ (Or.inr ⟨eff, hf, hmem⟩)
      exact namespace_ne_qualified _ _ hk1'
    · exact hN hmem
  · rw [hnot hM]
    exact hnot hM

end Dva
